import Mathlib

/-!
# AIC 880d80 ring engine: shallow embedding and verification

The C sources embedded here are `aic880d80_rx.c`, `aic880d80_tx.c`,
`aic880d80_interrupt.c` (the interrupt handler and the poll routine) and
`aic880d80_hw_reset`, `aic880d80_setup_rings` and `aic880d80_free_rings` of
`aic880d80_main.c`.  Constants and the descriptor layout used by the ring
files (`buffer`, `AIC880D80_BUFFER_SIZE`, `AIC880D80_REG_TX_CTRL`,
`AIC880D80_REG_INT_STS`) are the ones of `aic880d80.c`; the flag and bit
constants are the ones of `aic880d80.h`.

Conventions of the embedding:
* `u32` values are `Nat`; additions that can wrap are reduced modulo `2^32`.
* C arrays are total functions on `Nat`; the code only ever indexes them
  with `x % RING_SIZE` or with a loop counter below the ring size.
* pointers to packet buffers are `Option sk_buff`, `none` being `NULL`.
* every call into the kernel (allocation, DMA mapping, release, delivery,
  MMIO, queue control) is appended to the `trace` of the device state, with
  the argument values of the call, in program order.
* stores to driver memory are updates of the device state.  Where the order of
  the stores relative to a kernel call matters (`aic880d80_start_xmit`), the
  function is embedded a second time statement by statement, listing every
  store and call in program order, and shown to compute the same result.
* the drain hands the pending-table entry at `rx_tail` to the kernel without a
  `NULL` test, and the C code faults if it is `NULL`; on a well-formed ring
  (`rx_wf`) every entry the drain reaches is non-`NULL`.
* results of kernel calls that the driver cannot determine (allocation and
  mapping outcomes) are inputs of the embedded function.
* hardware acts between driver calls by rewriting descriptors.
-/

namespace AIC880D80

/-! ## Constants -/

/-- The kernel macro `BIT(n)`. -/
def BIT (n : Nat) : Nat := 1 <<< n

/-- Register offset `AIC880D80_REG_TX_CTRL` (aic880d80.c). -/
def AIC880D80_REG_TX_CTRL : Nat := 0x24

/-- Descriptor flag `AIC880D80_DESC_OWN`: descriptor owned by hardware. -/
def AIC880D80_DESC_OWN : Nat := BIT 31

/-- Ring size `AIC880D80_RX_RING_SIZE`. -/
def AIC880D80_RX_RING_SIZE : Nat := 256

/-- Ring size `AIC880D80_TX_RING_SIZE`. -/
def AIC880D80_TX_RING_SIZE : Nat := 256

/-- Buffer size `AIC880D80_BUFFER_SIZE` (aic880d80.c). -/
def AIC880D80_BUFFER_SIZE : Nat := 2048

/-- Buffer size `AIC880D80_RX_BUFFER_SIZE` (aic880d80.h). -/
def AIC880D80_RX_BUFFER_SIZE : Nat := 2048

/-- Buffer size `AIC880D80_TX_BUFFER_SIZE` (aic880d80.h). -/
def AIC880D80_TX_BUFFER_SIZE : Nat := 2048

/-- Reduction of an arithmetic result to the `u32` range. -/
def u32 (x : Nat) : Nat := x % 4294967296

/-! ## Data model -/

/-- The descriptor `struct aic880d80_desc` in the layout of aic880d80.c, which is
the one the ring code compiles against (`desc->buffer`); `reserved` is never
accessed and is left out. -/
structure aic880d80_desc where
  status : Nat
  length : Nat
  buffer : Nat
deriving DecidableEq

/-- A packet buffer `struct sk_buff`, identified by its data pointer, with `skb->len`. -/
structure sk_buff where
  data : Nat
  len : Nat
deriving DecidableEq

/-- DMA transfer direction. -/
inductive dma_dir where
  | DMA_TO_DEVICE
  | DMA_FROM_DEVICE
deriving DecidableEq

/-- Memory objects released by `aic880d80_free_rings`. -/
inductive ring_mem where
  | rx_skbs
  | tx_skbs
  | rx_dma_addrs
  | tx_dma_addrs
  | rx_ring
  | tx_ring
deriving DecidableEq

/-- Calls into the kernel made by the driver, with their arguments (and, for
allocation and mapping, the result the kernel gave). -/
inductive Event where
  | netdev_alloc_skb_ip_align (size : Nat) (result : Option sk_buff)
  | dma_map_single (data : Nat) (size : Nat) (dir : dma_dir) (result : Option Nat)
  | dma_unmap_single (addr : Nat) (size : Nat) (dir : dma_dir)
  | dev_kfree_skb (skb : Option sk_buff)
  | skb_put (skb : Option sk_buff) (len : Nat)
  | eth_type_trans (skb : Option sk_buff)
  | netif_receive_skb (skb : Option sk_buff)
  | netif_stop_queue
  | netif_wake_queue
  | writel (val : Nat) (reg : Nat)
  | napi_complete_done (work_done : Int)
  | kfree (obj : ring_mem)
  | dma_free_coherent (obj : ring_mem)
  | readl (reg : Nat) (val : Nat)
  | napi_schedule
  | usleep_range (min : Nat) (max : Nat)
  | dma_alloc_coherent (obj : ring_mem) (ok : Bool)
  | kcalloc (obj : ring_mem) (ok : Bool)
deriving DecidableEq

/-- The device state `struct aic880d80_private`: rings, pending tables, indices
(the fields the ring code uses, common to aic880d80.c and aic880d80_main.c),
the `*_dma_addrs` arrays and ring sizes that only aic880d80_main.c has, whether
the ring pointers are non-`NULL`, the receive error counter of the statistics
block (`rx_errors`), the coherency flag, and the log of kernel calls made so far. -/
structure aic880d80_private where
  rx_ring : Nat → aic880d80_desc
  tx_ring : Nat → aic880d80_desc
  rx_ring_nonnull : Bool
  tx_ring_nonnull : Bool
  rx_skbs : Nat → Option sk_buff
  tx_skbs : Nat → Option sk_buff
  rx_dma_addrs : Nat → Nat
  tx_dma_addrs : Nat → Nat
  rx_head : Nat
  rx_tail : Nat
  tx_head : Nat
  tx_tail : Nat
  rx_ring_size : Nat
  tx_ring_size : Nat
  rx_errors : Nat
  arm64_coherent_dma : Bool
  trace : List Event

/-- Result type `netdev_tx_t` of the transmit entry point. -/
inductive netdev_tx_t where
  | NETDEV_TX_OK
  | NETDEV_TX_BUSY
deriving DecidableEq

/-- Record one kernel call in the log. -/
def emit (priv : aic880d80_private) (e : Event) : aic880d80_private :=
  { priv with trace := priv.trace ++ [e] }

/-- The accessor `aic880d80_write32`: one MMIO write. -/
def aic880d80_write32 (priv : aic880d80_private) (reg val : Nat) : aic880d80_private :=
  emit priv (Event.writel val reg)

/-- The test `desc->status & AIC880D80_DESC_OWN`. -/
def desc_owned (d : aic880d80_desc) : Bool :=
  (d.status &&& AIC880D80_DESC_OWN) != 0

/-! ## Receive engine (aic880d80_rx.c) -/

/-- Outcomes of the kernel calls of one `aic880d80_alloc_rx_buffers` invocation:
the result of the allocation and of the mapping attempted in the `k`-th loop
iteration (`none`: `NULL`, respectively `dma_mapping_error`). -/
structure alloc_env where
  alloc : Nat → Option sk_buff
  map : Nat → Option Nat

/-- The `while` loop of `aic880d80_alloc_rx_buffers`; `k` counts the iterations
done, `fuel` bounds the remaining ones (`none`: bound exceeded). -/
def alloc_rx_loop (env : alloc_env) : Nat → Nat → aic880d80_private → Option aic880d80_private
  | 0, _, _ => none
  | fuel + 1, k, priv =>
    if u32 (priv.rx_head + 1) % AIC880D80_RX_RING_SIZE != priv.rx_tail then
      let entry := priv.rx_head % AIC880D80_RX_RING_SIZE
      if (priv.rx_skbs entry).isSome then some priv
      else
        let priv := emit priv (Event.netdev_alloc_skb_ip_align AIC880D80_BUFFER_SIZE (env.alloc k))
        match env.alloc k with
        | none => some priv
        | some skb =>
          let priv := emit priv (Event.dma_map_single skb.data AIC880D80_BUFFER_SIZE
            dma_dir.DMA_FROM_DEVICE (env.map k))
          match env.map k with
          | none => some (emit priv (Event.dev_kfree_skb (some skb)))
          | some dma_addr =>
            let desc : aic880d80_desc :=
              { buffer := dma_addr, length := AIC880D80_BUFFER_SIZE, status := AIC880D80_DESC_OWN }
            alloc_rx_loop env fuel (k + 1)
              { priv with
                rx_ring := Function.update priv.rx_ring entry desc
                rx_skbs := Function.update priv.rx_skbs entry (some skb)
                rx_head := u32 (priv.rx_head + 1) % AIC880D80_RX_RING_SIZE }
    else some priv

/-- The function `aic880d80_alloc_rx_buffers`.  Every successful iteration fills a
table entry that was `NULL`, so the loop makes at most `RX_RING_SIZE` of them
and one more test. -/
def aic880d80_alloc_rx_buffers (env : alloc_env) (priv : aic880d80_private) :
    Option aic880d80_private :=
  alloc_rx_loop env (AIC880D80_RX_RING_SIZE + 1) 0 priv

/-- The `while` loop of `aic880d80_process_rx_ring`; the first argument is
`budget - work_done`.  The C code hands `rx_skbs[entry]` to `skb_put` without a
`NULL` test and faults there when the entry is `NULL`; the embedding logs the
calls with the entry as it stands, so what it says about a delivery describes
the C code only where the entry is not `NULL`, as on every slot of the window
of a well-formed ring (`rx_wf`). -/
def process_rx_loop : Nat → aic880d80_private → aic880d80_private
  | 0, priv => priv
  | left + 1, priv =>
    if priv.rx_tail != priv.rx_head then
      let entry := priv.rx_tail % AIC880D80_RX_RING_SIZE
      let desc := priv.rx_ring entry
      if desc_owned desc then priv
      else
        let skb := priv.rx_skbs entry
        let priv := emit priv (Event.dma_unmap_single desc.buffer desc.length dma_dir.DMA_FROM_DEVICE)
        let priv := emit priv (Event.skb_put skb desc.length)
        let priv := emit priv (Event.eth_type_trans skb)
        let priv := emit priv (Event.netif_receive_skb skb)
        process_rx_loop left
          { priv with
            rx_skbs := Function.update priv.rx_skbs entry none
            rx_tail := u32 (priv.rx_tail + 1) % AIC880D80_RX_RING_SIZE }
    else priv

/-- The function `aic880d80_process_rx_ring`; `budget` is a C `int`. -/
def aic880d80_process_rx_ring (priv : aic880d80_private) (budget : Int) : aic880d80_private :=
  process_rx_loop budget.toNat priv

/-- The function `aic880d80_napi_poll`: returns `work_done` and the new state. -/
def aic880d80_napi_poll (env : alloc_env) (priv : aic880d80_private) (budget : Int) :
    Option (Int × aic880d80_private) :=
  let work_done : Int := 0
  let priv := aic880d80_process_rx_ring priv budget
  let priv := emit priv (Event.napi_complete_done work_done)
  match aic880d80_alloc_rx_buffers env priv with
  | none => none
  | some priv => some (work_done, priv)

/-! ## Transmit engine (aic880d80_tx.c) -/

/-- The function `aic880d80_start_xmit`; `map_result` is what `dma_map_single`
gives for this packet (`none`: `dma_mapping_error`). -/
def aic880d80_start_xmit (map_result : Option Nat) (skb : sk_buff) (priv : aic880d80_private) :
    netdev_tx_t × aic880d80_private :=
  let entry := priv.tx_head % AIC880D80_TX_RING_SIZE
  if u32 (priv.tx_head + 1) % AIC880D80_TX_RING_SIZE == priv.tx_tail then
    (netdev_tx_t.NETDEV_TX_BUSY, emit priv Event.netif_stop_queue)
  else
    let priv := emit priv (Event.dma_map_single skb.data skb.len dma_dir.DMA_TO_DEVICE map_result)
    match map_result with
    | none => (netdev_tx_t.NETDEV_TX_OK, emit priv (Event.dev_kfree_skb (some skb)))
    | some dma_addr =>
      let desc : aic880d80_desc :=
        { buffer := dma_addr, length := skb.len, status := AIC880D80_DESC_OWN }
      let priv := { priv with
        tx_ring := Function.update priv.tx_ring entry desc
        tx_skbs := Function.update priv.tx_skbs entry (some skb)
        tx_head := u32 (priv.tx_head + 1) % AIC880D80_TX_RING_SIZE }
      (netdev_tx_t.NETDEV_TX_OK, aic880d80_write32 priv AIC880D80_REG_TX_CTRL 1)

/-- One statement of `aic880d80_start_xmit` that acts on driver memory or calls
the kernel: a kernel call, a store to one field of descriptor `tx_ring[entry]`,
a store to `tx_skbs[entry]`, or a store to `tx_head`. -/
inductive tx_op where
  | call (e : Event)
  | store_desc_buffer (entry : Nat) (val : Nat)
  | store_desc_length (entry : Nat) (val : Nat)
  | store_desc_status (entry : Nat) (val : Nat)
  | store_tx_skbs (entry : Nat) (skb : Option sk_buff)
  | store_tx_head (val : Nat)
deriving DecidableEq

/-- The effect of one statement on the device state. -/
def tx_op_apply (priv : aic880d80_private) : tx_op → aic880d80_private
  | tx_op.call e => emit priv e
  | tx_op.store_desc_buffer entry val =>
    { priv with
      tx_ring := Function.update priv.tx_ring entry { priv.tx_ring entry with buffer := val } }
  | tx_op.store_desc_length entry val =>
    { priv with
      tx_ring := Function.update priv.tx_ring entry { priv.tx_ring entry with length := val } }
  | tx_op.store_desc_status entry val =>
    { priv with
      tx_ring := Function.update priv.tx_ring entry { priv.tx_ring entry with status := val } }
  | tx_op.store_tx_skbs entry skb =>
    { priv with tx_skbs := Function.update priv.tx_skbs entry skb }
  | tx_op.store_tx_head val => { priv with tx_head := val }

/-- Execute one statement: apply it to the state and append it to the list of
statements executed so far. -/
def tx_do (st : aic880d80_private × List tx_op) (o : tx_op) : aic880d80_private × List tx_op :=
  (tx_op_apply st.1 o, st.2 ++ [o])

/-- The function `aic880d80_start_xmit` statement by statement: the result, the
final state, and the stores and kernel calls executed, in program order
(aic880d80_tx.c lines 16 to 36). -/
def aic880d80_start_xmit_steps (map_result : Option Nat) (skb : sk_buff)
    (priv : aic880d80_private) : netdev_tx_t × aic880d80_private × List tx_op :=
  let entry := priv.tx_head % AIC880D80_TX_RING_SIZE
  let st : aic880d80_private × List tx_op := (priv, [])
  if u32 (st.1.tx_head + 1) % AIC880D80_TX_RING_SIZE == st.1.tx_tail then
    let st := tx_do st (tx_op.call Event.netif_stop_queue)
    (netdev_tx_t.NETDEV_TX_BUSY, st)
  else
    let st := tx_do st
      (tx_op.call (Event.dma_map_single skb.data skb.len dma_dir.DMA_TO_DEVICE map_result))
    match map_result with
    | none =>
      let st := tx_do st (tx_op.call (Event.dev_kfree_skb (some skb)))
      (netdev_tx_t.NETDEV_TX_OK, st)
    | some dma_addr =>
      let st := tx_do st (tx_op.store_desc_buffer entry dma_addr)
      let st := tx_do st (tx_op.store_desc_length entry skb.len)
      let st := tx_do st (tx_op.store_desc_status entry AIC880D80_DESC_OWN)
      let st := tx_do st (tx_op.store_tx_skbs entry (some skb))
      let st := tx_do st (tx_op.store_tx_head (u32 (st.1.tx_head + 1) % AIC880D80_TX_RING_SIZE))
      let st := tx_do st (tx_op.call (Event.writel 1 AIC880D80_REG_TX_CTRL))
      (netdev_tx_t.NETDEV_TX_OK, st)

/-- The `while` loop of `aic880d80_clean_tx_ring`; `fuel` bounds the number of
iterations (`none`: bound exceeded). -/
def clean_tx_loop : Nat → aic880d80_private → Option aic880d80_private
  | 0, _ => none
  | fuel + 1, priv =>
    if priv.tx_tail != priv.tx_head then
      let entry := priv.tx_tail % AIC880D80_TX_RING_SIZE
      let desc := priv.tx_ring entry
      if desc_owned desc then some priv
      else
        let priv := emit priv (Event.dma_unmap_single desc.buffer desc.length dma_dir.DMA_TO_DEVICE)
        let priv := emit priv (Event.dev_kfree_skb (priv.tx_skbs entry))
        clean_tx_loop fuel { priv with tx_tail := u32 (priv.tx_tail + 1) % AIC880D80_TX_RING_SIZE }
    else some priv

/-- The function `aic880d80_clean_tx_ring`.  After its first iteration `tx_tail`
is below the ring size and steps by one, so with `tx_head` a ring index the
loop ends within `TX_RING_SIZE + 1` iterations and one more test. -/
def aic880d80_clean_tx_ring (priv : aic880d80_private) : Option aic880d80_private :=
  clean_tx_loop (AIC880D80_TX_RING_SIZE + 2) priv

/-! ## Tear-down (aic880d80_main.c) -/

/-- Body of the loop "Free RX buffers" of `aic880d80_free_rings`. -/
def free_rx_slot (priv : aic880d80_private) (i : Nat) : aic880d80_private :=
  if (priv.rx_skbs i).isSome then
    let priv :=
      if priv.rx_dma_addrs i != 0 then
        emit priv (Event.dma_unmap_single (priv.rx_dma_addrs i) AIC880D80_RX_BUFFER_SIZE
          dma_dir.DMA_FROM_DEVICE)
      else priv
    emit priv (Event.dev_kfree_skb (priv.rx_skbs i))
  else priv

/-- Body of the loop "Free TX buffers" of `aic880d80_free_rings`. -/
def free_tx_slot (priv : aic880d80_private) (i : Nat) : aic880d80_private :=
  if (priv.tx_skbs i).isSome then
    let priv :=
      if priv.tx_dma_addrs i != 0 then
        emit priv (Event.dma_unmap_single (priv.tx_dma_addrs i) AIC880D80_TX_BUFFER_SIZE
          dma_dir.DMA_TO_DEVICE)
      else priv
    emit priv (Event.dev_kfree_skb (priv.tx_skbs i))
  else priv

/-- The function `aic880d80_free_rings`. -/
def aic880d80_free_rings (priv : aic880d80_private) : aic880d80_private :=
  let priv := (List.range priv.rx_ring_size).foldl free_rx_slot priv
  let priv := (List.range priv.tx_ring_size).foldl free_tx_slot priv
  let priv := emit priv (Event.kfree ring_mem.rx_skbs)
  let priv := emit priv (Event.kfree ring_mem.tx_skbs)
  let priv := emit priv (Event.kfree ring_mem.rx_dma_addrs)
  let priv := emit priv (Event.kfree ring_mem.tx_dma_addrs)
  let priv := if priv.rx_ring_nonnull then emit priv (Event.dma_free_coherent ring_mem.rx_ring) else priv
  if priv.tx_ring_nonnull then emit priv (Event.dma_free_coherent ring_mem.tx_ring) else priv

/-! ## Hardware and call sequences -/

/-- Slot `i` of a ring of `N` slots lies in the window `[tail, head)` taken modulo `N`. -/
def in_window (N tail head i : Nat) : Prop :=
  i < N ∧ (i + N - tail) % N < (head + N - tail) % N

instance in_window_decidable (N tail head i : Nat) : Decidable (in_window N tail head i) := by
  unfold in_window
  infer_instance

/-- Well-formed RX ring: both indices are ring indices and the pending table is
non-empty exactly on the window `[rx_tail, rx_head)`. -/
def rx_wf (priv : aic880d80_private) : Prop :=
  priv.rx_head < AIC880D80_RX_RING_SIZE ∧ priv.rx_tail < AIC880D80_RX_RING_SIZE ∧
  ∀ i, i < AIC880D80_RX_RING_SIZE →
    ((priv.rx_skbs i).isSome = true ↔
      in_window AIC880D80_RX_RING_SIZE priv.rx_tail priv.rx_head i)

/-- Hardware writes descriptor `d` into RX slot `e` (on completion: ownership
flag cleared, received length set). -/
def hw_rx_write (e : Nat) (d : aic880d80_desc) (priv : aic880d80_private) : aic880d80_private :=
  { priv with rx_ring := Function.update priv.rx_ring e d }

/-- Hardware writes descriptor `d` into TX slot `e` (on completion: ownership
flag cleared). -/
def hw_tx_write (e : Nat) (d : aic880d80_desc) (priv : aic880d80_private) : aic880d80_private :=
  { priv with tx_ring := Function.update priv.tx_ring e d }

/-- One step of a history of the RX ring: a refill call with the outcomes of its
kernel calls, a drain call with its budget, or hardware rewriting the
descriptor ring (`ring` is the content it leaves). -/
inductive rx_op where
  | refill (env : alloc_env)
  | drain (budget : Int)
  | hw (ring : Nat → aic880d80_desc)

/-- Effect of one step of an RX history. -/
def rx_step (priv : aic880d80_private) : rx_op → Option aic880d80_private
  | rx_op.refill env => aic880d80_alloc_rx_buffers env priv
  | rx_op.drain budget => some (aic880d80_process_rx_ring priv budget)
  | rx_op.hw ring => some { priv with rx_ring := ring }

/-- The states observed after each step of an RX history (`none`: a call did not return). -/
def rx_run : aic880d80_private → List rx_op → Option (List aic880d80_private)
  | _, [] => some []
  | priv, op :: ops =>
    match rx_step priv op with
    | none => none
    | some p =>
      match rx_run p ops with
      | none => none
      | some ps => some (p :: ps)

/-- A device state with both rings idle: indices zero, tables and descriptors
zeroed, nothing logged. -/
def idle_state : aic880d80_private :=
  { rx_ring := fun _ => { status := 0, length := 0, buffer := 0 }
    tx_ring := fun _ => { status := 0, length := 0, buffer := 0 }
    rx_ring_nonnull := true
    tx_ring_nonnull := true
    rx_skbs := fun _ => none
    tx_skbs := fun _ => none
    rx_dma_addrs := fun _ => 0
    tx_dma_addrs := fun _ => 0
    rx_head := 0
    rx_tail := 0
    tx_head := 0
    tx_tail := 0
    rx_ring_size := AIC880D80_RX_RING_SIZE
    tx_ring_size := AIC880D80_TX_RING_SIZE
    rx_errors := 0
    arm64_coherent_dma := true
    trace := [] }

/-- The `j`-th slot counted from `rx_tail`. -/
def rx_slot (priv : aic880d80_private) (j : Nat) : Nat :=
  (priv.rx_tail + j) % AIC880D80_RX_RING_SIZE

/-- The kernel calls one drain iteration makes for slot `e`, in program order:
unmap with the descriptor's address and length, `skb_put` of the recorded
buffer by the descriptor's length, `eth_type_trans`, delivery upstream. -/
def rx_slot_events (priv : aic880d80_private) (e : Nat) : List Event :=
  [ Event.dma_unmap_single (priv.rx_ring e).buffer (priv.rx_ring e).length dma_dir.DMA_FROM_DEVICE,
    Event.skb_put (priv.rx_skbs e) (priv.rx_ring e).length,
    Event.eth_type_trans (priv.rx_skbs e),
    Event.netif_receive_skb (priv.rx_skbs e) ]

/-- The kernel calls of draining the first `m` slots from `rx_tail`, in slot order. -/
def rx_drain_events (priv : aic880d80_private) (m : Nat) : List Event :=
  (List.range m).flatMap (fun j => rx_slot_events priv (rx_slot priv j))

/-- The packets handed to `netif_receive_skb` in a log, each with the length
given to the `skb_put` that precedes its delivery. -/
def delivered : List Event → List (Option sk_buff × Nat)
  | Event.skb_put skb len :: Event.eth_type_trans _ :: Event.netif_receive_skb _ :: rest =>
    (skb, len) :: delivered rest
  | _ :: rest => delivered rest
  | [] => []

/-- Outcomes of a refill in which every allocation and every mapping succeeds:
the `k`-th buffer has data pointer `base + 4096 * k` and is mapped at that address. -/
def env_ok (base : Nat) : alloc_env :=
  { alloc := fun k => some { data := base + 4096 * k, len := 0 }
    map := fun k => some (base + 4096 * k) }

/-- Outcomes of a refill whose first allocation fails. -/
def env_nomem : alloc_env :=
  { alloc := fun _ => none
    map := fun _ => none }

/-- An RX ring holding three armed slots 0, 1, 2 of which hardware has
completed slot 0 with length 64 and slot 1 with length 128. -/
def rx_demo_state : aic880d80_private :=
  { idle_state with
    rx_head := 3
    rx_tail := 0
    rx_skbs := fun i => if i < 3 then some { data := 4096 * (i + 1), len := 0 } else none
    rx_ring := fun i =>
      if i = 0 then { status := 0, length := 64, buffer := 4096 }
      else if i = 1 then { status := 0, length := 128, buffer := 8192 }
      else if i = 2 then { status := AIC880D80_DESC_OWN, length := 2048, buffer := 12288 }
      else { status := 0, length := 0, buffer := 0 } }

/-- Submission of a list of packets, each with the address its DMA mapping
yields, by successive `aic880d80_start_xmit` calls: the results in call order
and the final state. -/
def xmit_all : List (sk_buff × Nat) → aic880d80_private → List netdev_tx_t × aic880d80_private
  | [], priv => ([], priv)
  | p :: rest, priv =>
    ((aic880d80_start_xmit (some p.2) p.1 priv).1 ::
        (xmit_all rest (aic880d80_start_xmit (some p.2) p.1 priv).2).1,
      (xmit_all rest (aic880d80_start_xmit (some p.2) p.1 priv).2).2)

/-- The descriptor `aic880d80_start_xmit` writes for a packet mapped at `dma_addr`. -/
def tx_desc_of (skb : sk_buff) (dma_addr : Nat) : aic880d80_desc :=
  { buffer := dma_addr, length := skb.len, status := AIC880D80_DESC_OWN }

/-- A 60-byte outbound packet used in the examples. -/
def tx_demo_skb : sk_buff := { data := 20480, len := 60 }

/-- The packets of the backpressure example: 255 packets of 60 bytes, the `j`-th
with data pointer and mapped address `4096 * (j + 1)`. -/
def tx_demo_pkts : List (sk_buff × Nat) :=
  (List.range 255).map (fun j => ({ data := 4096 * (j + 1), len := 60 }, 4096 * (j + 1)))

/-- Three outbound packets with the addresses their mappings yield. -/
def tx_three_pkts : List (sk_buff × Nat) :=
  [({ data := 4096, len := 60 }, 4096), ({ data := 8192, len := 1514 }, 8192),
   ({ data := 12288, len := 342 }, 12288)]

/-- The device state after three packets were queued on the idle ring and none
was completed by hardware. -/
def tx_three_queued : aic880d80_private := (xmit_all tx_three_pkts idle_state).2

/-- The calls `aic880d80_free_rings` makes on `tx_three_queued`: three buffer
releases, four array releases, two ring releases, and no unmap. -/
def tx_three_teardown : List Event :=
  [Event.dev_kfree_skb (some { data := 4096, len := 60 }),
   Event.dev_kfree_skb (some { data := 8192, len := 1514 }),
   Event.dev_kfree_skb (some { data := 12288, len := 342 }),
   Event.kfree ring_mem.rx_skbs, Event.kfree ring_mem.tx_skbs,
   Event.kfree ring_mem.rx_dma_addrs, Event.kfree ring_mem.tx_dma_addrs,
   Event.dma_free_coherent ring_mem.rx_ring, Event.dma_free_coherent ring_mem.tx_ring]

/-- The kernel calls logged in state `q` since state `base` was observed. -/
def trace_since (base q : aic880d80_private) : List Event :=
  q.trace.drop base.trace.length

/-- Round-trip bookkeeping for buffer `b` drained from slot `e` in state `s0`:
since `s0` the log of `q` holds no delivery of `b`, `b` is in no table entry,
and whatever slot `e` holds was acquired by an allocation call logged since `s0`. -/
def rt_inv (s0 : aic880d80_private) (b : sk_buff) (e : Nat) (q : aic880d80_private) : Prop :=
  ∃ D, q.trace = s0.trace ++ D ∧
    D.count (Event.netif_receive_skb (some b)) = 0 ∧
    (∀ i, q.rx_skbs i ≠ some b) ∧
    (∀ x, q.rx_skbs e = some x →
      Event.netdev_alloc_skb_ip_align AIC880D80_BUFFER_SIZE (some x) ∈ D)

/-- The buffer armed in slot 0 of `rx_demo_state`. -/
def rx_demo_buf : sk_buff := { data := 4096, len := 0 }

/-- A history after the first drain of the round-trip example: a refill whose
allocations and mappings succeed with buffers from address 1048576 on, then a
drain with budget 5. -/
def rx_demo_ops : List rx_op := [rx_op.refill (env_ok 1048576), rx_op.drain 5]

/-! ## Event dispatcher (aic880d80_interrupt.c) -/

/-- Register offset `AIC880D80_REG_INT_STS` (aic880d80.c). -/
def AIC880D80_REG_INT_STS : Nat := 0x0C

/-- Interrupt bit `AIC880D80_INT_RX_DONE`: RX completion. -/
def AIC880D80_INT_RX_DONE : Nat := BIT 0

/-- Interrupt bit `AIC880D80_INT_TX_DONE`: TX completion. -/
def AIC880D80_INT_TX_DONE : Nat := BIT 1

/-- Interrupt bit `AIC880D80_INT_RX_ERROR` (aic880d80.h): RX error. -/
def AIC880D80_INT_RX_ERROR : Nat := BIT 2

/-- Interrupt bit `AIC880D80_INT_TX_ERROR` (aic880d80.h): TX error. -/
def AIC880D80_INT_TX_ERROR : Nat := BIT 3

/-- Interrupt bit `AIC880D80_INT_LINK_CHANGE` (aic880d80.h): link status change. -/
def AIC880D80_INT_LINK_CHANGE : Nat := BIT 4

/-- Descriptor flag `AIC880D80_DESC_ERR`: error occurred. -/
def AIC880D80_DESC_ERR : Nat := BIT 27

/-- Result type `irqreturn_t` of the interrupt handler. -/
inductive irqreturn_t where
  | IRQ_NONE
  | IRQ_HANDLED
deriving DecidableEq

/-- The function `aic880d80_interrupt`; `status` is the value the read of the
interrupt-status register returns (`none`: the reclaim it calls did not return). -/
def aic880d80_interrupt (status : Nat) (priv : aic880d80_private) :
    Option (irqreturn_t × aic880d80_private) :=
  let priv := emit priv (Event.readl AIC880D80_REG_INT_STS status)
  let handled : Nat := 0
  let rx_done := (status &&& AIC880D80_INT_RX_DONE) != 0
  let tx_done := (status &&& AIC880D80_INT_TX_DONE) != 0
  let priv := if rx_done then emit priv Event.napi_schedule else priv
  let handled := if rx_done then 1 else handled
  match (if tx_done then aic880d80_clean_tx_ring priv else some priv) with
  | none => none
  | some priv =>
    let handled := if tx_done then 1 else handled
    let priv := aic880d80_write32 priv AIC880D80_REG_INT_STS status
    some (if handled != 0 then irqreturn_t.IRQ_HANDLED else irqreturn_t.IRQ_NONE, priv)

/-! ## Refill bookkeeping -/

/-- Iteration `j` of a refill acquires and maps its buffer successfully. -/
def env_success (env : alloc_env) (j : Nat) : Bool :=
  (env.alloc j).isSome && (env.map j).isSome

/-- Number of successful acquire-and-map steps before the first failure, among
the iterations `k, k + 1, ...` and at most `f` of them. -/
def armed_count (env : alloc_env) : Nat → Nat → Nat
  | 0, _ => 0
  | f + 1, k => if env_success env k then armed_count env f (k + 1) + 1 else 0

/-- The kernel calls of refill iteration `j`, in program order: the allocation,
the mapping when a buffer was obtained, the release when the mapping failed. -/
def refill_slot_events (env : alloc_env) (j : Nat) : List Event :=
  Event.netdev_alloc_skb_ip_align AIC880D80_BUFFER_SIZE (env.alloc j) ::
    match env.alloc j with
    | none => []
    | some skb =>
      Event.dma_map_single skb.data AIC880D80_BUFFER_SIZE dma_dir.DMA_FROM_DEVICE (env.map j) ::
        match env.map j with
        | none => [Event.dev_kfree_skb (some skb)]
        | some _ => []

/-- Number of loop iterations a refill with `f` free slots attempts when `m` of
them succeed: one more than `m` when it stops on a failure. -/
def refill_attempts (f m : Nat) : Nat := if m < f then m + 1 else m

/-- Number of free slots of the RX ring, `N - 1 - ((rx_head - rx_tail) mod N)`. -/
def rx_free (priv : aic880d80_private) : Nat :=
  AIC880D80_RX_RING_SIZE - 1 -
    (priv.rx_head + AIC880D80_RX_RING_SIZE - priv.rx_tail) % AIC880D80_RX_RING_SIZE

/-- Table entries of RX slots below the ring size that are `NULL`. -/
def rx_empty_slots (priv : aic880d80_private) : Finset Nat :=
  (Finset.range AIC880D80_RX_RING_SIZE).filter (fun i => priv.rx_skbs i = none)

/-- An RX ring holding three armed slots 0, 1, 2, all still owned by hardware. -/
def rx_armed_state : aic880d80_private :=
  { rx_demo_state with
    rx_ring := fun i =>
      if i < 3 then { status := AIC880D80_DESC_OWN, length := 2048, buffer := 4096 * (i + 1) }
      else { status := 0, length := 0, buffer := 0 } }

/-- A full RX ring: slots 0 to 254 armed, `rx_head = 255`, `rx_tail = 0`. -/
def rx_full_state : aic880d80_private :=
  { idle_state with
    rx_head := 255
    rx_tail := 0
    rx_skbs := fun i => if i < 255 then some { data := 4096 * (i + 1), len := 0 } else none
    rx_ring := fun i =>
      if i < 255 then { status := AIC880D80_DESC_OWN, length := 2048, buffer := 4096 * (i + 1) }
      else { status := 0, length := 0, buffer := 0 } }

/-- The `j`-th slot counted from `tx_tail`. -/
def tx_slot (priv : aic880d80_private) (j : Nat) : Nat :=
  (priv.tx_tail + j) % AIC880D80_TX_RING_SIZE

/-- The kernel calls one reclaim iteration makes for slot `e`, in program order:
unmap with the descriptor's address and length, release of the recorded packet. -/
def tx_slot_events (priv : aic880d80_private) (e : Nat) : List Event :=
  [ Event.dma_unmap_single (priv.tx_ring e).buffer (priv.tx_ring e).length dma_dir.DMA_TO_DEVICE,
    Event.dev_kfree_skb (priv.tx_skbs e) ]

/-- The kernel calls of reclaiming the first `k` slots from `tx_tail`, in ring order. -/
def tx_reclaim_events (priv : aic880d80_private) (k : Nat) : List Event :=
  (List.range k).flatMap (fun j => tx_slot_events priv (tx_slot priv j))

/-- The state after one reclaim iteration on the slot at `tx_tail`. -/
def tx_reclaim_step (priv : aic880d80_private) : aic880d80_private :=
  { priv with
    trace := priv.trace ++ tx_slot_events priv (priv.tx_tail % AIC880D80_TX_RING_SIZE)
    tx_tail := (priv.tx_tail + 1) % AIC880D80_TX_RING_SIZE }

/-- The TX ring with three packets queued of which hardware has completed the
first two (status written as 0), the third still being owned by hardware. -/
def tx_two_done : aic880d80_private :=
  hw_tx_write 1 { status := 0, length := 1514, buffer := 8192 }
    (hw_tx_write 0 { status := 0, length := 60, buffer := 4096 } tx_three_queued)

/-- The descriptor `aic880d80_alloc_rx_buffers` writes for a buffer mapped at `dma_addr`. -/
def rx_desc_of (dma_addr : Nat) : aic880d80_desc :=
  { buffer := dma_addr, length := AIC880D80_BUFFER_SIZE, status := AIC880D80_DESC_OWN }

/-- Outcomes of a refill whose first two iterations succeed (buffers at
`base`, `base + 4096`) and whose third allocation succeeds but fails to map. -/
def env_two_then_mapfail (base : Nat) : alloc_env :=
  { alloc := fun k => some { data := base + 4096 * k, len := 0 }
    map := fun k => if k < 2 then some (base + 4096 * k) else none }

/-- The state after one drain iteration on the slot at `rx_tail`. -/
def rx_drain_step (priv : aic880d80_private) : aic880d80_private :=
  { priv with
    trace := priv.trace ++ rx_slot_events priv (priv.rx_tail % AIC880D80_RX_RING_SIZE)
    rx_skbs := Function.update priv.rx_skbs (priv.rx_tail % AIC880D80_RX_RING_SIZE) none
    rx_tail := (priv.rx_tail + 1) % AIC880D80_RX_RING_SIZE }

/-- An RX ring with one armed slot that hardware completed with the error flag
set: status `AIC880D80_DESC_ERR`, length 64. -/
def rx_err_state : aic880d80_private :=
  { idle_state with
    rx_head := 1
    rx_tail := 0
    rx_skbs := fun i => if i = 0 then some { data := 4096, len := 0 } else none
    rx_ring := fun i =>
      if i = 0 then { status := AIC880D80_DESC_ERR, length := 64, buffer := 4096 }
      else { status := 0, length := 0, buffer := 0 } }

/-! ## Bring-up (aic880d80_main.c) -/

/-- Register offset `AIC880D80_REG_CTRL` (aic880d80.h, used by aic880d80_main.c). -/
def AIC880D80_REG_CTRL : Nat := 0x008

/-- Register offset `AIC880D80_REG_CACHE_CTRL`. -/
def AIC880D80_REG_CACHE_CTRL : Nat := 0x104

/-- Control bit `AIC880D80_CTRL_RESET`: software reset. -/
def AIC880D80_CTRL_RESET : Nat := BIT 0

/-- Control bit `AIC880D80_CTRL_ARM64_OPT`. -/
def AIC880D80_CTRL_ARM64_OPT : Nat := BIT 16

/-- Control bit `AIC880D80_CTRL_CACHE_COH`. -/
def AIC880D80_CTRL_CACHE_COH : Nat := BIT 17

/-- Control bit `AIC880D80_CTRL_PREFETCH_EN`. -/
def AIC880D80_CTRL_PREFETCH_EN : Nat := BIT 18

/-- Cache control bit `AIC880D80_CACHE_COHERENT`. -/
def AIC880D80_CACHE_COHERENT : Nat := BIT 0

/-- Cache control bit `AIC880D80_CACHE_LINE_64`. -/
def AIC880D80_CACHE_LINE_64 : Nat := BIT 1

/-- Cache control bit `AIC880D80_CACHE_PREFETCH`. -/
def AIC880D80_CACHE_PREFETCH : Nat := BIT 3

/-- The kernel error number `ETIMEDOUT`. -/
def ETIMEDOUT : Int := 110

/-- The kernel error number `ENOMEM`. -/
def ENOMEM : Int := 12

/-- The loop `while (timeout--)` of `aic880d80_hw_reset`.  The first argument is
the value of `timeout` the loop test reads, `k` the number of control-register
reads made so far, `reads k` the value the `k`-th read returns.  The result is
the value of `timeout` after the loop, the number of reads made, and the state. -/
def hw_reset_poll (reads : Nat → Nat) : Nat → Nat → aic880d80_private →
    Int × Nat × aic880d80_private
  | 0, k, priv => (-1, k, priv)
  | t + 1, k, priv =>
    let ctrl := reads k
    let priv := emit priv (Event.readl AIC880D80_REG_CTRL ctrl)
    if (ctrl &&& AIC880D80_CTRL_RESET) == 0 then ((t : Int), k + 1, priv)
    else hw_reset_poll reads t (k + 1) (emit priv (Event.usleep_range 10 20))

/-- The function `aic880d80_hw_reset` of aic880d80_main.c (its debug and error
messages left out); the result is the C return value and the state. -/
def aic880d80_hw_reset (reads : Nat → Nat) (priv : aic880d80_private) :
    Int × aic880d80_private :=
  let priv := aic880d80_write32 priv AIC880D80_REG_CTRL AIC880D80_CTRL_RESET
  let r := hw_reset_poll reads 1000 0 priv
  let timeout := r.1
  let priv := r.2.2
  if timeout ≤ 0 then (-ETIMEDOUT, priv)
  else
    let ctrl := reads r.2.1
    let priv := emit priv (Event.readl AIC880D80_REG_CTRL ctrl)
    let ctrl := if priv.arm64_coherent_dma then ctrl ||| AIC880D80_CTRL_CACHE_COH else ctrl
    let ctrl := ctrl ||| (AIC880D80_CTRL_ARM64_OPT ||| AIC880D80_CTRL_PREFETCH_EN)
    let priv := aic880d80_write32 priv AIC880D80_REG_CTRL ctrl
    let priv := aic880d80_write32 priv AIC880D80_REG_CACHE_CTRL
      (AIC880D80_CACHE_COHERENT ||| AIC880D80_CACHE_LINE_64 ||| AIC880D80_CACHE_PREFETCH)
    (0, priv)

/-- Control-register reads in which the RESET bit is set on the first 999 polls
and clear from the 1000th on. -/
def reset_reads_late (k : Nat) : Nat := if k < 999 then AIC880D80_CTRL_RESET else 0

/-- The calls of a reset poll that finds the RESET bit set: the read and the sleep. -/
def reset_poll_events (reads : Nat → Nat) (j : Nat) : List Event :=
  [Event.readl AIC880D80_REG_CTRL (reads j), Event.usleep_range 10 20]

/-- Outcomes of the kernel calls of `aic880d80_setup_rings`: whether each of the
two ring allocations and four array allocations succeeds, and the outcomes of
the allocation and mapping of RX buffer `i`. -/
structure setup_env where
  rx_ring_ok : Bool
  tx_ring_ok : Bool
  rx_skbs_ok : Bool
  tx_skbs_ok : Bool
  rx_dma_ok : Bool
  tx_dma_ok : Bool
  bufs : alloc_env

/-- The loop "Allocate RX buffers" of `aic880d80_setup_rings`: the first argument
counts the iterations left, `i` is the loop index; the result is `false` when
the loop leaves through `goto err_rx_buffers`. -/
def setup_rx_buffers (env : alloc_env) : Nat → Nat → aic880d80_private →
    Bool × aic880d80_private
  | 0, _, priv => (true, priv)
  | n + 1, i, priv =>
    let priv := emit priv (Event.netdev_alloc_skb_ip_align AIC880D80_RX_BUFFER_SIZE (env.alloc i))
    match env.alloc i with
    | none => (false, priv)
    | some skb =>
      let priv := emit priv (Event.dma_map_single skb.data AIC880D80_RX_BUFFER_SIZE
        dma_dir.DMA_FROM_DEVICE (env.map i))
      match env.map i with
      | none => (false, emit priv (Event.dev_kfree_skb (some skb)))
      | some dma_addr =>
        setup_rx_buffers env n (i + 1)
          { priv with
            rx_skbs := Function.update priv.rx_skbs i (some skb)
            rx_dma_addrs := Function.update priv.rx_dma_addrs i dma_addr
            rx_ring := Function.update priv.rx_ring i
              { buffer := dma_addr, length := AIC880D80_RX_BUFFER_SIZE,
                status := AIC880D80_DESC_OWN } }

/-- The unwind from label `err_tx_ring` of `aic880d80_setup_rings`. -/
def setup_err_tx_ring (priv : aic880d80_private) : aic880d80_private :=
  emit priv (Event.dma_free_coherent ring_mem.rx_ring)

/-- The unwind from label `err_rx_skbs`. -/
def setup_err_rx_skbs (priv : aic880d80_private) : aic880d80_private :=
  setup_err_tx_ring (emit priv (Event.dma_free_coherent ring_mem.tx_ring))

/-- The unwind from label `err_tx_skbs`. -/
def setup_err_tx_skbs (priv : aic880d80_private) : aic880d80_private :=
  setup_err_rx_skbs (emit priv (Event.kfree ring_mem.rx_skbs))

/-- The unwind from label `err_rx_dma`. -/
def setup_err_rx_dma (priv : aic880d80_private) : aic880d80_private :=
  setup_err_tx_skbs (emit priv (Event.kfree ring_mem.tx_skbs))

/-- The unwind from label `err_tx_dma`. -/
def setup_err_tx_dma (priv : aic880d80_private) : aic880d80_private :=
  setup_err_rx_dma (emit priv (Event.kfree ring_mem.rx_dma_addrs))

/-- The unwind from label `err_rx_buffers`. -/
def setup_err_rx_buffers (priv : aic880d80_private) : aic880d80_private :=
  setup_err_tx_dma
    (emit ((List.range priv.rx_ring_size).foldl free_rx_slot priv)
      (Event.kfree ring_mem.tx_dma_addrs))

/-- The function `aic880d80_setup_rings` (its error messages left out); the result
is the C return value and the state. -/
def aic880d80_setup_rings (env : setup_env) (priv : aic880d80_private) :
    Int × aic880d80_private :=
  let priv := { priv with
    rx_ring_size := AIC880D80_RX_RING_SIZE, tx_ring_size := AIC880D80_TX_RING_SIZE }
  let priv := emit { priv with rx_ring_nonnull := env.rx_ring_ok }
    (Event.dma_alloc_coherent ring_mem.rx_ring env.rx_ring_ok)
  if !env.rx_ring_ok then (-ENOMEM, priv)
  else
  let priv := emit { priv with tx_ring_nonnull := env.tx_ring_ok }
    (Event.dma_alloc_coherent ring_mem.tx_ring env.tx_ring_ok)
  if !env.tx_ring_ok then (-ENOMEM, setup_err_tx_ring priv)
  else
  let priv := emit { priv with rx_skbs := fun _ => none }
    (Event.kcalloc ring_mem.rx_skbs env.rx_skbs_ok)
  if !env.rx_skbs_ok then (-ENOMEM, setup_err_rx_skbs priv)
  else
  let priv := emit { priv with tx_skbs := fun _ => none }
    (Event.kcalloc ring_mem.tx_skbs env.tx_skbs_ok)
  if !env.tx_skbs_ok then (-ENOMEM, setup_err_tx_skbs priv)
  else
  let priv := emit { priv with rx_dma_addrs := fun _ => 0 }
    (Event.kcalloc ring_mem.rx_dma_addrs env.rx_dma_ok)
  if !env.rx_dma_ok then (-ENOMEM, setup_err_rx_dma priv)
  else
  let priv := emit { priv with tx_dma_addrs := fun _ => 0 }
    (Event.kcalloc ring_mem.tx_dma_addrs env.tx_dma_ok)
  if !env.tx_dma_ok then (-ENOMEM, setup_err_tx_dma priv)
  else
  let priv := { priv with
    rx_head := 0, rx_tail := 0, tx_head := 0, tx_tail := 0
    rx_ring := fun _ => { status := 0, length := 0, buffer := 0 }
    tx_ring := fun _ => { status := 0, length := 0, buffer := 0 } }
  let r := setup_rx_buffers env.bufs priv.rx_ring_size 0 priv
  if r.1 then (0, r.2) else (-ENOMEM, setup_err_rx_buffers r.2)

/-- Outcomes of a bring-up in which every allocation and mapping succeeds. -/
def setup_env_ok : setup_env :=
  { rx_ring_ok := true, tx_ring_ok := true, rx_skbs_ok := true, tx_skbs_ok := true
    rx_dma_ok := true, tx_dma_ok := true, bufs := env_ok 4096 }

/-- The device state after a bring-up of the idle state in which every
allocation and mapping succeeds. -/
def bringup_state : aic880d80_private := (aic880d80_setup_rings setup_env_ok idle_state).2

/-- An RX ring with one armed slot that hardware completed writing the largest
32-bit value, 4294967295, into the length field. -/
def rx_long_state : aic880d80_private :=
  { idle_state with
    rx_head := 1
    rx_tail := 0
    rx_skbs := fun i => if i = 0 then some { data := 4096, len := 0 } else none
    rx_ring := fun i =>
      if i = 0 then { status := 0, length := 4294967295, buffer := 4096 }
      else { status := 0, length := 0, buffer := 0 } }

/-! ## Basic facts -/

theorem rx_ring_size_eq : AIC880D80_RX_RING_SIZE = 256 := rfl

theorem tx_ring_size_eq : AIC880D80_TX_RING_SIZE = 256 := rfl

theorem desc_own_eq : AIC880D80_DESC_OWN = 2147483648 := rfl

/-- One drain iteration on a well-formed ring leaves it well-formed. -/
theorem rx_wf_drain_step (priv q : aic880d80_private) (h : rx_wf priv)
    (hne : priv.rx_tail ≠ priv.rx_head)
    (hqh : q.rx_head = priv.rx_head)
    (hqt : q.rx_tail = u32 (priv.rx_tail + 1) % AIC880D80_RX_RING_SIZE)
    (hqs : q.rx_skbs = Function.update priv.rx_skbs (priv.rx_tail % AIC880D80_RX_RING_SIZE) none) :
    rx_wf q := by
  obtain ⟨hh, ht, hs⟩ := h
  simp only [rx_wf, in_window, rx_ring_size_eq, u32] at *
  rw [hqh, hqt, hqs]
  refine ⟨hh, Nat.mod_lt _ (by norm_num), ?_⟩
  intro i hi
  have hi0 := hs i hi
  by_cases hie : i = priv.rx_tail % 256
  · subst hie
    simp only [Function.update_same, Option.isSome_none]
    constructor
    · intro hf; cases hf
    · intro hw; exfalso; omega
  · rw [Function.update_noteq hie]
    rw [hi0]
    constructor
    · intro hw; omega
    · intro hw; omega

theorem process_rx_loop_wf (n : Nat) (priv : aic880d80_private) (h : rx_wf priv) :
    rx_wf (process_rx_loop n priv) := by
  induction n generalizing priv with
  | zero => simpa [process_rx_loop] using h
  | succ n ih =>
    simp only [process_rx_loop]
    split_ifs with h1 h2
    · exact h
    · have hne : priv.rx_tail ≠ priv.rx_head := by simpa using h1
      exact ih _ (rx_wf_drain_step priv _ h hne rfl rfl rfl)
    · exact h

/-- One refill iteration on a well-formed ring that is not full leaves it well-formed. -/
theorem rx_wf_refill_step (priv q : aic880d80_private) (skb : sk_buff) (h : rx_wf priv)
    (hnf : u32 (priv.rx_head + 1) % AIC880D80_RX_RING_SIZE ≠ priv.rx_tail)
    (hqh : q.rx_head = u32 (priv.rx_head + 1) % AIC880D80_RX_RING_SIZE)
    (hqt : q.rx_tail = priv.rx_tail)
    (hqs : q.rx_skbs =
      Function.update priv.rx_skbs (priv.rx_head % AIC880D80_RX_RING_SIZE) (some skb)) :
    rx_wf q := by
  obtain ⟨hh, ht, hs⟩ := h
  simp only [rx_wf, in_window, rx_ring_size_eq, u32] at *
  rw [hqh, hqt, hqs]
  refine ⟨Nat.mod_lt _ (by norm_num), ht, ?_⟩
  intro i hi
  have hi0 := hs i hi
  by_cases hie : i = priv.rx_head % 256
  · subst hie
    simp only [Function.update_same, Option.isSome_some, true_iff]
    omega
  · rw [Function.update_noteq hie]
    rw [hi0]
    constructor
    · intro hw; omega
    · intro hw; omega

/-- The refill loop on a well-formed ring returns as soon as `fuel` exceeds the
number of free slots, and leaves the ring well-formed. -/
theorem alloc_rx_loop_wf (env : alloc_env) (fuel k : Nat) (priv : aic880d80_private)
    (h : rx_wf priv)
    (hf : (priv.rx_tail + 255 - priv.rx_head) % 256 < fuel) :
    ∃ q, alloc_rx_loop env fuel k priv = some q ∧ rx_wf q := by
  induction fuel generalizing k priv with
  | zero => omega
  | succ fuel ih =>
    simp only [alloc_rx_loop]
    split_ifs with h1 h2
    · exact ⟨_, rfl, h⟩
    · split
      · exact ⟨_, rfl, h⟩
      · split
        · exact ⟨_, rfl, h⟩
        · have hnf : u32 (priv.rx_head + 1) % AIC880D80_RX_RING_SIZE ≠ priv.rx_tail := by
            simpa using h1
          apply ih
          · exact rx_wf_refill_step priv _ _ h hnf rfl rfl rfl
          · obtain ⟨hh, ht, _⟩ := h
            simp only [rx_ring_size_eq, u32, emit] at *
            omega
    · exact ⟨_, rfl, h⟩

theorem flatMap_congr_mem {α β : Type} (l : List α) (f g : α → List β)
    (h : ∀ a, a ∈ l → f a = g a) : l.flatMap f = l.flatMap g := by
  induction l with
  | nil => rfl
  | cons a l ih =>
    simp only [List.flatMap_cons]
    rw [h a (List.mem_cons_self a l), ih (fun b hb => h b (List.mem_cons_of_mem a hb))]

/-- The drain loop stops at once on an empty ring. -/
theorem process_rx_loop_empty (n : Nat) (priv : aic880d80_private)
    (he : priv.rx_tail = priv.rx_head) : process_rx_loop n priv = priv := by
  cases n with
  | zero => rfl
  | succ n =>
    simp only [process_rx_loop]
    rw [if_neg (by simpa using he)]

/-- The drain loop stops at once on a descriptor still owned by hardware. -/
theorem process_rx_loop_owned (n : Nat) (priv : aic880d80_private)
    (ho : desc_owned (priv.rx_ring (priv.rx_tail % AIC880D80_RX_RING_SIZE)) = true) :
    process_rx_loop n priv = priv := by
  cases n with
  | zero => rfl
  | succ n =>
    simp only [process_rx_loop]
    split_ifs <;> rfl

/-- One round of the drain loop on a completed descriptor. -/
theorem process_rx_loop_step (n : Nat) (priv : aic880d80_private)
    (hne : priv.rx_tail ≠ priv.rx_head)
    (hno : desc_owned (priv.rx_ring (priv.rx_tail % AIC880D80_RX_RING_SIZE)) = false) :
    ∃ s1, process_rx_loop (n + 1) priv = process_rx_loop n s1 ∧
      s1.trace = priv.trace ++ rx_slot_events priv (priv.rx_tail % AIC880D80_RX_RING_SIZE) ∧
      s1.rx_skbs = Function.update priv.rx_skbs (priv.rx_tail % AIC880D80_RX_RING_SIZE) none ∧
      s1.rx_tail = u32 (priv.rx_tail + 1) % AIC880D80_RX_RING_SIZE ∧
      s1.rx_head = priv.rx_head ∧ s1.rx_ring = priv.rx_ring := by
  refine ⟨{ priv with
      trace := priv.trace ++ rx_slot_events priv (priv.rx_tail % AIC880D80_RX_RING_SIZE)
      rx_skbs := Function.update priv.rx_skbs (priv.rx_tail % AIC880D80_RX_RING_SIZE) none
      rx_tail := u32 (priv.rx_tail + 1) % AIC880D80_RX_RING_SIZE }, ?_, rfl, rfl, rfl, rfl, rfl⟩
  simp only [process_rx_loop]
  rw [if_pos (by simpa using hne)]
  simp only [hno, Bool.false_eq_true, if_false]
  simp only [emit, rx_slot_events, List.append_assoc, List.singleton_append, List.cons_append,
      List.nil_append]


/-- Drain, general form: with exactly `k` completed slots at the tail of a
well-formed ring, `n` loop rounds consume `min n k` of them. -/
theorem process_rx_loop_spec (n k : Nat) (priv : aic880d80_private) (h : rx_wf priv)
    (hdone : ∀ j, j < k →
      in_window AIC880D80_RX_RING_SIZE priv.rx_tail priv.rx_head (rx_slot priv j) ∧
      desc_owned (priv.rx_ring (rx_slot priv j)) = false)
    (hnext : in_window AIC880D80_RX_RING_SIZE priv.rx_tail priv.rx_head (rx_slot priv k) →
      desc_owned (priv.rx_ring (rx_slot priv k)) = true) :
    (process_rx_loop n priv).trace = priv.trace ++ rx_drain_events priv (min n k) ∧
    (process_rx_loop n priv).rx_tail = rx_slot priv (min n k) ∧
    (process_rx_loop n priv).rx_head = priv.rx_head ∧
    (process_rx_loop n priv).rx_ring = priv.rx_ring ∧
    (∀ j, j < min n k → (process_rx_loop n priv).rx_skbs (rx_slot priv j) = none) ∧
    (∀ i, (∀ j, j < min n k → i ≠ rx_slot priv j) →
      (process_rx_loop n priv).rx_skbs i = priv.rx_skbs i) := by
  have hk : k ≤ 255 := by
    by_contra hc
    have := (hdone 255 (by omega)).1
    have ht := h.2.1
    simp only [in_window, rx_slot, rx_ring_size_eq] at this ht
    omega
  induction n generalizing k priv with
  | zero =>
    have ht := h.2.1
    simp only [rx_ring_size_eq] at ht
    have e0 : min 0 k = 0 := by omega
    rw [e0]
    refine ⟨by simp [process_rx_loop, rx_drain_events], ?_, rfl, rfl,
      fun j hj => absurd hj (Nat.not_lt_zero j), fun i _ => rfl⟩
    simp only [process_rx_loop, rx_slot, rx_ring_size_eq]
    omega
  | succ n ih =>
    have hh := h.1
    have ht := h.2.1
    simp only [rx_ring_size_eq] at hh ht
    have hmod : priv.rx_tail % AIC880D80_RX_RING_SIZE = priv.rx_tail := by
      simp only [rx_ring_size_eq]; omega
    have hs0 : rx_slot priv 0 = priv.rx_tail := by
      simp only [rx_slot, rx_ring_size_eq]; omega
    cases k with
    | zero =>
      have hstop : process_rx_loop (n + 1) priv = priv := by
        by_cases he : priv.rx_tail = priv.rx_head
        · exact process_rx_loop_empty _ _ he
        · apply process_rx_loop_owned
          rw [hmod, ← hs0]
          apply hnext
          simp only [in_window, rx_slot, rx_ring_size_eq]
          omega
      rw [hstop]
      have e0 : min (n + 1) 0 = 0 := by omega
      rw [e0]
      exact ⟨by simp [rx_drain_events], hs0.symm, rfl, rfl,
        fun j hj => absurd hj (Nat.not_lt_zero j), fun i _ => rfl⟩
    | succ k =>
      have h0 := hdone 0 (by omega)
      have hne : priv.rx_tail ≠ priv.rx_head := by
        have := h0.1
        simp only [in_window, rx_slot, rx_ring_size_eq] at this
        omega
      have hno : desc_owned (priv.rx_ring (priv.rx_tail % AIC880D80_RX_RING_SIZE)) = false := by
        have := h0.2
        rwa [hs0, ← hmod] at this
      obtain ⟨s1, hstep, htr, hsk, htl, hhd, hrg⟩ := process_rx_loop_step n priv hne hno
      rw [hmod] at htr hsk
      rw [hstep]
      have hwf1 : rx_wf s1 := rx_wf_drain_step priv s1 h hne hhd htl (by rw [hmod]; exact hsk)
      have hslot : ∀ j, rx_slot s1 j = rx_slot priv (j + 1) := by
        intro j
        simp only [rx_slot, rx_ring_size_eq, u32, htl]
        omega
      have hne_slot : ∀ j, j < k → rx_slot priv (j + 1) ≠ priv.rx_tail := by
        intro j hj
        simp only [rx_slot, rx_ring_size_eq]
        omega
      obtain ⟨i1, i2, i3, i4, i5, i6⟩ := ih k s1 hwf1
        (by
          intro j hj
          rw [hslot, hrg, htl, hhd]
          have := hdone (j + 1) (by omega)
          refine ⟨?_, this.2⟩
          have hw := this.1
          simp only [in_window, rx_slot, rx_ring_size_eq, u32] at hw ⊢
          omega)
        (by
          intro hw
          rw [hslot, htl, hhd] at hw
          rw [hslot, hrg]
          apply hnext
          simp only [in_window, rx_slot, rx_ring_size_eq, u32] at hw ⊢
          omega)
        (by omega)
      have hmin : min (n + 1) (k + 1) = min n k + 1 := by omega
      rw [hmin]
      refine ⟨?_, ?_, ?_, ?_, ?_, ?_⟩
      · rw [i1, htr]
        simp only [rx_drain_events, List.range_succ_eq_map, List.flatMap_cons, List.flatMap_map,
          hs0, List.append_assoc]
        congr 2
        apply flatMap_congr_mem
        intro j hj
        have hjlt : j < min n k := by simpa using hj
        simp only [rx_slot_events, Function.comp, hslot, hrg, hsk, Nat.succ_eq_add_one]
        rw [Function.update_noteq (hne_slot j (by omega))]
      · rw [i2, hslot]
      · rw [i3, hhd]
      · rw [i4, hrg]
      · intro j hj
        cases j with
        | zero =>
          rw [hs0, i6, hsk]
          · simp
          · intro j hj2
            rw [hslot]
            exact (hne_slot j (by omega)).symm
        | succ j =>
          have := i5 j (by omega)
          rwa [hslot] at this
      · intro i hi
        have hi0 := hi 0 (by omega)
        rw [hs0] at hi0
        rw [i6, hsk]
        · simp only [Function.update_noteq hi0]
        · intro j hj
          rw [hslot]
          exact hi (j + 1) (by omega)

theorem rx_step_wf (priv : aic880d80_private) (op : rx_op) (h : rx_wf priv) :
    ∃ q, rx_step priv op = some q ∧ rx_wf q := by
  cases op with
  | refill env =>
    have ht := h.2.1
    have hh := h.1
    simp only [rx_ring_size_eq] at ht hh
    exact alloc_rx_loop_wf env _ 0 priv h (by simp only [rx_ring_size_eq]; omega)
  | drain budget => exact ⟨_, rfl, process_rx_loop_wf _ _ h⟩
  | hw ring => exact ⟨_, rfl, h⟩

theorem rx_run_wf (ops : List rx_op) (priv : aic880d80_private) (h : rx_wf priv) :
    ∃ states, rx_run priv ops = some states ∧ states.length = ops.length ∧
      ∀ q, q ∈ states → rx_wf q := by
  induction ops generalizing priv with
  | nil => exact ⟨[], rfl, rfl, fun q hq => by cases hq⟩
  | cons op ops ih =>
    obtain ⟨p, hp, hwp⟩ := rx_step_wf priv op h
    obtain ⟨ps, hps, hlen, hall⟩ := ih p hwp
    refine ⟨p :: ps, ?_, by simp [hlen], ?_⟩
    · simp only [rx_run, hp, hps]
    · intro q hq
      rcases List.mem_cons.mp hq with rfl | hq
      · exact hwp
      · exact hall q hq

theorem idle_state_rx_wf : rx_wf idle_state := by
  refine ⟨by decide, by decide, ?_⟩
  intro i hi
  simp only [idle_state, in_window, rx_ring_size_eq, Option.isSome_none]
  constructor
  · intro hf; cases hf
  · intro hw; omega

/-- C1: RX ring well-formedness is an invariant of refill and drain.  From a
well-formed RX state, every history of `aic880d80_alloc_rx_buffers` calls (any
allocation and mapping outcomes), `aic880d80_process_rx_ring` calls (any budget)
and hardware rewrites of the descriptors runs to completion, and every state
observed after a step has `rx_head, rx_tail < N`, `0 ≤ (rx_head - rx_tail) mod N ≤ N - 1`
and `rx_skbs[i]` non-empty exactly for the slots of `[rx_tail, rx_head)`. -/
theorem rx_ring_wf_invariant (priv : aic880d80_private) (ops : List rx_op) (h : rx_wf priv) :
    ∃ states, rx_run priv ops = some states ∧ states.length = ops.length ∧
      ∀ q, q ∈ states →
        q.rx_head < AIC880D80_RX_RING_SIZE ∧ q.rx_tail < AIC880D80_RX_RING_SIZE ∧
        0 ≤ ((q.rx_head : Int) - (q.rx_tail : Int)) % (AIC880D80_RX_RING_SIZE : Int) ∧
        ((q.rx_head : Int) - (q.rx_tail : Int)) % (AIC880D80_RX_RING_SIZE : Int)
          ≤ (AIC880D80_RX_RING_SIZE : Int) - 1 ∧
        ∀ i, i < AIC880D80_RX_RING_SIZE →
          ((q.rx_skbs i).isSome = true ↔
            in_window AIC880D80_RX_RING_SIZE q.rx_tail q.rx_head i) := by
  obtain ⟨states, hrun, hlen, hall⟩ := rx_run_wf ops priv h
  refine ⟨states, hrun, hlen, ?_⟩
  intro q hq
  obtain ⟨h1, h2, h3⟩ := hall q hq
  refine ⟨h1, h2, ?_, ?_, h3⟩
  · simp only [rx_ring_size_eq]; omega
  · simp only [rx_ring_size_eq]; omega

/-- Witness of C1: an idle ring refilled, partly completed by hardware, drained
with budget 10 and refilled while allocation fails. -/
theorem rx_ring_wf_invariant_witness :
    rx_wf idle_state ∧
    ∃ states,
      rx_run idle_state
        [rx_op.refill (env_ok 4096), rx_op.hw rx_demo_state.rx_ring, rx_op.drain 10,
          rx_op.refill env_nomem] = some states ∧
      states.length = 4 ∧
      ∀ q, q ∈ states →
        q.rx_head < AIC880D80_RX_RING_SIZE ∧ q.rx_tail < AIC880D80_RX_RING_SIZE ∧
        0 ≤ ((q.rx_head : Int) - (q.rx_tail : Int)) % (AIC880D80_RX_RING_SIZE : Int) ∧
        ((q.rx_head : Int) - (q.rx_tail : Int)) % (AIC880D80_RX_RING_SIZE : Int)
          ≤ (AIC880D80_RX_RING_SIZE : Int) - 1 ∧
        ∀ i, i < AIC880D80_RX_RING_SIZE →
          ((q.rx_skbs i).isSome = true ↔
            in_window AIC880D80_RX_RING_SIZE q.rx_tail q.rx_head i) :=
  ⟨idle_state_rx_wf, rx_ring_wf_invariant idle_state _ idle_state_rx_wf⟩

theorem delivered_slot_events (priv : aic880d80_private) (l : List Nat) :
    delivered (l.flatMap (rx_slot_events priv)) =
      l.map (fun e => (priv.rx_skbs e, (priv.rx_ring e).length)) := by
  induction l with
  | nil => rfl
  | cons e l ih =>
    rw [List.map_cons, ← ih]
    rfl

/-- C2: drain postcondition.  On a well-formed RX state whose first `k` slots from
`rx_tail` lie in the window with ownership cleared and whose next slot, if in
the window, is still hardware-owned, `aic880d80_process_rx_ring` with `budget`
makes the kernel calls of exactly `m = min budget k` slots in slot order, so it
delivers exactly `m` packets, the `j`-th being the buffer recorded in slot
`rx_tail + j` with the length of that descriptor; it empties exactly those `m`
table entries, advances `rx_tail` by `m` modulo `N` and leaves `rx_head` unchanged. -/
theorem drain_postcondition (priv : aic880d80_private) (budget : Int) (k : Nat)
    (h : rx_wf priv) (hb : 0 ≤ budget)
    (hdone : ∀ j, j < k →
      in_window AIC880D80_RX_RING_SIZE priv.rx_tail priv.rx_head (rx_slot priv j) ∧
      desc_owned (priv.rx_ring (rx_slot priv j)) = false)
    (hnext : in_window AIC880D80_RX_RING_SIZE priv.rx_tail priv.rx_head (rx_slot priv k) →
      desc_owned (priv.rx_ring (rx_slot priv k)) = true) :
    ((min budget (k : Int)).toNat = min budget.toNat k) ∧
    (aic880d80_process_rx_ring priv budget).trace
      = priv.trace ++ rx_drain_events priv (min budget.toNat k) ∧
    delivered (rx_drain_events priv (min budget.toNat k))
      = (List.range (min budget.toNat k)).map
          (fun j => (priv.rx_skbs (rx_slot priv j), (priv.rx_ring (rx_slot priv j)).length)) ∧
    (∀ j, j < min budget.toNat k → (priv.rx_skbs (rx_slot priv j)).isSome = true) ∧
    (aic880d80_process_rx_ring priv budget).rx_tail
      = (priv.rx_tail + min budget.toNat k) % AIC880D80_RX_RING_SIZE ∧
    (aic880d80_process_rx_ring priv budget).rx_head = priv.rx_head ∧
    (∀ j, j < min budget.toNat k →
      (aic880d80_process_rx_ring priv budget).rx_skbs (rx_slot priv j) = none) ∧
    (∀ i, (∀ j, j < min budget.toNat k → i ≠ rx_slot priv j) →
      (aic880d80_process_rx_ring priv budget).rx_skbs i = priv.rx_skbs i) := by
  obtain ⟨i1, i2, i3, _, i5, i6⟩ := process_rx_loop_spec budget.toNat k priv h hdone hnext
  refine ⟨by omega, i1, ?_, ?_, i2, i3, i5, i6⟩
  · have := delivered_slot_events priv ((List.range (min budget.toNat k)).map (rx_slot priv))
    simpa only [rx_drain_events, List.flatMap_map, List.map_map, Function.comp] using this
  · intro j hj
    have hw := (hdone j (by omega)).1
    exact (h.2.2 _ hw.1).mpr hw

theorem rx_demo_state_wf : rx_wf rx_demo_state := by
  refine ⟨by decide, by decide, ?_⟩
  intro i hi
  simp only [rx_demo_state, in_window, rx_ring_size_eq]
  split_ifs with h3
  · simp only [Option.isSome_some, true_iff]; omega
  · simp only [Option.isSome_none]
    constructor
    · intro hf; cases hf
    · intro hw; omega

theorem rx_demo_state_done : ∀ j, j < 2 →
    in_window AIC880D80_RX_RING_SIZE rx_demo_state.rx_tail rx_demo_state.rx_head
      (rx_slot rx_demo_state j) ∧
    desc_owned (rx_demo_state.rx_ring (rx_slot rx_demo_state j)) = false := by
  decide

theorem rx_demo_state_next :
    in_window AIC880D80_RX_RING_SIZE rx_demo_state.rx_tail rx_demo_state.rx_head
      (rx_slot rx_demo_state 2) →
    desc_owned (rx_demo_state.rx_ring (rx_slot rx_demo_state 2)) = true := by
  decide

/-- Witness of C2: slots 0 and 1 completed with lengths 64 and 128, slot 2 still
owned by hardware, budget 10: two packets of lengths 64 then 128 are delivered,
`rx_tail` goes from 0 to 2, `rx_head` stays 3, slots 0 and 1 are emptied and
slot 2 keeps its buffer. -/
theorem drain_postcondition_witness :
    (aic880d80_process_rx_ring rx_demo_state 10).trace
      = rx_demo_state.trace ++ rx_drain_events rx_demo_state 2 ∧
    delivered (rx_drain_events rx_demo_state 2)
      = [(some { data := 4096, len := 0 }, 64), (some { data := 8192, len := 0 }, 128)] ∧
    (aic880d80_process_rx_ring rx_demo_state 10).rx_tail = 2 ∧
    (aic880d80_process_rx_ring rx_demo_state 10).rx_head = 3 ∧
    (aic880d80_process_rx_ring rx_demo_state 10).rx_skbs 0 = none ∧
    (aic880d80_process_rx_ring rx_demo_state 10).rx_skbs 1 = none ∧
    (aic880d80_process_rx_ring rx_demo_state 10).rx_skbs 2 = some { data := 12288, len := 0 } :=
  have h := drain_postcondition rx_demo_state 10 2 rx_demo_state_wf (by decide)
    rx_demo_state_done rx_demo_state_next
  ⟨h.2.1, h.2.2.1, h.2.2.2.2.1, h.2.2.2.2.2.1, h.2.2.2.2.2.2.1 0 (by decide),
    h.2.2.2.2.2.2.1 1 (by decide),
    (h.2.2.2.2.2.2.2 2 (by decide)).trans rfl⟩

/-! ## Transmit engine -/

theorem u32_mod_ring (x : Nat) : u32 x % 256 = x % 256 := by
  simp only [u32]; omega

/-- `aic880d80_start_xmit` on a full ring. -/
theorem start_xmit_busy_eq (m : Option Nat) (skb : sk_buff) (priv : aic880d80_private)
    (hfull : (priv.tx_head + 1) % AIC880D80_TX_RING_SIZE = priv.tx_tail) :
    aic880d80_start_xmit m skb priv
      = (netdev_tx_t.NETDEV_TX_BUSY, emit priv Event.netif_stop_queue) := by
  simp only [tx_ring_size_eq] at hfull
  simp only [aic880d80_start_xmit, tx_ring_size_eq, u32_mod_ring, hfull, beq_self_eq_true,
    if_true]

/-- `aic880d80_start_xmit` on a ring that is not full, mapping succeeds. -/
theorem start_xmit_ok_eq (a : Nat) (skb : sk_buff) (priv : aic880d80_private)
    (hnf : (priv.tx_head + 1) % AIC880D80_TX_RING_SIZE ≠ priv.tx_tail) :
    aic880d80_start_xmit (some a) skb priv
      = (netdev_tx_t.NETDEV_TX_OK,
          aic880d80_write32
            { priv with
              trace := priv.trace ++
                [Event.dma_map_single skb.data skb.len dma_dir.DMA_TO_DEVICE (some a)]
              tx_ring := Function.update priv.tx_ring (priv.tx_head % AIC880D80_TX_RING_SIZE)
                (tx_desc_of skb a)
              tx_skbs := Function.update priv.tx_skbs (priv.tx_head % AIC880D80_TX_RING_SIZE)
                (some skb)
              tx_head := (priv.tx_head + 1) % AIC880D80_TX_RING_SIZE }
            AIC880D80_REG_TX_CTRL 1) := by
  simp only [tx_ring_size_eq] at hnf
  simp only [aic880d80_start_xmit, tx_ring_size_eq, u32_mod_ring, beq_iff_eq, hnf, if_false,
    emit, tx_desc_of]

/-- `aic880d80_start_xmit` on a ring that is not full, mapping fails. -/
theorem start_xmit_mapfail_eq (skb : sk_buff) (priv : aic880d80_private)
    (hnf : (priv.tx_head + 1) % AIC880D80_TX_RING_SIZE ≠ priv.tx_tail) :
    aic880d80_start_xmit none skb priv
      = (netdev_tx_t.NETDEV_TX_OK,
          { priv with
            trace := priv.trace ++
              [Event.dma_map_single skb.data skb.len dma_dir.DMA_TO_DEVICE none,
               Event.dev_kfree_skb (some skb)] }) := by
  simp only [tx_ring_size_eq] at hnf
  simp only [aic880d80_start_xmit, tx_ring_size_eq, u32_mod_ring, beq_iff_eq, hnf, if_false,
    emit, List.append_assoc, List.singleton_append]

theorem desc_owned_own (l b : Nat) :
    desc_owned { status := AIC880D80_DESC_OWN, length := l, buffer := b } = true := by
  simp only [desc_owned]
  decide

/-- The statement-by-statement run of `aic880d80_start_xmit` gives the result and
the final state of `aic880d80_start_xmit`, in every branch. -/
theorem start_xmit_steps_eq (m : Option Nat) (skb : sk_buff) (priv : aic880d80_private) :
    (aic880d80_start_xmit_steps m skb priv).1 = (aic880d80_start_xmit m skb priv).1 ∧
    (aic880d80_start_xmit_steps m skb priv).2.1 = (aic880d80_start_xmit m skb priv).2 := by
  simp only [aic880d80_start_xmit_steps, aic880d80_start_xmit]
  split_ifs
  · exact ⟨rfl, rfl⟩
  · cases m with
    | none => exact ⟨rfl, rfl⟩
    | some a =>
      refine ⟨rfl, ?_⟩
      simp [tx_do, tx_op_apply, emit, aic880d80_write32]

/-- The statements `aic880d80_start_xmit` executes on a ring that is not full
when the mapping succeeds, in program order. -/
theorem start_xmit_steps_ok (a : Nat) (skb : sk_buff) (priv : aic880d80_private)
    (hnf : (priv.tx_head + 1) % AIC880D80_TX_RING_SIZE ≠ priv.tx_tail) :
    (aic880d80_start_xmit_steps (some a) skb priv).2.2
      = [tx_op.call (Event.dma_map_single skb.data skb.len dma_dir.DMA_TO_DEVICE (some a)),
         tx_op.store_desc_buffer (priv.tx_head % AIC880D80_TX_RING_SIZE) a,
         tx_op.store_desc_length (priv.tx_head % AIC880D80_TX_RING_SIZE) skb.len,
         tx_op.store_desc_status (priv.tx_head % AIC880D80_TX_RING_SIZE) AIC880D80_DESC_OWN,
         tx_op.store_tx_skbs (priv.tx_head % AIC880D80_TX_RING_SIZE) (some skb),
         tx_op.store_tx_head ((priv.tx_head + 1) % AIC880D80_TX_RING_SIZE),
         tx_op.call (Event.writel 1 AIC880D80_REG_TX_CTRL)] := by
  simp only [tx_ring_size_eq] at hnf
  simp [aic880d80_start_xmit_steps, tx_ring_size_eq, u32_mod_ring, hnf, tx_do, tx_op_apply,
    emit]

/-- C9: submit success postcondition.  On a TX state that is not full, with the
DMA mapping succeeding at address `a`, `aic880d80_start_xmit` returns
`NETDEV_TX_OK`; with `e = tx_head mod N`, descriptor `e` holds address `a`, the
packet length and the owned-by-hardware flag, `tx_skbs[e]` is the packet,
`tx_head` is `(tx_head + 1) mod N`, `tx_tail` and every other descriptor and
table entry are unchanged; the calls made are the mapping and then one write
of 1 to `TX_CTRL`.  Statement by statement, the function executes the mapping
call, the stores of the descriptor's address, length and ownership flag, the
store to `tx_skbs[e]`, the store to `tx_head`, and last the write of 1 to
`TX_CTRL`: the kick is the final statement, the ownership store and the head
store precede it, and no other register write is made. -/
theorem start_xmit_success (priv : aic880d80_private) (skb : sk_buff) (a : Nat)
    (hnf : (priv.tx_head + 1) % AIC880D80_TX_RING_SIZE ≠ priv.tx_tail) :
    (aic880d80_start_xmit (some a) skb priv).1 = netdev_tx_t.NETDEV_TX_OK ∧
    (aic880d80_start_xmit (some a) skb priv).2.tx_ring (priv.tx_head % AIC880D80_TX_RING_SIZE)
      = { buffer := a, length := skb.len, status := AIC880D80_DESC_OWN } ∧
    desc_owned ((aic880d80_start_xmit (some a) skb priv).2.tx_ring
      (priv.tx_head % AIC880D80_TX_RING_SIZE)) = true ∧
    (aic880d80_start_xmit (some a) skb priv).2.tx_skbs (priv.tx_head % AIC880D80_TX_RING_SIZE)
      = some skb ∧
    (aic880d80_start_xmit (some a) skb priv).2.tx_head
      = (priv.tx_head + 1) % AIC880D80_TX_RING_SIZE ∧
    (aic880d80_start_xmit (some a) skb priv).2.tx_tail = priv.tx_tail ∧
    (∀ i, i ≠ priv.tx_head % AIC880D80_TX_RING_SIZE →
      (aic880d80_start_xmit (some a) skb priv).2.tx_ring i = priv.tx_ring i ∧
      (aic880d80_start_xmit (some a) skb priv).2.tx_skbs i = priv.tx_skbs i) ∧
    (aic880d80_start_xmit (some a) skb priv).2.trace
      = priv.trace ++
        [Event.dma_map_single skb.data skb.len dma_dir.DMA_TO_DEVICE (some a),
         Event.writel 1 AIC880D80_REG_TX_CTRL] ∧
    (aic880d80_start_xmit_steps (some a) skb priv).1
      = (aic880d80_start_xmit (some a) skb priv).1 ∧
    (aic880d80_start_xmit_steps (some a) skb priv).2.1
      = (aic880d80_start_xmit (some a) skb priv).2 ∧
    (aic880d80_start_xmit_steps (some a) skb priv).2.2
      = [tx_op.call (Event.dma_map_single skb.data skb.len dma_dir.DMA_TO_DEVICE (some a)),
         tx_op.store_desc_buffer (priv.tx_head % AIC880D80_TX_RING_SIZE) a,
         tx_op.store_desc_length (priv.tx_head % AIC880D80_TX_RING_SIZE) skb.len,
         tx_op.store_desc_status (priv.tx_head % AIC880D80_TX_RING_SIZE) AIC880D80_DESC_OWN,
         tx_op.store_tx_skbs (priv.tx_head % AIC880D80_TX_RING_SIZE) (some skb),
         tx_op.store_tx_head ((priv.tx_head + 1) % AIC880D80_TX_RING_SIZE),
         tx_op.call (Event.writel 1 AIC880D80_REG_TX_CTRL)] ∧
    ∃ pre : List tx_op,
      (aic880d80_start_xmit_steps (some a) skb priv).2.2
        = pre ++ [tx_op.call (Event.writel 1 AIC880D80_REG_TX_CTRL)] ∧
      tx_op.store_desc_status (priv.tx_head % AIC880D80_TX_RING_SIZE) AIC880D80_DESC_OWN ∈ pre ∧
      tx_op.store_tx_head ((priv.tx_head + 1) % AIC880D80_TX_RING_SIZE) ∈ pre ∧
      ∀ v r, tx_op.call (Event.writel v r) ∉ pre := by
  have hs := start_xmit_steps_eq (some a) skb priv
  have ho := start_xmit_steps_ok a skb priv hnf
  refine ⟨?_, ?_, ?_, ?_, ?_, ?_, ?_, ?_, hs.1, hs.2, ho,
    ⟨[tx_op.call (Event.dma_map_single skb.data skb.len dma_dir.DMA_TO_DEVICE (some a)),
      tx_op.store_desc_buffer (priv.tx_head % AIC880D80_TX_RING_SIZE) a,
      tx_op.store_desc_length (priv.tx_head % AIC880D80_TX_RING_SIZE) skb.len,
      tx_op.store_desc_status (priv.tx_head % AIC880D80_TX_RING_SIZE) AIC880D80_DESC_OWN,
      tx_op.store_tx_skbs (priv.tx_head % AIC880D80_TX_RING_SIZE) (some skb),
      tx_op.store_tx_head ((priv.tx_head + 1) % AIC880D80_TX_RING_SIZE)], ho, ?_, ?_, ?_⟩⟩
  all_goals try rw [start_xmit_ok_eq a skb priv hnf]
  · simp [aic880d80_write32, emit, tx_desc_of]
  · simp only [aic880d80_write32, emit, tx_desc_of, Function.update_same]
    exact desc_owned_own _ _
  · simp [aic880d80_write32, emit]
  · rfl
  · rfl
  · intro i hi
    simp [aic880d80_write32, emit, Function.update_noteq hi]
  · simp [aic880d80_write32, emit]
  · simp
  · simp
  · intro v r hm
    simp at hm

/-- Witness of C9: one packet submitted on the idle ring. -/
theorem start_xmit_success_witness :
    (idle_state.tx_head + 1) % AIC880D80_TX_RING_SIZE ≠ idle_state.tx_tail ∧
    (aic880d80_start_xmit (some 20480) tx_demo_skb idle_state).1 = netdev_tx_t.NETDEV_TX_OK ∧
    (aic880d80_start_xmit (some 20480) tx_demo_skb idle_state).2.tx_head = 1 ∧
    (aic880d80_start_xmit (some 20480) tx_demo_skb idle_state).2.tx_skbs 0 = some tx_demo_skb ∧
    (aic880d80_start_xmit (some 20480) tx_demo_skb idle_state).2.trace
      = [Event.dma_map_single 20480 60 dma_dir.DMA_TO_DEVICE (some 20480),
         Event.writel 1 AIC880D80_REG_TX_CTRL] ∧
    (aic880d80_start_xmit_steps (some 20480) tx_demo_skb idle_state).2.2
      = [tx_op.call (Event.dma_map_single 20480 60 dma_dir.DMA_TO_DEVICE (some 20480)),
         tx_op.store_desc_buffer 0 20480,
         tx_op.store_desc_length 0 60,
         tx_op.store_desc_status 0 AIC880D80_DESC_OWN,
         tx_op.store_tx_skbs 0 (some tx_demo_skb),
         tx_op.store_tx_head 1,
         tx_op.call (Event.writel 1 AIC880D80_REG_TX_CTRL)] :=
  have h := start_xmit_success idle_state tx_demo_skb 20480 (by decide)
  ⟨by decide, h.1, h.2.2.2.2.1, h.2.2.2.1, h.2.2.2.2.2.2.2.1, h.2.2.2.2.2.2.2.2.2.2.1⟩

/-- C10, as stated, fails: on the idle ring a packet whose mapping fails gets the
result `NETDEV_TX_OK`, the very result of a successful submission, so the
result is not distinguishable from Ok. -/
theorem start_xmit_mapfail_not_distinct :
    ¬ ((aic880d80_start_xmit none tx_demo_skb idle_state).1 ≠ netdev_tx_t.NETDEV_TX_OK ∧
       (aic880d80_start_xmit none tx_demo_skb idle_state).1 ≠ netdev_tx_t.NETDEV_TX_BUSY) ∧
    (aic880d80_start_xmit none tx_demo_skb idle_state).1
      = (aic880d80_start_xmit (some 20480) tx_demo_skb idle_state).1 := by
  decide

/-- C10, amended: on a TX state that is not full, a packet whose DMA mapping
fails makes `aic880d80_start_xmit` return `NETDEV_TX_OK` (the type `netdev_tx_t`
has no further value); the packet is released exactly once, right after the
failed mapping, no register is written, and `tx_head`, `tx_tail`, every
descriptor and every table entry are unchanged. -/
theorem start_xmit_mapping_failure (priv : aic880d80_private) (skb : sk_buff)
    (hnf : (priv.tx_head + 1) % AIC880D80_TX_RING_SIZE ≠ priv.tx_tail) :
    (aic880d80_start_xmit none skb priv).1 = netdev_tx_t.NETDEV_TX_OK ∧
    (aic880d80_start_xmit none skb priv).2.trace
      = priv.trace ++
        [Event.dma_map_single skb.data skb.len dma_dir.DMA_TO_DEVICE none,
         Event.dev_kfree_skb (some skb)] ∧
    ((aic880d80_start_xmit none skb priv).2.trace.drop priv.trace.length).count
      (Event.dev_kfree_skb (some skb)) = 1 ∧
    (∀ v r, Event.writel v r ∉
      (aic880d80_start_xmit none skb priv).2.trace.drop priv.trace.length) ∧
    (aic880d80_start_xmit none skb priv).2.tx_head = priv.tx_head ∧
    (aic880d80_start_xmit none skb priv).2.tx_tail = priv.tx_tail ∧
    (aic880d80_start_xmit none skb priv).2.tx_ring = priv.tx_ring ∧
    (aic880d80_start_xmit none skb priv).2.tx_skbs = priv.tx_skbs := by
  rw [start_xmit_mapfail_eq skb priv hnf]
  refine ⟨rfl, rfl, ?_, ?_, rfl, rfl, rfl, rfl⟩
  · simp [List.count_cons]
  · intro v r
    simp

/-- Witness of the amended C10 on the idle ring. -/
theorem start_xmit_mapping_failure_witness :
    (idle_state.tx_head + 1) % AIC880D80_TX_RING_SIZE ≠ idle_state.tx_tail ∧
    (aic880d80_start_xmit none tx_demo_skb idle_state).1 = netdev_tx_t.NETDEV_TX_OK ∧
    (aic880d80_start_xmit none tx_demo_skb idle_state).2.trace
      = [Event.dma_map_single 20480 60 dma_dir.DMA_TO_DEVICE none,
         Event.dev_kfree_skb (some tx_demo_skb)] ∧
    (aic880d80_start_xmit none tx_demo_skb idle_state).2.tx_head = 0 :=
  have h := start_xmit_mapping_failure idle_state tx_demo_skb (by decide)
  ⟨by decide, h.1, h.2.1, h.2.2.2.2.1⟩

/-- A successful submission, as facts about the state it yields. -/
theorem start_xmit_ok_facts (a : Nat) (skb : sk_buff) (priv : aic880d80_private)
    (hnf : (priv.tx_head + 1) % AIC880D80_TX_RING_SIZE ≠ priv.tx_tail) :
    ∃ s1, aic880d80_start_xmit (some a) skb priv = (netdev_tx_t.NETDEV_TX_OK, s1) ∧
      s1.tx_tail = priv.tx_tail ∧
      s1.tx_head = (priv.tx_head + 1) % AIC880D80_TX_RING_SIZE ∧
      s1.tx_skbs = Function.update priv.tx_skbs (priv.tx_head % AIC880D80_TX_RING_SIZE)
        (some skb) ∧
      s1.tx_ring = Function.update priv.tx_ring (priv.tx_head % AIC880D80_TX_RING_SIZE)
        (tx_desc_of skb a) ∧
      s1.trace = priv.trace ++
        [Event.dma_map_single skb.data skb.len dma_dir.DMA_TO_DEVICE (some a),
         Event.writel 1 AIC880D80_REG_TX_CTRL] :=
  ⟨_, start_xmit_ok_eq a skb priv hnf, rfl, rfl, rfl, rfl, by
    simp [aic880d80_write32, emit]⟩

/-- Submitting packets while there is room: every call returns Ok, the packets
occupy consecutive slots from `tx_head`, other slots are untouched. -/
theorem xmit_all_spec (pkts : List (sk_buff × Nat)) (priv : aic880d80_private)
    (hh : priv.tx_head < 256) (ht : priv.tx_tail < 256)
    (hroom : (priv.tx_head + 256 - priv.tx_tail) % 256 + pkts.length ≤ 255) :
    (xmit_all pkts priv).1 = List.replicate pkts.length netdev_tx_t.NETDEV_TX_OK ∧
    (xmit_all pkts priv).2.tx_tail = priv.tx_tail ∧
    (xmit_all pkts priv).2.tx_head = (priv.tx_head + pkts.length) % 256 ∧
    (∀ j p, pkts[j]? = some p →
      (xmit_all pkts priv).2.tx_skbs ((priv.tx_head + j) % 256) = some p.1 ∧
      (xmit_all pkts priv).2.tx_ring ((priv.tx_head + j) % 256) = tx_desc_of p.1 p.2) ∧
    (∀ i, (∀ j, j < pkts.length → i ≠ (priv.tx_head + j) % 256) →
      (xmit_all pkts priv).2.tx_skbs i = priv.tx_skbs i ∧
      (xmit_all pkts priv).2.tx_ring i = priv.tx_ring i) := by
  induction pkts generalizing priv with
  | nil =>
    refine ⟨rfl, rfl, ?_, ?_, fun i _ => ⟨rfl, rfl⟩⟩
    · simp only [xmit_all, List.length_nil]; omega
    · intro j p hp; simp at hp
  | cons p rest ih =>
    simp only [List.length_cons] at hroom ⊢
    have hnf : (priv.tx_head + 1) % AIC880D80_TX_RING_SIZE ≠ priv.tx_tail := by
      simp only [tx_ring_size_eq]; omega
    obtain ⟨s1, hs1, e_tail, e_head, e_skbs, e_ring, _⟩ := start_xmit_ok_facts p.2 p.1 priv hnf
    simp only [tx_ring_size_eq] at e_head e_skbs e_ring
    have hmod : priv.tx_head % 256 = priv.tx_head := by omega
    rw [hmod] at e_skbs e_ring
    obtain ⟨i1, i2, i3, i4, i5⟩ := ih s1 (by omega) (by omega) (by omega)
    simp only [xmit_all, hs1]
    refine ⟨?_, ?_, ?_, ?_, ?_⟩
    · rw [i1]; rfl
    · rw [i2, e_tail]
    · rw [i3, e_head]; omega
    · intro j q hq
      cases j with
      | zero =>
        have hqp : q = p := by simpa using hq.symm
        subst hqp
        have := i5 priv.tx_head (by
          intro j hj
          rw [e_head]
          omega)
        rw [Nat.add_zero, hmod, this.1, this.2, e_skbs, e_ring]
        simp
      | succ j =>
        have hq2 : rest[j]? = some q := by simpa using hq
        have := i4 j q hq2
        have hidx : (s1.tx_head + j) % 256 = (priv.tx_head + (j + 1)) % 256 := by
          rw [e_head]; omega
        rwa [hidx] at this
    · intro i hi
      have hi0 := hi 0 (by omega)
      rw [Nat.add_zero, hmod] at hi0
      have := i5 i (by
        intro j hj
        have := hi (j + 1) (by omega)
        rw [e_head]
        intro hc
        apply this
        rw [hc]
        omega)
      rw [this.1, this.2, e_skbs, e_ring]
      exact ⟨Function.update_noteq hi0 _ _, Function.update_noteq hi0 _ _⟩

/-- The reclaim loop stops at once on an empty ring. -/
theorem clean_tx_loop_empty (fuel : Nat) (priv : aic880d80_private)
    (he : priv.tx_tail = priv.tx_head) : clean_tx_loop (fuel + 1) priv = some priv := by
  simp only [clean_tx_loop]
  rw [if_neg (by simpa using he)]

/-- The reclaim loop stops at once on a descriptor still owned by hardware. -/
theorem clean_tx_loop_owned (fuel : Nat) (priv : aic880d80_private)
    (ho : desc_owned (priv.tx_ring (priv.tx_tail % AIC880D80_TX_RING_SIZE)) = true) :
    clean_tx_loop (fuel + 1) priv = some priv := by
  simp only [clean_tx_loop]
  split_ifs <;> rfl

/-- One round of the reclaim loop on a completed descriptor. -/
theorem clean_tx_loop_step (fuel : Nat) (priv : aic880d80_private)
    (hne : priv.tx_tail ≠ priv.tx_head)
    (hno : desc_owned (priv.tx_ring (priv.tx_tail % AIC880D80_TX_RING_SIZE)) = false) :
    ∃ s1, clean_tx_loop (fuel + 1) priv = clean_tx_loop fuel s1 ∧
      s1.trace = priv.trace ++
        [Event.dma_unmap_single (priv.tx_ring (priv.tx_tail % AIC880D80_TX_RING_SIZE)).buffer
           (priv.tx_ring (priv.tx_tail % AIC880D80_TX_RING_SIZE)).length dma_dir.DMA_TO_DEVICE,
         Event.dev_kfree_skb (priv.tx_skbs (priv.tx_tail % AIC880D80_TX_RING_SIZE))] ∧
      s1.tx_tail = (priv.tx_tail + 1) % AIC880D80_TX_RING_SIZE ∧
      s1.tx_head = priv.tx_head ∧ s1.tx_ring = priv.tx_ring ∧ s1.tx_skbs = priv.tx_skbs := by
  refine ⟨{ priv with
      trace := priv.trace ++
        [Event.dma_unmap_single (priv.tx_ring (priv.tx_tail % AIC880D80_TX_RING_SIZE)).buffer
           (priv.tx_ring (priv.tx_tail % AIC880D80_TX_RING_SIZE)).length dma_dir.DMA_TO_DEVICE,
         Event.dev_kfree_skb (priv.tx_skbs (priv.tx_tail % AIC880D80_TX_RING_SIZE))]
      tx_tail := (priv.tx_tail + 1) % AIC880D80_TX_RING_SIZE }, ?_, rfl, rfl, rfl, rfl, rfl⟩
  simp only [clean_tx_loop]
  rw [if_pos (by simpa using hne)]
  simp only [hno, Bool.false_eq_true, if_false]
  simp only [emit, List.append_assoc, List.singleton_append, tx_ring_size_eq, u32_mod_ring]

/-- Filling an empty TX ring, one refused submission, one hardware completion at
the tail and one reclaim, with the states in between. -/
theorem tx_fill_busy_reclaim (priv : aic880d80_private) (pkts : List (sk_buff × Nat))
    (skbN : sk_buff) (mN : Option Nat) (d : aic880d80_desc)
    (hempty : priv.tx_head = priv.tx_tail) (ht : priv.tx_tail < 256)
    (hlen : pkts.length = 255) (hd : desc_owned d = false) :
    ∃ s1 s3,
      xmit_all pkts priv = (List.replicate 255 netdev_tx_t.NETDEV_TX_OK, s1) ∧
      (∀ j p, pkts[j]? = some p →
        s1.tx_skbs ((priv.tx_tail + j) % 256) = some p.1 ∧
        s1.tx_ring ((priv.tx_tail + j) % 256) = tx_desc_of p.1 p.2) ∧
      s1.tx_tail = priv.tx_tail ∧
      aic880d80_start_xmit mN skbN s1
        = (netdev_tx_t.NETDEV_TX_BUSY, emit s1 Event.netif_stop_queue) ∧
      aic880d80_clean_tx_ring (hw_tx_write s1.tx_tail d (emit s1 Event.netif_stop_queue))
        = some s3 ∧
      s3.trace = s1.trace ++
        [Event.netif_stop_queue,
         Event.dma_unmap_single d.buffer d.length dma_dir.DMA_TO_DEVICE,
         Event.dev_kfree_skb (s1.tx_skbs priv.tx_tail)] ∧
      s3.tx_tail = (priv.tx_tail + 1) % 256 ∧
      s3.tx_head = (priv.tx_tail + 255) % 256 ∧
      s3.tx_skbs = s1.tx_skbs := by
  obtain ⟨i1, i2, i3, i4, _⟩ := xmit_all_spec pkts priv (by omega) ht (by omega)
  rw [hlen] at i1 i3
  rw [hempty] at i3 i4
  generalize hs1 : (xmit_all pkts priv).2 = s1 at i1 i2 i3 i4
  have hx : xmit_all pkts priv
      = (List.replicate 255 netdev_tx_t.NETDEV_TX_OK, s1) := by
    rw [← i1, ← hs1]
  have hfull : (s1.tx_head + 1) % AIC880D80_TX_RING_SIZE = s1.tx_tail := by
    simp only [tx_ring_size_eq]; omega
  obtain ⟨p1, hp1⟩ : ∃ p, pkts[1]? = some p := by
    cases pkts with
    | nil => simp at hlen
    | cons _ rest =>
      cases rest with
      | nil => simp at hlen
      | cons p _ => exact ⟨p, by simp⟩
  have hr1 := (i4 1 p1 hp1).2
  have hmod : priv.tx_tail % 256 = priv.tx_tail := by omega
  have hne : (hw_tx_write s1.tx_tail d (emit s1 Event.netif_stop_queue)).tx_tail
      ≠ (hw_tx_write s1.tx_tail d (emit s1 Event.netif_stop_queue)).tx_head := by
    show s1.tx_tail ≠ s1.tx_head
    omega
  have hno : desc_owned ((hw_tx_write s1.tx_tail d (emit s1 Event.netif_stop_queue)).tx_ring
      ((hw_tx_write s1.tx_tail d (emit s1 Event.netif_stop_queue)).tx_tail
        % AIC880D80_TX_RING_SIZE)) = false := by
    show desc_owned (Function.update s1.tx_ring s1.tx_tail d (s1.tx_tail % 256)) = false
    rw [i2, hmod, Function.update_same]
    exact hd
  obtain ⟨s3, hc, c_trace, c_tail, c_head, c_ring, c_skbs⟩ := clean_tx_loop_step 257 _ hne hno
  have c_tail2 : s3.tx_tail = (priv.tx_tail + 1) % 256 := by
    rw [c_tail]
    show (s1.tx_tail + 1) % 256 = _
    rw [i2]
  have c_head2 : s3.tx_head = (priv.tx_tail + 255) % 256 := by
    rw [c_head]
    exact i3
  have c_ring2 : s3.tx_ring = Function.update s1.tx_ring s1.tx_tail d := c_ring
  have c_trace2 : s3.trace = s1.trace ++
        [Event.netif_stop_queue,
         Event.dma_unmap_single d.buffer d.length dma_dir.DMA_TO_DEVICE,
         Event.dev_kfree_skb (s1.tx_skbs priv.tx_tail)] := by
    rw [c_trace]
    show (s1.trace ++ [Event.netif_stop_queue]) ++
      [Event.dma_unmap_single (Function.update s1.tx_ring s1.tx_tail d (s1.tx_tail % 256)).buffer
        (Function.update s1.tx_ring s1.tx_tail d (s1.tx_tail % 256)).length dma_dir.DMA_TO_DEVICE,
       Event.dev_kfree_skb (s1.tx_skbs (s1.tx_tail % 256))] = _
    rw [i2, hmod, Function.update_same]
    simp
  have ho3 : desc_owned (s3.tx_ring (s3.tx_tail % AIC880D80_TX_RING_SIZE)) = true := by
    have hidx : s3.tx_tail % AIC880D80_TX_RING_SIZE = (priv.tx_tail + 1) % 256 := by
      simp only [tx_ring_size_eq, c_tail2]; omega
    rw [hidx, c_ring2, i2, Function.update_noteq (by omega), hr1]
    exact desc_owned_own _ _
  have hclean : aic880d80_clean_tx_ring
      (hw_tx_write s1.tx_tail d (emit s1 Event.netif_stop_queue)) = some s3 := by
    show clean_tx_loop (257 + 1) _ = some s3
    rw [hc]
    exact clean_tx_loop_owned 256 s3 ho3
  exact ⟨s1, s3, hx, fun j p hp => i4 j p hp, i2, start_xmit_busy_eq mN skbN s1 hfull, hclean,
    c_trace2, c_tail2, c_head2, c_skbs⟩

/-- C3: backpressure.  From an empty TX ring (`tx_head = tx_tail`, a ring index),
`N - 1` submissions whose mappings succeed all return Ok and sit in consecutive
slots from `tx_tail`; the `N`-th submission returns Busy and changes neither
`tx_head`, `tx_tail`, a descriptor nor the pending table; once hardware has
written a descriptor with ownership cleared at `tx_tail`, `aic880d80_clean_tx_ring`
returns and the next submission returns Ok and is queued at `tx_head`. -/
theorem tx_backpressure (priv : aic880d80_private) (pkts : List (sk_buff × Nat))
    (skbN : sk_buff) (mN : Option Nat) (d : aic880d80_desc) (skb1 : sk_buff) (a1 : Nat)
    (hempty : priv.tx_head = priv.tx_tail) (ht : priv.tx_tail < AIC880D80_TX_RING_SIZE)
    (hlen : pkts.length = AIC880D80_TX_RING_SIZE - 1) (hd : desc_owned d = false) :
    ∃ s1 s2 s3,
      xmit_all pkts priv
        = (List.replicate (AIC880D80_TX_RING_SIZE - 1) netdev_tx_t.NETDEV_TX_OK, s1) ∧
      (∀ j p, pkts[j]? = some p →
        s1.tx_skbs ((priv.tx_tail + j) % AIC880D80_TX_RING_SIZE) = some p.1 ∧
        s1.tx_ring ((priv.tx_tail + j) % AIC880D80_TX_RING_SIZE) = tx_desc_of p.1 p.2) ∧
      aic880d80_start_xmit mN skbN s1 = (netdev_tx_t.NETDEV_TX_BUSY, s2) ∧
      s2.tx_head = s1.tx_head ∧ s2.tx_tail = s1.tx_tail ∧
      s2.tx_ring = s1.tx_ring ∧ s2.tx_skbs = s1.tx_skbs ∧
      aic880d80_clean_tx_ring (hw_tx_write s2.tx_tail d s2) = some s3 ∧
      (s3.tx_head + 1) % AIC880D80_TX_RING_SIZE ≠ s3.tx_tail ∧
      (aic880d80_start_xmit (some a1) skb1 s3).1 = netdev_tx_t.NETDEV_TX_OK ∧
      (aic880d80_start_xmit (some a1) skb1 s3).2.tx_skbs (s3.tx_head % AIC880D80_TX_RING_SIZE)
        = some skb1 ∧
      (aic880d80_start_xmit (some a1) skb1 s3).2.tx_ring (s3.tx_head % AIC880D80_TX_RING_SIZE)
        = tx_desc_of skb1 a1 := by
  simp only [tx_ring_size_eq] at ht hlen ⊢
  obtain ⟨s1, s3, hx, hq, _, hbusy, hclean, _, c_tail, c_head, _⟩ :=
    tx_fill_busy_reclaim priv pkts skbN mN d hempty ht hlen hd
  have hnf3 : (s3.tx_head + 1) % AIC880D80_TX_RING_SIZE ≠ s3.tx_tail := by
    simp only [tx_ring_size_eq, c_tail, c_head]; omega
  obtain ⟨s4, hs4, _, _, x_skbs, x_ring, _⟩ := start_xmit_ok_facts a1 skb1 s3 hnf3
  simp only [tx_ring_size_eq] at hnf3 x_skbs x_ring
  refine ⟨s1, emit s1 Event.netif_stop_queue, s3, hx, hq, hbusy, rfl, rfl, rfl, rfl, hclean,
    hnf3, ?_, ?_, ?_⟩
  · rw [hs4]
  · rw [hs4, x_skbs, Function.update_same]
  · rw [hs4, x_ring, Function.update_same]

/-- Witness of C3: the idle ring, 255 packets of 60 bytes, a 256th packet, then
hardware zeroes the status of descriptor 0 and one more packet is submitted. -/
theorem tx_backpressure_witness :
    idle_state.tx_head = idle_state.tx_tail ∧
    idle_state.tx_tail < AIC880D80_TX_RING_SIZE ∧
    tx_demo_pkts.length = AIC880D80_TX_RING_SIZE - 1 ∧
    desc_owned { status := 0, length := 60, buffer := 4096 } = false ∧
    ∃ s1 s2 s3,
      xmit_all tx_demo_pkts idle_state
        = (List.replicate (AIC880D80_TX_RING_SIZE - 1) netdev_tx_t.NETDEV_TX_OK, s1) ∧
      (∀ j p, tx_demo_pkts[j]? = some p →
        s1.tx_skbs ((idle_state.tx_tail + j) % AIC880D80_TX_RING_SIZE) = some p.1 ∧
        s1.tx_ring ((idle_state.tx_tail + j) % AIC880D80_TX_RING_SIZE) = tx_desc_of p.1 p.2) ∧
      aic880d80_start_xmit (some 0) tx_demo_skb s1 = (netdev_tx_t.NETDEV_TX_BUSY, s2) ∧
      s2.tx_head = s1.tx_head ∧ s2.tx_tail = s1.tx_tail ∧
      s2.tx_ring = s1.tx_ring ∧ s2.tx_skbs = s1.tx_skbs ∧
      aic880d80_clean_tx_ring
        (hw_tx_write s2.tx_tail { status := 0, length := 60, buffer := 4096 } s2) = some s3 ∧
      (s3.tx_head + 1) % AIC880D80_TX_RING_SIZE ≠ s3.tx_tail ∧
      (aic880d80_start_xmit (some 20480) tx_demo_skb s3).1 = netdev_tx_t.NETDEV_TX_OK ∧
      (aic880d80_start_xmit (some 20480) tx_demo_skb s3).2.tx_skbs
        (s3.tx_head % AIC880D80_TX_RING_SIZE) = some tx_demo_skb ∧
      (aic880d80_start_xmit (some 20480) tx_demo_skb s3).2.tx_ring
        (s3.tx_head % AIC880D80_TX_RING_SIZE) = tx_desc_of tx_demo_skb 20480 :=
  ⟨rfl, by decide, by simp [tx_demo_pkts, tx_ring_size_eq], by decide,
    tx_backpressure idle_state tx_demo_pkts tx_demo_skb (some 0)
      { status := 0, length := 60, buffer := 4096 } tx_demo_skb 20480
      rfl (by decide) (by simp [tx_demo_pkts, tx_ring_size_eq]) (by decide)⟩

theorem start_xmit_no_wake (m : Option Nat) (skb : sk_buff) (priv : aic880d80_private)
    (h : Event.netif_wake_queue ∈ (aic880d80_start_xmit m skb priv).2.trace) :
    Event.netif_wake_queue ∈ priv.trace := by
  simp only [aic880d80_start_xmit] at h
  split_ifs at h with h1
  · simpa [emit] using h
  · cases m with
    | none => simpa [emit] using h
    | some a => simpa [emit, aic880d80_write32] using h

theorem xmit_all_no_wake (pkts : List (sk_buff × Nat)) (priv : aic880d80_private)
    (h : Event.netif_wake_queue ∈ (xmit_all pkts priv).2.trace) :
    Event.netif_wake_queue ∈ priv.trace := by
  induction pkts generalizing priv with
  | nil => exact h
  | cons p rest ih => exact start_xmit_no_wake _ _ _ (ih _ h)

/-- C7 at its failing input: the idle ring is filled with 255 packets, the 256th
submission returns Busy and stops the queue, hardware completes descriptor 0,
and `aic880d80_clean_tx_ring` frees that slot (`tx_tail` goes from 0 to 1, the
ring is no longer full); the calls it makes are one unmap and one release, and
the log of the whole run holds no `netif_wake_queue`. -/
theorem clean_tx_ring_no_wake :
    ∃ s1 s2 s3,
      xmit_all tx_demo_pkts idle_state
        = (List.replicate 255 netdev_tx_t.NETDEV_TX_OK, s1) ∧
      aic880d80_start_xmit (some 0) tx_demo_skb s1 = (netdev_tx_t.NETDEV_TX_BUSY, s2) ∧
      s2.trace = s1.trace ++ [Event.netif_stop_queue] ∧
      s2.tx_tail = 0 ∧
      aic880d80_clean_tx_ring
        (hw_tx_write 0 { status := 0, length := 60, buffer := 4096 } s2) = some s3 ∧
      s3.tx_tail = 1 ∧ s3.tx_head = 255 ∧
      (s3.tx_head + 1) % AIC880D80_TX_RING_SIZE ≠ s3.tx_tail ∧
      s3.trace = s2.trace ++
        [Event.dma_unmap_single 4096 60 dma_dir.DMA_TO_DEVICE,
         Event.dev_kfree_skb (some { data := 4096, len := 60 })] ∧
      Event.netif_wake_queue ∉ s3.trace := by
  obtain ⟨s1, s3, hx, hq, htl, hbusy, hclean, c_trace, c_tail, c_head, _⟩ :=
    tx_fill_busy_reclaim idle_state tx_demo_pkts tx_demo_skb (some 0)
      { status := 0, length := 60, buffer := 4096 } rfl (by decide)
      (by simp [tx_demo_pkts]) (by decide)
  have ht0 : s1.tx_tail = 0 := htl
  have hp0 : tx_demo_pkts[0]? = some ({ data := 4096, len := 60 }, 4096) := by
    simp [tx_demo_pkts]
  have hs0 : s1.tx_skbs 0 = some { data := 4096, len := 60 } := (hq 0 _ hp0).1
  have hnw : Event.netif_wake_queue ∉ s1.trace := by
    intro hw
    have h1 : Event.netif_wake_queue ∈ (xmit_all tx_demo_pkts idle_state).2.trace := by
      rw [hx]; exact hw
    have := xmit_all_no_wake _ _ h1
    simp [idle_state] at this
  rw [ht0] at hclean
  have c_trace0 : s3.trace = s1.trace ++
      [Event.netif_stop_queue, Event.dma_unmap_single 4096 60 dma_dir.DMA_TO_DEVICE,
        Event.dev_kfree_skb (some { data := 4096, len := 60 })] := by
    rw [c_trace]
    show s1.trace ++ [Event.netif_stop_queue, Event.dma_unmap_single 4096 60 dma_dir.DMA_TO_DEVICE,
        Event.dev_kfree_skb (s1.tx_skbs 0)] = _
    rw [hs0]
  refine ⟨s1, emit s1 Event.netif_stop_queue, s3, hx, hbusy, rfl, ht0, hclean, c_tail, c_head,
    ?_, ?_, ?_⟩
  · rw [c_tail, c_head]; decide
  · rw [c_trace0]; simp [emit]
  · rw [c_trace0]
    simp [hnw]

/-- C8 at its failing input: one packet is submitted on the idle ring, hardware
completes descriptor 0 and `aic880d80_clean_tx_ring` reclaims slot 0.  The ring is
then empty (`tx_tail = tx_head = 1`, so slot 0 is outside the window) and the
packet has been released, yet `tx_skbs[0]` still holds it. -/
theorem clean_tx_ring_keeps_entry :
    (aic880d80_clean_tx_ring
      (hw_tx_write 0 { status := 0, length := 60, buffer := 20480 }
        (aic880d80_start_xmit (some 20480) tx_demo_skb idle_state).2)).map
      (fun s => (s.tx_tail, s.tx_head, s.tx_skbs 0, s.trace))
      = some (1, 1, some tx_demo_skb,
          [Event.dma_map_single 20480 60 dma_dir.DMA_TO_DEVICE (some 20480),
           Event.writel 1 AIC880D80_REG_TX_CTRL,
           Event.dma_unmap_single 20480 60 dma_dir.DMA_TO_DEVICE,
           Event.dev_kfree_skb (some tx_demo_skb)]) ∧
    ¬ in_window AIC880D80_TX_RING_SIZE 1 1 0 :=
  ⟨rfl, by decide⟩

/-- C4 at its failing input: three armed slots of which two are completed,
budget 1.  `aic880d80_napi_poll` drains one descriptor (one packet of length 64
is delivered, `rx_tail` goes from 0 to 1) and returns `work_done = 0`, the value
it also passes to `napi_complete_done`. -/
theorem napi_poll_returns_zero :
    (aic880d80_napi_poll env_nomem rx_demo_state 1).map
      (fun r => (r.1, r.2.rx_tail, delivered r.2.trace, r.2.trace))
      = some ((0 : Int), 1, [(some { data := 4096, len := 0 }, 64)],
          [Event.dma_unmap_single 4096 64 dma_dir.DMA_FROM_DEVICE,
           Event.skb_put (some { data := 4096, len := 0 }) 64,
           Event.eth_type_trans (some { data := 4096, len := 0 }),
           Event.netif_receive_skb (some { data := 4096, len := 0 }),
           Event.napi_complete_done 0,
           Event.netdev_alloc_skb_ip_align AIC880D80_BUFFER_SIZE none]) :=
  rfl

set_option maxRecDepth 20000 in
/-- C6 at its failing input: three packets queued on the idle ring, none
completed (all three descriptors still owned by hardware).  The first
`aic880d80_free_rings` releases the three buffers once each without looking at
the ownership flag, but unmaps none of them (`tx_dma_addrs` is never written
by `aic880d80_start_xmit`); a second invocation makes the same calls again, so
every buffer, array and ring is released twice. -/
theorem free_rings_twice :
    tx_three_queued.tx_head = 3 ∧ tx_three_queued.tx_tail = 0 ∧
    desc_owned (tx_three_queued.tx_ring 0) = true ∧
    desc_owned (tx_three_queued.tx_ring 1) = true ∧
    desc_owned (tx_three_queued.tx_ring 2) = true ∧
    tx_three_queued.tx_dma_addrs 0 = 0 ∧
    (aic880d80_free_rings tx_three_queued).trace = tx_three_queued.trace ++ tx_three_teardown ∧
    (aic880d80_free_rings (aic880d80_free_rings tx_three_queued)).trace
      = tx_three_queued.trace ++ tx_three_teardown ++ tx_three_teardown :=
  ⟨rfl, rfl, rfl, rfl, rfl, rfl, rfl, rfl⟩

/-! ## RX round trip -/

theorem trace_since_append (base q : aic880d80_private) (D : List Event)
    (h : q.trace = base.trace ++ D) : trace_since base q = D := by
  simp [trace_since, h]

/-- What a drain can do to the log and the pending table, on any state: it
delivers only buffers recorded in the table and only empties table entries. -/
theorem process_rx_loop_effect (n : Nat) (s : aic880d80_private) :
    ∃ new, (process_rx_loop n s).trace = s.trace ++ new ∧
      (∀ x, Event.netif_receive_skb (some x) ∈ new → ∃ i, s.rx_skbs i = some x) ∧
      (∀ sz y, Event.netdev_alloc_skb_ip_align sz y ∉ new) ∧
      (∀ i x, (process_rx_loop n s).rx_skbs i = some x → s.rx_skbs i = some x) := by
  induction n generalizing s with
  | zero => exact ⟨[], by simp [process_rx_loop], by simp, by simp, fun i x h => h⟩
  | succ n ih =>
    by_cases he : s.rx_tail = s.rx_head
    · rw [process_rx_loop_empty _ _ he]
      exact ⟨[], by simp, by simp, by simp, fun i x h => h⟩
    · cases ho : desc_owned (s.rx_ring (s.rx_tail % AIC880D80_RX_RING_SIZE)) with
      | true =>
        rw [process_rx_loop_owned _ _ ho]
        exact ⟨[], by simp, by simp, by simp, fun i x h => h⟩
      | false =>
        obtain ⟨s1, hstep, htr, hsk, _, _, _⟩ := process_rx_loop_step n s he ho
        obtain ⟨new1, h1, h2, h3, h4⟩ := ih s1
        rw [hstep]
        refine ⟨rx_slot_events s (s.rx_tail % AIC880D80_RX_RING_SIZE) ++ new1, ?_, ?_, ?_, ?_⟩
        · rw [h1, htr, List.append_assoc]
        · intro x hx
          rcases List.mem_append.mp hx with hx | hx
          · refine ⟨s.rx_tail % AIC880D80_RX_RING_SIZE, ?_⟩
            simp only [rx_slot_events, List.mem_cons, List.mem_singleton, reduceCtorEq,
              Event.netif_receive_skb.injEq, false_or, List.not_mem_nil, or_false] at hx
            exact hx.symm
          · obtain ⟨i, hi⟩ := h2 x hx
            refine ⟨i, ?_⟩
            rw [hsk] at hi
            by_cases hie : i = s.rx_tail % AIC880D80_RX_RING_SIZE
            · rw [hie, Function.update_same] at hi; cases hi
            · rwa [Function.update_noteq hie] at hi
        · intro sz y hy
          rcases List.mem_append.mp hy with hy | hy
          · simp [rx_slot_events] at hy
          · exact h3 sz y hy
        · intro i x hi
          have := h4 i x hi
          rw [hsk] at this
          by_cases hie : i = s.rx_tail % AIC880D80_RX_RING_SIZE
          · rw [hie, Function.update_same] at this; cases this
          · rwa [Function.update_noteq hie] at this

/-- What a refill can do to the log and the pending table, on any state: it
delivers nothing, and a table entry it leaves non-empty was there before or is
a buffer it acquired by an allocation call that it logged. -/
theorem alloc_rx_loop_effect (env : alloc_env) (fuel k : Nat) (s q : aic880d80_private)
    (h : alloc_rx_loop env fuel k s = some q) :
    ∃ new, q.trace = s.trace ++ new ∧
      (∀ x, Event.netif_receive_skb x ∉ new) ∧
      (∀ i x, q.rx_skbs i = some x → s.rx_skbs i = some x ∨
        ((∃ j, env.alloc j = some x) ∧
          Event.netdev_alloc_skb_ip_align AIC880D80_BUFFER_SIZE (some x) ∈ new)) := by
  induction fuel generalizing k s with
  | zero => simp [alloc_rx_loop] at h
  | succ fuel ih =>
    simp only [alloc_rx_loop] at h
    split_ifs at h with h1 h2
    · cases h
      exact ⟨[], by simp, by simp, fun i x hx => Or.inl hx⟩
    · cases hA : env.alloc k with
      | none =>
        simp only [hA] at h
        cases h
        exact ⟨_, rfl, by simp, fun i x hx => Or.inl hx⟩
      | some skb =>
        simp only [hA] at h
        cases hM : env.map k with
        | none =>
          simp only [hM] at h
          cases h
          refine ⟨[Event.netdev_alloc_skb_ip_align AIC880D80_BUFFER_SIZE (some skb),
            Event.dma_map_single skb.data AIC880D80_BUFFER_SIZE dma_dir.DMA_FROM_DEVICE none,
            Event.dev_kfree_skb (some skb)], by simp [emit], by simp, fun i x hx => Or.inl hx⟩
        | some dma_addr =>
          simp only [hM] at h
          obtain ⟨new1, g1, g2, g3⟩ := ih _ _ h
          refine ⟨[Event.netdev_alloc_skb_ip_align AIC880D80_BUFFER_SIZE (some skb),
            Event.dma_map_single skb.data AIC880D80_BUFFER_SIZE dma_dir.DMA_FROM_DEVICE
              (some dma_addr)] ++ new1, ?_, ?_, ?_⟩
          · rw [g1]; simp [emit]
          · intro x hx
            rcases List.mem_append.mp hx with hx | hx
            · simp at hx
            · exact g2 x hx
          · intro i x hx
            rcases g3 i x hx with hx1 | ⟨hj, hev⟩
            · by_cases hie : i = s.rx_head % AIC880D80_RX_RING_SIZE
              · right
                subst hie
                simp only [emit, Function.update_same, Option.some.injEq] at hx1
                subst hx1
                exact ⟨⟨k, hA⟩, by simp⟩
              · left
                simpa only [emit, Function.update_noteq hie] using hx1
            · exact Or.inr ⟨hj, List.mem_append_right _ hev⟩
    · cases h
      exact ⟨[], by simp, by simp, fun i x hx => Or.inl hx⟩

theorem rx_step_rt_inv (s0 s : aic880d80_private) (op : rx_op) (b : sk_buff) (e : Nat)
    (hwf : rx_wf s)
    (hfresh : ∀ env, op = rx_op.refill env → ∀ k, env.alloc k ≠ some b)
    (hinv : rt_inv s0 b e s) :
    ∃ q, rx_step s op = some q ∧ rx_wf q ∧ rt_inv s0 b e q := by
  obtain ⟨q, hq, hwq⟩ := rx_step_wf s op hwf
  refine ⟨q, hq, hwq, ?_⟩
  obtain ⟨D, d1, d2, d3, d4⟩ := hinv
  cases op with
  | refill env =>
    obtain ⟨new, g1, g2, g3⟩ := alloc_rx_loop_effect env _ 0 s q hq
    refine ⟨D ++ new, by rw [g1, d1, List.append_assoc], ?_, ?_, ?_⟩
    · rw [List.count_append, d2, List.count_eq_zero.mpr (g2 _)]
    · intro i hi
      rcases g3 i b hi with h1 | ⟨⟨j, hj⟩, _⟩
      · exact d3 i h1
      · exact hfresh env rfl j hj
    · intro x hx
      rcases g3 e x hx with h1 | ⟨_, hev⟩
      · exact List.mem_append_left _ (d4 x h1)
      · exact List.mem_append_right _ hev
  | drain budget =>
    have hq2 : q = process_rx_loop budget.toNat s := by
      simp only [rx_step, aic880d80_process_rx_ring, Option.some.injEq] at hq
      exact hq.symm
    subst hq2
    obtain ⟨new, h1, h2, _, h4⟩ := process_rx_loop_effect budget.toNat s
    refine ⟨D ++ new, by rw [h1, d1, List.append_assoc], ?_, ?_, ?_⟩
    · rw [List.count_append, d2, Nat.zero_add, List.count_eq_zero]
      intro hmem
      obtain ⟨i, hi⟩ := h2 b hmem
      exact d3 i hi
    · intro i hi
      exact d3 i (h4 i b hi)
    · intro x hx
      exact List.mem_append_left _ (d4 x (h4 e x hx))
  | hw ring =>
    simp only [rx_step, Option.some.injEq] at hq
    subst hq
    exact ⟨D, d1, d2, d3, d4⟩

theorem rx_run_rt_inv (s0 : aic880d80_private) (b : sk_buff) (e : Nat) (ops : List rx_op)
    (s : aic880d80_private) (hwf : rx_wf s)
    (hfresh : ∀ env, rx_op.refill env ∈ ops → ∀ k, env.alloc k ≠ some b)
    (hinv : rt_inv s0 b e s) :
    ∃ states, rx_run s ops = some states ∧ ∀ q, q ∈ states → rt_inv s0 b e q := by
  induction ops generalizing s with
  | nil => exact ⟨[], rfl, fun q hq => by cases hq⟩
  | cons op ops ih =>
    obtain ⟨p, hp, hwp, hip⟩ := rx_step_rt_inv s0 s op b e hwf
      (fun env henv => hfresh env (by rw [henv]; exact List.mem_cons_self _ _)) hinv
    obtain ⟨ps, hps, hall⟩ := ih p hwp
      (fun env henv => hfresh env (List.mem_cons_of_mem _ henv)) hip
    refine ⟨p :: ps, by simp only [rx_run, hp, hps], ?_⟩
    intro q hq
    rcases List.mem_cons.mp hq with rfl | hq
    · exact hip
    · exact hall q hq

/-- C5: RX round trip.  Let slot `e = rx_tail` of a well-formed ring hold buffer
`b` (recorded there by a refill, and in no other slot), completed by hardware
with length `L`.  A drain with budget at least 1 first unmaps slot `e` and
delivers `b` with length `L`, and leaves `rx_skbs[e]` empty.  Over every later
history of drains, refills and hardware writes in which the allocator does not
hand out `b` again, and at every state of it, `b` has been delivered exactly
once since the start, `b` is in no table entry, and whatever slot `e` holds
is a buffer other than `b` acquired by an allocation made after that drain. -/
theorem rx_round_trip (priv : aic880d80_private) (b : sk_buff) (e L : Nat) (budget : Int)
    (ops : List rx_op)
    (h : rx_wf priv) (htail : priv.rx_tail = e) (hb : priv.rx_skbs e = some b)
    (huniq : ∀ i, i ≠ e → priv.rx_skbs i ≠ some b)
    (hdone : desc_owned (priv.rx_ring e) = false) (hL : (priv.rx_ring e).length = L)
    (hbud : 1 ≤ budget)
    (hfresh : ∀ env, rx_op.refill env ∈ ops → ∀ k, env.alloc k ≠ some b) :
    (∃ rest, (aic880d80_process_rx_ring priv budget).trace
      = priv.trace ++
        [Event.dma_unmap_single (priv.rx_ring e).buffer L dma_dir.DMA_FROM_DEVICE,
         Event.skb_put (some b) L, Event.eth_type_trans (some b),
         Event.netif_receive_skb (some b)] ++ rest) ∧
    (aic880d80_process_rx_ring priv budget).rx_skbs e = none ∧
    ∃ states, rx_run (aic880d80_process_rx_ring priv budget) ops = some states ∧
      ∀ q, q ∈ aic880d80_process_rx_ring priv budget :: states →
        (trace_since priv q).count (Event.netif_receive_skb (some b)) = 1 ∧
        (∀ i, q.rx_skbs i ≠ some b) ∧
        (∀ x, q.rx_skbs e = some x → x ≠ b ∧
          Event.netdev_alloc_skb_ip_align AIC880D80_BUFFER_SIZE (some x)
            ∈ trace_since (aic880d80_process_rx_ring priv budget) q) := by
  obtain ⟨n, hn⟩ : ∃ n, budget.toNat = n + 1 := ⟨budget.toNat - 1, by omega⟩
  have hh := h.1
  have ht := h.2.1
  simp only [rx_ring_size_eq] at hh ht
  have hmod : priv.rx_tail % AIC880D80_RX_RING_SIZE = e := by
    simp only [rx_ring_size_eq]; omega
  have hne : priv.rx_tail ≠ priv.rx_head := by
    have hw := (h.2.2 e (by simp only [rx_ring_size_eq]; omega)).mp (by rw [hb]; rfl)
    simp only [in_window, rx_ring_size_eq] at hw
    omega
  have hno : desc_owned (priv.rx_ring (priv.rx_tail % AIC880D80_RX_RING_SIZE)) = false := by
    rw [hmod]; exact hdone
  obtain ⟨s1, hstep, htr, hsk, _, _, _⟩ := process_rx_loop_step n priv hne hno
  rw [hmod] at htr hsk
  have hs1 : ∀ i, s1.rx_skbs i ≠ some b := by
    intro i
    rw [hsk]
    by_cases hie : i = e
    · rw [hie, Function.update_same]; simp
    · rw [Function.update_noteq hie]; exact huniq i hie
  obtain ⟨new, h1, h2, _, h4⟩ := process_rx_loop_effect n s1
  have hs0 : aic880d80_process_rx_ring priv budget = process_rx_loop n s1 := by
    simp only [aic880d80_process_rx_ring, hn, hstep]
  have hev : rx_slot_events priv e =
      [Event.dma_unmap_single (priv.rx_ring e).buffer L dma_dir.DMA_FROM_DEVICE,
       Event.skb_put (some b) L, Event.eth_type_trans (some b),
       Event.netif_receive_skb (some b)] := by
    simp only [rx_slot_events, hb, hL]
  have htrace : (aic880d80_process_rx_ring priv budget).trace
      = priv.trace ++
        ([Event.dma_unmap_single (priv.rx_ring e).buffer L dma_dir.DMA_FROM_DEVICE,
         Event.skb_put (some b) L, Event.eth_type_trans (some b),
         Event.netif_receive_skb (some b)] ++ new) := by
    rw [hs0, h1, htr, hev, List.append_assoc]
  have hnew : new.count (Event.netif_receive_skb (some b)) = 0 := by
    rw [List.count_eq_zero]
    intro hmem
    obtain ⟨i, hi⟩ := h2 b hmem
    exact hs1 i hi
  have hnob : ∀ i, (aic880d80_process_rx_ring priv budget).rx_skbs i ≠ some b := by
    intro i hi
    rw [hs0] at hi
    exact hs1 i (h4 i b hi)
  have hempty : (aic880d80_process_rx_ring priv budget).rx_skbs e = none := by
    cases hx : (aic880d80_process_rx_ring priv budget).rx_skbs e with
    | none => rfl
    | some x =>
      rw [hs0] at hx
      have := h4 e x hx
      rw [hsk, Function.update_same] at this
      cases this
  have hwf0 : rx_wf (aic880d80_process_rx_ring priv budget) := process_rx_loop_wf _ _ h
  have hinv0 : rt_inv (aic880d80_process_rx_ring priv budget) b e
      (aic880d80_process_rx_ring priv budget) :=
    ⟨[], by simp, by simp, hnob, fun x hx => by rw [hempty] at hx; cases hx⟩
  obtain ⟨states, hrun, hall⟩ := rx_run_rt_inv _ b e ops _ hwf0 hfresh hinv0
  refine ⟨⟨new, by rw [htrace, List.append_assoc]⟩, hempty, states, hrun, ?_⟩
  intro q hq
  have hqi : rt_inv (aic880d80_process_rx_ring priv budget) b e q := by
    rcases List.mem_cons.mp hq with rfl | hq
    · exact hinv0
    · exact hall q hq
  obtain ⟨D, d1, d2, d3, d4⟩ := hqi
  have hfull : q.trace = priv.trace ++
      ([Event.dma_unmap_single (priv.rx_ring e).buffer L dma_dir.DMA_FROM_DEVICE,
         Event.skb_put (some b) L, Event.eth_type_trans (some b),
         Event.netif_receive_skb (some b)] ++ new ++ D) := by
    rw [d1, htrace]; simp
  refine ⟨?_, d3, ?_⟩
  · rw [trace_since_append priv q _ hfull, List.count_append, List.count_append, d2, hnew]
    simp [List.count_cons]
  · intro x hx
    refine ⟨?_, ?_⟩
    · intro hxb
      rw [hxb] at hx
      exact d3 e hx
    · rw [trace_since_append _ q D d1]
      exact d4 x hx

theorem rx_demo_buf_unique : ∀ i, i ≠ 0 → rx_demo_state.rx_skbs i ≠ some rx_demo_buf := by
  intro i hi
  simp only [rx_demo_state, rx_demo_buf]
  split_ifs with h3
  · simp only [ne_eq, Option.some.injEq, sk_buff.mk.injEq, and_true]
    omega
  · simp

theorem rx_demo_ops_fresh :
    ∀ env, rx_op.refill env ∈ rx_demo_ops → ∀ k, env.alloc k ≠ some rx_demo_buf := by
  intro env henv k
  simp only [rx_demo_ops, List.mem_cons, rx_op.refill.injEq, reduceCtorEq, List.mem_singleton,
    or_false, List.not_mem_nil] at henv
  subst henv
  simp only [env_ok, rx_demo_buf, ne_eq, Option.some.injEq, sk_buff.mk.injEq, and_true]
  omega

/-- Witness of C5: slot 0 of the example ring holds the buffer at 4096, completed
with length 64; a drain with budget 1 delivers it with length 64, and over a
later refill and drain it is delivered exactly once and slot 0 never holds it again. -/
theorem rx_round_trip_witness :
    rx_wf rx_demo_state ∧ rx_demo_state.rx_tail = 0 ∧
    rx_demo_state.rx_skbs 0 = some rx_demo_buf ∧
    desc_owned (rx_demo_state.rx_ring 0) = false ∧
    (∃ rest, (aic880d80_process_rx_ring rx_demo_state 1).trace
      = rx_demo_state.trace ++
        [Event.dma_unmap_single (rx_demo_state.rx_ring 0).buffer 64 dma_dir.DMA_FROM_DEVICE,
         Event.skb_put (some rx_demo_buf) 64, Event.eth_type_trans (some rx_demo_buf),
         Event.netif_receive_skb (some rx_demo_buf)] ++ rest) ∧
    (aic880d80_process_rx_ring rx_demo_state 1).rx_skbs 0 = none ∧
    ∃ states, rx_run (aic880d80_process_rx_ring rx_demo_state 1) rx_demo_ops = some states ∧
      ∀ q, q ∈ aic880d80_process_rx_ring rx_demo_state 1 :: states →
        (trace_since rx_demo_state q).count (Event.netif_receive_skb (some rx_demo_buf)) = 1 ∧
        (∀ i, q.rx_skbs i ≠ some rx_demo_buf) ∧
        (∀ x, q.rx_skbs 0 = some x → x ≠ rx_demo_buf ∧
          Event.netdev_alloc_skb_ip_align AIC880D80_BUFFER_SIZE (some x)
            ∈ trace_since (aic880d80_process_rx_ring rx_demo_state 1) q) :=
  ⟨rx_demo_state_wf, rfl, rfl, rfl,
    rx_round_trip rx_demo_state rx_demo_buf 0 64 1 rx_demo_ops rx_demo_state_wf rfl rfl
      rx_demo_buf_unique rfl rfl (by decide) rx_demo_ops_fresh⟩

/-! ## No-op cases and totality -/

/-- The refill loop exits at its first test on a full ring. -/
theorem alloc_rx_loop_full (env : alloc_env) (fuel k : Nat) (priv : aic880d80_private)
    (hfull : (priv.rx_head + 1) % AIC880D80_RX_RING_SIZE = priv.rx_tail) :
    alloc_rx_loop env (fuel + 1) k priv = some priv := by
  simp only [rx_ring_size_eq] at hfull
  simp only [alloc_rx_loop, rx_ring_size_eq, u32_mod_ring, hfull, bne_self_eq_false,
    Bool.false_eq_true, if_false]

/-- The refill loop stops on a slot whose table entry is occupied. -/
theorem alloc_rx_loop_occupied (env : alloc_env) (fuel k : Nat) (priv : aic880d80_private)
    (hocc : (priv.rx_skbs (priv.rx_head % AIC880D80_RX_RING_SIZE)).isSome = true) :
    alloc_rx_loop env (fuel + 1) k priv = some priv := by
  simp only [alloc_rx_loop, hocc, if_true]
  split_ifs <;> rfl

/-- A successful refill iteration removes one slot from the empty ones. -/
theorem rx_empty_slots_step (s q : aic880d80_private) (skb : sk_buff)
    (hemp : (s.rx_skbs (s.rx_head % AIC880D80_RX_RING_SIZE)).isSome = false)
    (hq : q.rx_skbs = Function.update s.rx_skbs (s.rx_head % AIC880D80_RX_RING_SIZE) (some skb)) :
    (rx_empty_slots q).card < (rx_empty_slots s).card := by
  apply Finset.card_lt_card
  rw [Finset.ssubset_iff_of_subset]
  · refine ⟨s.rx_head % AIC880D80_RX_RING_SIZE, ?_, ?_⟩
    · simp only [rx_empty_slots, Finset.mem_filter, Finset.mem_range]
      refine ⟨Nat.mod_lt _ (by decide), ?_⟩
      cases hx : s.rx_skbs (s.rx_head % AIC880D80_RX_RING_SIZE) with
      | none => rfl
      | some x => rw [hx] at hemp; cases hemp
    · simp only [rx_empty_slots, Finset.mem_filter, Finset.mem_range, hq, Function.update_same,
        reduceCtorEq, and_false, not_false_eq_true]
  · intro i hi
    simp only [rx_empty_slots, Finset.mem_filter, Finset.mem_range, hq] at hi ⊢
    refine ⟨hi.1, ?_⟩
    by_cases hie : i = s.rx_head % AIC880D80_RX_RING_SIZE
    · rw [hie, Function.update_same] at hi
      cases hi.2
    · rw [Function.update_noteq hie] at hi
      exact hi.2

/-- The refill loop returns on every state once `fuel` exceeds the number of
empty table entries. -/
theorem alloc_rx_loop_total (env : alloc_env) (fuel k : Nat) (s : aic880d80_private)
    (hf : (rx_empty_slots s).card < fuel) :
    ∃ q, alloc_rx_loop env fuel k s = some q := by
  induction fuel generalizing k s with
  | zero => omega
  | succ fuel ih =>
    simp only [alloc_rx_loop]
    split_ifs with h1 h2
    · exact ⟨_, rfl⟩
    · split
      · exact ⟨_, rfl⟩
      · split
        · exact ⟨_, rfl⟩
        · apply ih
          have hemp : (s.rx_skbs (s.rx_head % AIC880D80_RX_RING_SIZE)).isSome = false := by
            simpa using h2
          refine Nat.lt_of_lt_of_le ?_ (Nat.le_of_lt_succ hf)
          exact rx_empty_slots_step s _ _ hemp rfl
    · exact ⟨_, rfl⟩

/-- The function `aic880d80_alloc_rx_buffers` returns on every state. -/
theorem alloc_rx_buffers_total (env : alloc_env) (s : aic880d80_private) :
    ∃ q, aic880d80_alloc_rx_buffers env s = some q := by
  apply alloc_rx_loop_total
  have h1 : (rx_empty_slots s).card ≤ (Finset.range AIC880D80_RX_RING_SIZE).card :=
    Finset.card_le_card (Finset.filter_subset _ _)
  rw [Finset.card_range] at h1
  omega

/-- C17: no-op cases.  `aic880d80_process_rx_ring` with budget 0 on any state, or
with any budget on a state whose ring is empty or whose descriptor at `rx_tail`
is still owned by hardware, and `aic880d80_alloc_rx_buffers` on a full ring,
return the state they were given: indices, descriptors, table and call log are
unchanged, so no packet is delivered and no buffer acquired.  A poll over a
state on which the drain is such a no-op returns and reports 0 work done,
having delivered nothing. -/
theorem rx_noop_cases :
    (∀ priv, aic880d80_process_rx_ring priv 0 = priv) ∧
    (∀ priv budget, priv.rx_tail = priv.rx_head →
      aic880d80_process_rx_ring priv budget = priv) ∧
    (∀ priv budget, desc_owned (priv.rx_ring (priv.rx_tail % AIC880D80_RX_RING_SIZE)) = true →
      aic880d80_process_rx_ring priv budget = priv) ∧
    (∀ env priv, (priv.rx_head + 1) % AIC880D80_RX_RING_SIZE = priv.rx_tail →
      aic880d80_alloc_rx_buffers env priv = some priv) ∧
    (∀ env priv budget,
      (budget = 0 ∨ priv.rx_tail = priv.rx_head ∨
        desc_owned (priv.rx_ring (priv.rx_tail % AIC880D80_RX_RING_SIZE)) = true) →
      ∃ q, aic880d80_napi_poll env priv budget = some (0, q) ∧
        ∀ x, Event.netif_receive_skb x ∉ trace_since priv q) := by
  have hdrain : ∀ (priv : aic880d80_private) (budget : Int),
      (budget = 0 ∨ priv.rx_tail = priv.rx_head ∨
        desc_owned (priv.rx_ring (priv.rx_tail % AIC880D80_RX_RING_SIZE)) = true) →
      aic880d80_process_rx_ring priv budget = priv := by
    intro priv budget h
    rcases h with h | h | h
    · subst h; rfl
    · exact process_rx_loop_empty _ _ h
    · exact process_rx_loop_owned _ _ h
  refine ⟨fun priv => rfl, fun priv budget h => hdrain priv budget (Or.inr (Or.inl h)),
    fun priv budget h => hdrain priv budget (Or.inr (Or.inr h)),
    fun env priv h => alloc_rx_loop_full env _ 0 priv h, ?_⟩
  intro env priv budget h
  obtain ⟨q, hq⟩ := alloc_rx_buffers_total env (emit priv (Event.napi_complete_done 0))
  obtain ⟨new, g1, g2, _⟩ := alloc_rx_loop_effect env _ 0 _ q hq
  refine ⟨q, ?_, ?_⟩
  · simp only [aic880d80_napi_poll, hdrain priv budget h, hq]
  · intro x hx
    have ht : q.trace = priv.trace ++ (Event.napi_complete_done 0 :: new) := by
      rw [g1]; simp [emit]
    rw [trace_since_append priv q _ ht] at hx
    rcases List.mem_cons.mp hx with hx | hx
    · cases hx
    · exact g2 x hx

/-- Witness of C17: budget 0 and an empty ring (the idle state), a ring whose
tail descriptor is owned by hardware, a full ring, and a poll of the idle state. -/
theorem rx_noop_cases_witness :
    aic880d80_process_rx_ring rx_demo_state 0 = rx_demo_state ∧
    aic880d80_process_rx_ring idle_state 10 = idle_state ∧
    aic880d80_process_rx_ring rx_armed_state 10 = rx_armed_state ∧
    aic880d80_alloc_rx_buffers (env_ok 4096) rx_full_state = some rx_full_state ∧
    ∃ q, aic880d80_napi_poll env_nomem idle_state 10 = some (0, q) ∧
      ∀ x, Event.netif_receive_skb x ∉ trace_since idle_state q :=
  ⟨rx_noop_cases.1 rx_demo_state, rx_noop_cases.2.1 idle_state 10 rfl,
    rx_noop_cases.2.2.1 rx_armed_state 10 (by decide),
    rx_noop_cases.2.2.2.1 (env_ok 4096) rx_full_state (by decide),
    rx_noop_cases.2.2.2.2 env_nomem idle_state 10 (Or.inr (Or.inl rfl))⟩

/-- C12 at its failing input: three armed slots of which two are completed,
budget 2.  `aic880d80_napi_poll` drains two descriptors, as many as the
budget, and still calls `napi_complete_done` (with a work count of 0) before
refilling. -/
theorem napi_poll_always_completes :
    (aic880d80_napi_poll env_nomem rx_demo_state 2).map
      (fun r => (r.2.rx_tail, delivered r.2.trace, r.2.trace.drop 8))
      = some (2,
          [(some { data := 4096, len := 0 }, 64), (some { data := 8192, len := 0 }, 128)],
          [Event.napi_complete_done 0,
           Event.netdev_alloc_skb_ip_align AIC880D80_BUFFER_SIZE none]) :=
  rfl

/-! ## Reclaim -/

/-- One round of the reclaim loop on a completed descriptor, as an equation. -/
theorem clean_tx_loop_step_eq (fuel : Nat) (priv : aic880d80_private)
    (hne : priv.tx_tail ≠ priv.tx_head)
    (hno : desc_owned (priv.tx_ring (priv.tx_tail % AIC880D80_TX_RING_SIZE)) = false) :
    clean_tx_loop (fuel + 1) priv = clean_tx_loop fuel (tx_reclaim_step priv) := by
  simp only [clean_tx_loop]
  rw [if_pos (by simpa using hne)]
  simp only [hno, Bool.false_eq_true, if_false]
  simp only [emit, List.append_assoc, List.singleton_append, tx_ring_size_eq, u32_mod_ring,
    tx_reclaim_step, tx_slot_events]

/-- More fuel does not change what the reclaim loop returns. -/
theorem clean_tx_loop_mono (fuel : Nat) (s q : aic880d80_private)
    (h : clean_tx_loop fuel s = some q) : clean_tx_loop (fuel + 1) s = some q := by
  induction fuel generalizing s with
  | zero => simp [clean_tx_loop] at h
  | succ fuel ih =>
    by_cases he : s.tx_tail = s.tx_head
    · rw [clean_tx_loop_empty fuel s he] at h
      rw [clean_tx_loop_empty (fuel + 1) s he]
      exact h
    · cases ho : desc_owned (s.tx_ring (s.tx_tail % AIC880D80_TX_RING_SIZE)) with
      | true =>
        rw [clean_tx_loop_owned fuel s ho] at h
        rw [clean_tx_loop_owned (fuel + 1) s ho]
        exact h
      | false =>
        rw [clean_tx_loop_step_eq fuel s he ho] at h
        rw [clean_tx_loop_step_eq (fuel + 1) s he ho]
        exact ih _ h

theorem clean_tx_loop_mono_le (fuel fuel2 : Nat) (s q : aic880d80_private)
    (hle : fuel ≤ fuel2) (h : clean_tx_loop fuel s = some q) :
    clean_tx_loop fuel2 s = some q := by
  induction hle with
  | refl => exact h
  | step _ ih => exact clean_tx_loop_mono _ _ _ ih

/-- Reclaim, general form: with exactly `k` completed slots at the tail, the loop
makes `k` rounds and stops at its next test. -/
theorem clean_tx_loop_spec (k : Nat) (s : aic880d80_private)
    (hh : s.tx_head < 256) (ht : s.tx_tail < 256)
    (hdone : ∀ j, j < k →
      in_window AIC880D80_TX_RING_SIZE s.tx_tail s.tx_head (tx_slot s j) ∧
      desc_owned (s.tx_ring (tx_slot s j)) = false)
    (hnext : in_window AIC880D80_TX_RING_SIZE s.tx_tail s.tx_head (tx_slot s k) →
      desc_owned (s.tx_ring (tx_slot s k)) = true) :
    ∃ q, clean_tx_loop (k + 1) s = some q ∧
      q.trace = s.trace ++ tx_reclaim_events s k ∧
      q.tx_tail = tx_slot s k ∧ q.tx_head = s.tx_head ∧
      q.tx_ring = s.tx_ring ∧ q.tx_skbs = s.tx_skbs ∧
      (q.tx_tail = q.tx_head ∨
        desc_owned (q.tx_ring (q.tx_tail % AIC880D80_TX_RING_SIZE)) = true) := by
  have hk : k ≤ 255 := by
    by_contra hc
    have := (hdone 255 (by omega)).1
    simp only [in_window, tx_slot, tx_ring_size_eq] at this
    omega
  have hmod : s.tx_tail % AIC880D80_TX_RING_SIZE = s.tx_tail := by
    simp only [tx_ring_size_eq]; omega
  have hs0 : tx_slot s 0 = s.tx_tail := by
    simp only [tx_slot, tx_ring_size_eq]; omega
  induction k generalizing s with
  | zero =>
    by_cases he : s.tx_tail = s.tx_head
    · exact ⟨s, clean_tx_loop_empty 0 s he, by simp [tx_reclaim_events], hs0.symm, rfl, rfl, rfl,
        Or.inl he⟩
    · have ho : desc_owned (s.tx_ring (s.tx_tail % AIC880D80_TX_RING_SIZE)) = true := by
        rw [hmod, ← hs0]
        apply hnext
        simp only [in_window, tx_slot, tx_ring_size_eq]
        omega
      exact ⟨s, clean_tx_loop_owned 0 s ho, by simp [tx_reclaim_events], hs0.symm, rfl, rfl, rfl,
        Or.inr ho⟩
  | succ k ih =>
    have h0 := hdone 0 (by omega)
    have hne : s.tx_tail ≠ s.tx_head := by
      have := h0.1
      simp only [in_window, tx_slot, tx_ring_size_eq] at this
      omega
    have hno : desc_owned (s.tx_ring (s.tx_tail % AIC880D80_TX_RING_SIZE)) = false := by
      have := h0.2
      rwa [hs0, ← hmod] at this
    obtain ⟨s1, hstep, htr, htl, hhd, hrg, hsk⟩ := clean_tx_loop_step (k + 1) s hne hno
    rw [hmod] at htr
    simp only [tx_ring_size_eq] at htl
    have hslot : ∀ j, tx_slot s1 j = tx_slot s (j + 1) := by
      intro j
      simp only [tx_slot, tx_ring_size_eq, htl]
      omega
    obtain ⟨q, i1, i2, i3, i4, i5, i6, i7⟩ := ih s1 (by omega) (by omega)
      (by
        intro j hj
        rw [hslot, hrg, htl, hhd]
        have := hdone (j + 1) (by omega)
        refine ⟨?_, this.2⟩
        have hw := this.1
        simp only [in_window, tx_slot, tx_ring_size_eq] at hw ⊢
        omega)
      (by
        intro hw
        rw [hslot, htl, hhd] at hw
        rw [hslot, hrg]
        apply hnext
        simp only [in_window, tx_slot, tx_ring_size_eq] at hw ⊢
        omega)
      (by omega)
      (by simp only [tx_ring_size_eq, htl]; omega)
      (by simp only [tx_slot, tx_ring_size_eq, htl]; omega)
    refine ⟨q, by rw [hstep]; exact i1, ?_, by rw [i3, hslot], by rw [i4, hhd],
      by rw [i5, hrg], by rw [i6, hsk], i7⟩
    rw [i2, htr]
    simp only [tx_reclaim_events, List.range_succ_eq_map, List.flatMap_cons, List.flatMap_map,
      hs0, List.append_assoc]
    congr 2
    apply flatMap_congr_mem
    intro j _
    simp only [tx_slot_events, Function.comp, hslot, hrg, hsk, Nat.succ_eq_add_one]

/-- The reclaim loop returns whenever both TX indices are ring indices and
`fuel` exceeds the number of slots in flight. -/
theorem clean_tx_loop_total (fuel : Nat) (s : aic880d80_private)
    (hh : s.tx_head < 256) (ht : s.tx_tail < 256)
    (hf : (s.tx_head + 256 - s.tx_tail) % 256 < fuel) :
    ∃ q, clean_tx_loop fuel s = some q := by
  induction fuel generalizing s with
  | zero => omega
  | succ fuel ih =>
    by_cases he : s.tx_tail = s.tx_head
    · exact ⟨s, clean_tx_loop_empty fuel s he⟩
    · cases ho : desc_owned (s.tx_ring (s.tx_tail % AIC880D80_TX_RING_SIZE)) with
      | true => exact ⟨s, clean_tx_loop_owned fuel s ho⟩
      | false =>
        obtain ⟨s1, hstep, _, htl, hhd, _, _⟩ := clean_tx_loop_step fuel s he ho
        simp only [tx_ring_size_eq] at htl
        rw [hstep]
        exact ih s1 (by omega) (by omega) (by rw [htl, hhd]; omega)

/-- What a reclaim can do, on any state on which it returns: it only appends
unmap and release calls to the log and moves `tx_tail`. -/
theorem clean_tx_loop_effect (fuel : Nat) (s q : aic880d80_private)
    (h : clean_tx_loop fuel s = some q) :
    ∃ new, q.trace = s.trace ++ new ∧
      (∀ ev, ev ∈ new →
        (∃ a l, ev = Event.dma_unmap_single a l dma_dir.DMA_TO_DEVICE) ∨
        (∃ x, ev = Event.dev_kfree_skb x)) := by
  induction fuel generalizing s with
  | zero => simp [clean_tx_loop] at h
  | succ fuel ih =>
    by_cases he : s.tx_tail = s.tx_head
    · rw [clean_tx_loop_empty fuel s he] at h
      cases h
      exact ⟨[], by simp, by simp⟩
    · cases ho : desc_owned (s.tx_ring (s.tx_tail % AIC880D80_TX_RING_SIZE)) with
      | true =>
        rw [clean_tx_loop_owned fuel s ho] at h
        cases h
        exact ⟨[], by simp, by simp⟩
      | false =>
        obtain ⟨s1, hstep, htr, _, _, _, _⟩ := clean_tx_loop_step fuel s he ho
        rw [hstep] at h
        obtain ⟨new1, g1, g2⟩ := ih s1 h
        refine ⟨tx_slot_events s (s.tx_tail % AIC880D80_TX_RING_SIZE) ++ new1,
          by rw [g1, htr, List.append_assoc]; rfl, ?_⟩
        intro ev hev
        rcases List.mem_append.mp hev with hev | hev
        · simp only [tx_slot_events, List.mem_cons, List.mem_singleton, List.not_mem_nil,
            or_false] at hev
          rcases hev with hev | hev
          · exact Or.inl ⟨_, _, hev⟩
          · exact Or.inr ⟨_, hev⟩
        · exact g2 ev hev

theorem flatMap_length_two {α : Type} (l : List α) (g : α → List Event)
    (h : ∀ a, (g a).length = 2) : (l.flatMap g).length = 2 * l.length := by
  induction l with
  | nil => rfl
  | cons a l ih =>
    rw [List.flatMap_cons, List.length_append, h a, ih, List.length_cons]
    omega

/-- C18: reclaim postcondition.  On a TX state with `tx_head, tx_tail < N` whose
first `k` slots from `tx_tail` lie in the window with ownership cleared and
whose next slot, if in the window, is still owned by hardware,
`aic880d80_clean_tx_ring` returns after `k` rounds (any iteration bound above `k`
gives the same result); it unmaps and releases the packets of exactly those `k`
slots, each once and in ring order, advances `tx_tail` by `k` modulo `N`, leaves
`tx_head` and every descriptor unchanged, and ends with the ring empty or the
descriptor at `tx_tail` owned by hardware. -/
theorem reclaim_postcondition (priv : aic880d80_private) (k : Nat)
    (hh : priv.tx_head < AIC880D80_TX_RING_SIZE) (ht : priv.tx_tail < AIC880D80_TX_RING_SIZE)
    (hdone : ∀ j, j < k →
      in_window AIC880D80_TX_RING_SIZE priv.tx_tail priv.tx_head (tx_slot priv j) ∧
      desc_owned (priv.tx_ring (tx_slot priv j)) = false)
    (hnext : in_window AIC880D80_TX_RING_SIZE priv.tx_tail priv.tx_head (tx_slot priv k) →
      desc_owned (priv.tx_ring (tx_slot priv k)) = true) :
    ∃ q, aic880d80_clean_tx_ring priv = some q ∧
      (∀ fuel, k < fuel → clean_tx_loop fuel priv = some q) ∧
      q.trace = priv.trace ++ tx_reclaim_events priv k ∧
      (tx_reclaim_events priv k).length = 2 * k ∧
      q.tx_tail = (priv.tx_tail + k) % AIC880D80_TX_RING_SIZE ∧
      q.tx_head = priv.tx_head ∧ q.tx_ring = priv.tx_ring ∧
      (q.tx_tail = q.tx_head ∨
        desc_owned (q.tx_ring (q.tx_tail % AIC880D80_TX_RING_SIZE)) = true) := by
  simp only [tx_ring_size_eq] at hh ht
  have hk : k ≤ 255 := by
    by_contra hc
    have := (hdone 255 (by omega)).1
    simp only [in_window, tx_slot, tx_ring_size_eq] at this
    omega
  obtain ⟨q, h1, h2, h3, h4, h5, _, h7⟩ := clean_tx_loop_spec k priv hh ht hdone hnext
  refine ⟨q, clean_tx_loop_mono_le _ _ _ _ (by simp only [tx_ring_size_eq]; omega) h1,
    fun fuel hf => clean_tx_loop_mono_le _ _ _ _ (by omega) h1, h2, ?_, h3, h4, h5, h7⟩
  rw [tx_reclaim_events,
    flatMap_length_two (List.range k) (fun j => tx_slot_events priv (tx_slot priv j))
      (fun j => rfl),
    List.length_range]

theorem tx_two_done_completed : ∀ j, j < 2 →
    in_window AIC880D80_TX_RING_SIZE tx_two_done.tx_tail tx_two_done.tx_head
      (tx_slot tx_two_done j) ∧
    desc_owned (tx_two_done.tx_ring (tx_slot tx_two_done j)) = false := by
  decide

theorem tx_two_done_next :
    in_window AIC880D80_TX_RING_SIZE tx_two_done.tx_tail tx_two_done.tx_head
      (tx_slot tx_two_done 2) →
    desc_owned (tx_two_done.tx_ring (tx_slot tx_two_done 2)) = true := by
  decide

/-- Witness of C18: three packets queued, the first two completed: the reclaim
makes two rounds, `tx_tail` goes from 0 to 2, `tx_head` stays 3, and the log
grows by the unmap and release of slot 0 and then of slot 1. -/
theorem reclaim_postcondition_witness :
    ∃ q, aic880d80_clean_tx_ring tx_two_done = some q ∧
      (∀ fuel, 2 < fuel → clean_tx_loop fuel tx_two_done = some q) ∧
      q.trace = tx_two_done.trace ++
        [Event.dma_unmap_single 4096 60 dma_dir.DMA_TO_DEVICE,
         Event.dev_kfree_skb (some { data := 4096, len := 60 }),
         Event.dma_unmap_single 8192 1514 dma_dir.DMA_TO_DEVICE,
         Event.dev_kfree_skb (some { data := 8192, len := 1514 })] ∧
      q.tx_tail = 2 ∧ q.tx_head = 3 ∧ q.tx_ring = tx_two_done.tx_ring ∧
      desc_owned (q.tx_ring (q.tx_tail % AIC880D80_TX_RING_SIZE)) = true := by
  obtain ⟨q, h1, h2, h3, _, h5, h6, h7, h8⟩ :=
    reclaim_postcondition tx_two_done 2 (by decide) (by decide)
      tx_two_done_completed tx_two_done_next
  refine ⟨q, h1, h2, h3, h5, h6, h7, ?_⟩
  rcases h8 with h8 | h8
  · rw [h5, h6] at h8
    exact absurd h8 (by decide)
  · exact h8

/-! ## Event dispatcher -/

/-- One invocation of the interrupt handler on a state whose TX indices are ring
indices: its result, the state on which it writes the acknowledgment, and the
calls it has made before that write. -/
theorem interrupt_run (status : Nat) (priv : aic880d80_private)
    (hh : priv.tx_head < 256) (ht : priv.tx_tail < 256) :
    ∃ s2 mid,
      aic880d80_interrupt status priv
        = some (if ((status &&& AIC880D80_INT_RX_DONE) != 0
                  || (status &&& AIC880D80_INT_TX_DONE) != 0) = true
                then irqreturn_t.IRQ_HANDLED else irqreturn_t.IRQ_NONE,
            aic880d80_write32 s2 AIC880D80_REG_INT_STS status) ∧
      s2.trace = priv.trace ++ Event.readl AIC880D80_REG_INT_STS status :: mid ∧
      (∀ ev, ev ∈ mid → ev = Event.napi_schedule ∨
        (∃ a l, ev = Event.dma_unmap_single a l dma_dir.DMA_TO_DEVICE) ∨
        (∃ x, ev = Event.dev_kfree_skb x)) ∧
      (((status &&& AIC880D80_INT_RX_DONE) != 0) = true → Event.napi_schedule ∈ mid) ∧
      (((status &&& AIC880D80_INT_TX_DONE) != 0) = true →
        ∃ s1, aic880d80_clean_tx_ring s1 = some s2 ∧
          s1.tx_head = priv.tx_head ∧ s1.tx_tail = priv.tx_tail ∧
          s1.tx_ring = priv.tx_ring ∧ s1.tx_skbs = priv.tx_skbs) := by
  cases hrx : ((status &&& AIC880D80_INT_RX_DONE) != 0) <;>
    cases htx : ((status &&& AIC880D80_INT_TX_DONE) != 0)
  · refine ⟨emit priv (Event.readl AIC880D80_REG_INT_STS status), [], ?_, by simp [emit],
      by simp, by simp, by simp⟩
    simp [aic880d80_interrupt, hrx, htx]
  · obtain ⟨q, hq⟩ := clean_tx_loop_total (AIC880D80_TX_RING_SIZE + 2)
      (emit priv (Event.readl AIC880D80_REG_INT_STS status)) hh ht
      (by simp only [tx_ring_size_eq]; omega)
    obtain ⟨new, g1, g2⟩ := clean_tx_loop_effect _ _ q hq
    refine ⟨q, new, ?_, by rw [g1]; simp [emit], fun ev hev => Or.inr (g2 ev hev), by simp,
      fun _ => ⟨_, hq, rfl, rfl, rfl, rfl⟩⟩
    have hq2 : aic880d80_clean_tx_ring (emit priv (Event.readl AIC880D80_REG_INT_STS status))
        = some q := hq
    simp [aic880d80_interrupt, hrx, htx, hq2]
  · refine ⟨emit (emit priv (Event.readl AIC880D80_REG_INT_STS status)) Event.napi_schedule,
      [Event.napi_schedule], ?_, by simp [emit], by simp, by simp, by simp⟩
    simp [aic880d80_interrupt, hrx, htx]
  · obtain ⟨q, hq⟩ := clean_tx_loop_total (AIC880D80_TX_RING_SIZE + 2)
      (emit (emit priv (Event.readl AIC880D80_REG_INT_STS status)) Event.napi_schedule) hh ht
      (by simp only [tx_ring_size_eq]; omega)
    obtain ⟨new, g1, g2⟩ := clean_tx_loop_effect _ _ q hq
    refine ⟨q, Event.napi_schedule :: new, ?_, by rw [g1]; simp [emit], ?_, by simp,
      fun _ => ⟨_, hq, rfl, rfl, rfl, rfl⟩⟩
    · have hq2 : aic880d80_clean_tx_ring
          (emit (emit priv (Event.readl AIC880D80_REG_INT_STS status)) Event.napi_schedule)
          = some q := hq
      simp [aic880d80_interrupt, hrx, htx, hq2]
    · intro ev hev
      rcases List.mem_cons.mp hev with hev | hev
      · exact Or.inl hev
      · exact Or.inr (g2 ev hev)

/-- C13, as stated, fails: with only the link-change bit set, or only the RX-error
bit set, the handler returns `IRQ_NONE`. -/
theorem interrupt_link_change_not_claimed :
    (aic880d80_interrupt AIC880D80_INT_LINK_CHANGE idle_state).map (fun r => r.1)
      = some irqreturn_t.IRQ_NONE ∧
    (aic880d80_interrupt AIC880D80_INT_RX_ERROR idle_state).map (fun r => r.1)
      = some irqreturn_t.IRQ_NONE ∧
    AIC880D80_INT_LINK_CHANGE ≠ 0 ∧ AIC880D80_INT_LINK_CHANGE < 4294967296 :=
  ⟨rfl, rfl, by decide, by decide⟩

/-- C13, amended: for every interrupt-status value read, on a state whose TX
indices are ring indices, `aic880d80_interrupt` returns, and it returns
`IRQ_NONE` if and only if neither the RX-completion nor the TX-completion bit
is set; link-change and error bits do not enter the result. -/
theorem interrupt_result (status : Nat) (priv : aic880d80_private)
    (hh : priv.tx_head < AIC880D80_TX_RING_SIZE) (ht : priv.tx_tail < AIC880D80_TX_RING_SIZE) :
    ∃ r, aic880d80_interrupt status priv = some r ∧
      (r.1 = irqreturn_t.IRQ_NONE ↔
        (status &&& AIC880D80_INT_RX_DONE = 0 ∧ status &&& AIC880D80_INT_TX_DONE = 0)) ∧
      (r.1 = irqreturn_t.IRQ_HANDLED ↔
        (status &&& AIC880D80_INT_RX_DONE ≠ 0 ∨ status &&& AIC880D80_INT_TX_DONE ≠ 0)) := by
  obtain ⟨s2, mid, h1, _⟩ := interrupt_run status priv hh ht
  refine ⟨_, h1, ?_, ?_⟩
  · by_cases hr : status &&& AIC880D80_INT_RX_DONE = 0 <;>
      by_cases htb : status &&& AIC880D80_INT_TX_DONE = 0 <;> simp [hr, htb]
  · by_cases hr : status &&& AIC880D80_INT_RX_DONE = 0 <;>
      by_cases htb : status &&& AIC880D80_INT_TX_DONE = 0 <;> simp [hr, htb]

/-- Witness of the amended C13: RX-completion together with link-change on the
idle state is claimed. -/
theorem interrupt_result_witness :
    idle_state.tx_head < AIC880D80_TX_RING_SIZE ∧ idle_state.tx_tail < AIC880D80_TX_RING_SIZE ∧
    ∃ r, aic880d80_interrupt 17 idle_state = some r ∧
      (r.1 = irqreturn_t.IRQ_NONE ↔
        (17 &&& AIC880D80_INT_RX_DONE = 0 ∧ 17 &&& AIC880D80_INT_TX_DONE = 0)) ∧
      (r.1 = irqreturn_t.IRQ_HANDLED ↔
        (17 &&& AIC880D80_INT_RX_DONE ≠ 0 ∨ 17 &&& AIC880D80_INT_TX_DONE ≠ 0)) :=
  ⟨by decide, by decide, interrupt_result 17 idle_state (by decide) (by decide)⟩

/-- C14: interrupt acknowledgment.  For every interrupt-status value `s`, one
invocation of `aic880d80_interrupt` (on a state whose TX indices are ring
indices) logs first the single read of the interrupt-status register, then the
RX scheduling and the calls of the TX reclaim it triggers, none of which is a
register access, and last one write of exactly `s` to the interrupt-status
register, made on the state the reclaim returned. -/
theorem interrupt_ack (s : Nat) (priv : aic880d80_private)
    (hh : priv.tx_head < AIC880D80_TX_RING_SIZE) (ht : priv.tx_tail < AIC880D80_TX_RING_SIZE) :
    ∃ r s2 mid, aic880d80_interrupt s priv = some r ∧
      r.2 = aic880d80_write32 s2 AIC880D80_REG_INT_STS s ∧
      r.2.trace = priv.trace ++
        (Event.readl AIC880D80_REG_INT_STS s :: mid ++ [Event.writel s AIC880D80_REG_INT_STS]) ∧
      (∀ reg v, Event.readl reg v ∉ mid) ∧ (∀ v reg, Event.writel v reg ∉ mid) ∧
      (s &&& AIC880D80_INT_RX_DONE ≠ 0 → Event.napi_schedule ∈ mid) ∧
      (s &&& AIC880D80_INT_TX_DONE ≠ 0 →
        ∃ s1, aic880d80_clean_tx_ring s1 = some s2 ∧
          s1.tx_head = priv.tx_head ∧ s1.tx_tail = priv.tx_tail ∧
          s1.tx_ring = priv.tx_ring ∧ s1.tx_skbs = priv.tx_skbs) := by
  obtain ⟨s2, mid, h1, h2, h3, h4, h5⟩ := interrupt_run s priv hh ht
  refine ⟨_, s2, mid, h1, rfl, ?_, ?_, ?_, ?_, ?_⟩
  · simp [aic880d80_write32, emit, h2]
  · intro reg v hm
    rcases h3 _ hm with h | ⟨_, _, h⟩ | ⟨_, h⟩ <;> cases h
  · intro v reg hm
    rcases h3 _ hm with h | ⟨_, _, h⟩ | ⟨_, h⟩ <;> cases h
  · intro hne
    exact h4 (by simpa using hne)
  · intro hne
    exact h5 (by simpa using hne)

/-- Witness of C14: status 3 (RX and TX completion) on the ring with two
completed packets. -/
theorem interrupt_ack_witness :
    tx_two_done.tx_head < AIC880D80_TX_RING_SIZE ∧ tx_two_done.tx_tail < AIC880D80_TX_RING_SIZE ∧
    ∃ r s2 mid, aic880d80_interrupt 3 tx_two_done = some r ∧
      r.2 = aic880d80_write32 s2 AIC880D80_REG_INT_STS 3 ∧
      r.2.trace = tx_two_done.trace ++
        (Event.readl AIC880D80_REG_INT_STS 3 :: mid ++ [Event.writel 3 AIC880D80_REG_INT_STS]) ∧
      (∀ reg v, Event.readl reg v ∉ mid) ∧ (∀ v reg, Event.writel v reg ∉ mid) ∧
      (3 &&& AIC880D80_INT_RX_DONE ≠ 0 → Event.napi_schedule ∈ mid) ∧
      (3 &&& AIC880D80_INT_TX_DONE ≠ 0 →
        ∃ s1, aic880d80_clean_tx_ring s1 = some s2 ∧
          s1.tx_head = tx_two_done.tx_head ∧ s1.tx_tail = tx_two_done.tx_tail ∧
          s1.tx_ring = tx_two_done.tx_ring ∧ s1.tx_skbs = tx_two_done.tx_skbs) :=
  ⟨by decide, by decide, interrupt_ack 3 tx_two_done (by decide) (by decide)⟩

/-! ## Refill -/

/-- The refill loop stops when the allocation fails. -/
theorem alloc_rx_loop_nomem (env : alloc_env) (fuel k : Nat) (s : aic880d80_private)
    (hnf : (s.rx_head + 1) % AIC880D80_RX_RING_SIZE ≠ s.rx_tail)
    (hemp : (s.rx_skbs (s.rx_head % AIC880D80_RX_RING_SIZE)).isSome = false)
    (hA : env.alloc k = none) :
    alloc_rx_loop env (fuel + 1) k s
      = some (emit s (Event.netdev_alloc_skb_ip_align AIC880D80_BUFFER_SIZE none)) := by
  simp only [rx_ring_size_eq] at hnf
  simp only [alloc_rx_loop, rx_ring_size_eq, u32_mod_ring, bne_iff_ne, ne_eq, hnf,
    not_false_eq_true, if_true, hA]
  simp only [rx_ring_size_eq] at hemp
  simp [hemp]

/-- The refill loop releases the buffer and stops when the mapping fails. -/
theorem alloc_rx_loop_mapfail (env : alloc_env) (fuel k : Nat) (s : aic880d80_private)
    (skb : sk_buff)
    (hnf : (s.rx_head + 1) % AIC880D80_RX_RING_SIZE ≠ s.rx_tail)
    (hemp : (s.rx_skbs (s.rx_head % AIC880D80_RX_RING_SIZE)).isSome = false)
    (hA : env.alloc k = some skb) (hM : env.map k = none) :
    ∃ q, alloc_rx_loop env (fuel + 1) k s = some q ∧
      q.trace = s.trace ++
        [Event.netdev_alloc_skb_ip_align AIC880D80_BUFFER_SIZE (some skb),
         Event.dma_map_single skb.data AIC880D80_BUFFER_SIZE dma_dir.DMA_FROM_DEVICE none,
         Event.dev_kfree_skb (some skb)] ∧
      q.rx_head = s.rx_head ∧ q.rx_tail = s.rx_tail ∧
      q.rx_skbs = s.rx_skbs ∧ q.rx_ring = s.rx_ring := by
  refine ⟨emit (emit (emit s (Event.netdev_alloc_skb_ip_align AIC880D80_BUFFER_SIZE (some skb)))
    (Event.dma_map_single skb.data AIC880D80_BUFFER_SIZE dma_dir.DMA_FROM_DEVICE none))
    (Event.dev_kfree_skb (some skb)), ?_, by simp [emit], rfl, rfl, rfl, rfl⟩
  simp only [rx_ring_size_eq] at hnf hemp
  simp only [alloc_rx_loop, rx_ring_size_eq, u32_mod_ring, bne_iff_ne, ne_eq, hnf,
    not_false_eq_true, if_true, hA, hM]
  simp [hemp]

/-- One successful round of the refill loop. -/
theorem alloc_rx_loop_step (env : alloc_env) (fuel k : Nat) (s : aic880d80_private)
    (skb : sk_buff) (dma : Nat)
    (hnf : (s.rx_head + 1) % AIC880D80_RX_RING_SIZE ≠ s.rx_tail)
    (hemp : (s.rx_skbs (s.rx_head % AIC880D80_RX_RING_SIZE)).isSome = false)
    (hA : env.alloc k = some skb) (hM : env.map k = some dma) :
    ∃ s1, alloc_rx_loop env (fuel + 1) k s = alloc_rx_loop env fuel (k + 1) s1 ∧
      s1.trace = s.trace ++
        [Event.netdev_alloc_skb_ip_align AIC880D80_BUFFER_SIZE (some skb),
         Event.dma_map_single skb.data AIC880D80_BUFFER_SIZE dma_dir.DMA_FROM_DEVICE (some dma)] ∧
      s1.rx_head = (s.rx_head + 1) % AIC880D80_RX_RING_SIZE ∧ s1.rx_tail = s.rx_tail ∧
      s1.rx_skbs = Function.update s.rx_skbs (s.rx_head % AIC880D80_RX_RING_SIZE) (some skb) ∧
      s1.rx_ring = Function.update s.rx_ring (s.rx_head % AIC880D80_RX_RING_SIZE)
        (rx_desc_of dma) := by
  refine ⟨{ s with
      trace := s.trace ++
        [Event.netdev_alloc_skb_ip_align AIC880D80_BUFFER_SIZE (some skb),
         Event.dma_map_single skb.data AIC880D80_BUFFER_SIZE dma_dir.DMA_FROM_DEVICE (some dma)]
      rx_head := (s.rx_head + 1) % AIC880D80_RX_RING_SIZE
      rx_skbs := Function.update s.rx_skbs (s.rx_head % AIC880D80_RX_RING_SIZE) (some skb)
      rx_ring := Function.update s.rx_ring (s.rx_head % AIC880D80_RX_RING_SIZE)
        (rx_desc_of dma) }, ?_, rfl, rfl, rfl, rfl, rfl⟩
  simp only [rx_ring_size_eq] at hnf hemp
  simp only [alloc_rx_loop, rx_ring_size_eq, u32_mod_ring, bne_iff_ne, ne_eq, hnf,
    not_false_eq_true, if_true, hA, hM]
  simp [hemp, emit, rx_desc_of]

theorem armed_count_le (env : alloc_env) (f k : Nat) : armed_count env f k ≤ f := by
  induction f generalizing k with
  | zero => simp [armed_count]
  | succ f ih =>
    simp only [armed_count]
    split_ifs
    · have := ih (k + 1); omega
    · omega

/-- The steps counted by `armed_count` succeed, and the one after them, if it is
among the `f` steps considered, fails. -/
theorem armed_count_spec (env : alloc_env) (f k : Nat) :
    (∀ j, j < armed_count env f k → env_success env (k + j) = true) ∧
    (armed_count env f k < f → env_success env (k + armed_count env f k) = false) := by
  induction f generalizing k with
  | zero => simp [armed_count]
  | succ f ih =>
    simp only [armed_count]
    split_ifs with hs
    · obtain ⟨h1, h2⟩ := ih (k + 1)
      refine ⟨?_, ?_⟩
      · intro j hj
        cases j with
        | zero => simpa using hs
        | succ j =>
          have := h1 j (by omega)
          rwa [show k + 1 + j = k + (j + 1) by omega] at this
      · intro hlt
        have := h2 (by omega)
        rwa [show k + 1 + armed_count env f (k + 1) = k + (armed_count env f (k + 1) + 1)
          by omega] at this
    · refine ⟨fun j hj => by omega, fun _ => by simpa using hs⟩

theorem flatMap_range_one (g : Nat → List Event) : (List.range 1).flatMap g = g 0 := by
  simp [List.range_succ]

/-- Refill, general form on the loop: on a well-formed ring with `rx_free` free
slots the loop arms `armed_count` consecutive slots from `rx_head`. -/
theorem alloc_rx_loop_spec (env : alloc_env) (fuel k : Nat) (s : aic880d80_private)
    (h : rx_wf s) (hf : rx_free s < fuel) :
    ∃ q, alloc_rx_loop env fuel k s = some q ∧
      q.rx_head = (s.rx_head + armed_count env (rx_free s) k) % 256 ∧
      q.rx_tail = s.rx_tail ∧
      (∀ j, j < armed_count env (rx_free s) k → ∃ skb dma,
        env.alloc (k + j) = some skb ∧ env.map (k + j) = some dma ∧
        q.rx_skbs ((s.rx_head + j) % 256) = some skb ∧
        q.rx_ring ((s.rx_head + j) % 256) = rx_desc_of dma) ∧
      (∀ i, (∀ j, j < armed_count env (rx_free s) k → i ≠ (s.rx_head + j) % 256) →
        q.rx_skbs i = s.rx_skbs i ∧ q.rx_ring i = s.rx_ring i) ∧
      q.trace = s.trace ++
        (List.range (refill_attempts (rx_free s) (armed_count env (rx_free s) k))).flatMap
          (fun j => refill_slot_events env (k + j)) := by
  induction fuel generalizing k s with
  | zero => omega
  | succ fuel ih =>
    have hh := h.1
    have ht := h.2.1
    simp only [rx_ring_size_eq] at hh ht
    have hmod : s.rx_head % AIC880D80_RX_RING_SIZE = s.rx_head := by
      simp only [rx_ring_size_eq]; omega
    cases hfree : rx_free s with
    | zero =>
      have hfull : (s.rx_head + 1) % AIC880D80_RX_RING_SIZE = s.rx_tail := by
        simp only [rx_free, rx_ring_size_eq] at hfree ⊢
        omega
      refine ⟨s, alloc_rx_loop_full env fuel k s hfull, ?_, rfl, ?_, fun i _ => ⟨rfl, rfl⟩, ?_⟩
      · simp only [armed_count]; omega
      · intro j hj; simp [armed_count] at hj
      · simp [armed_count, refill_attempts]
    | succ f =>
      have hnf : (s.rx_head + 1) % AIC880D80_RX_RING_SIZE ≠ s.rx_tail := by
        simp only [rx_free, rx_ring_size_eq] at hfree ⊢
        omega
      have hemp : (s.rx_skbs (s.rx_head % AIC880D80_RX_RING_SIZE)).isSome = false := by
        rw [hmod]
        cases hx : (s.rx_skbs s.rx_head).isSome with
        | false => rfl
        | true =>
          have hw := (h.2.2 s.rx_head (by simp only [rx_ring_size_eq]; omega)).mp hx
          simp only [in_window, rx_ring_size_eq] at hw
          omega
      cases hA : env.alloc k with
      | none =>
        have hs : env_success env k = false := by simp [env_success, hA]
        refine ⟨_, alloc_rx_loop_nomem env fuel k s hnf hemp hA, ?_, rfl, ?_,
          fun i _ => ⟨rfl, rfl⟩, ?_⟩
        · simp only [armed_count, hs, Bool.false_eq_true, if_false]
          show s.rx_head = _
          omega
        · intro j hj; simp [armed_count, hs] at hj
        · have hr : refill_attempts (f + 1) (armed_count env (f + 1) k) = 1 := by
            simp [armed_count, hs, refill_attempts]
          rw [hr, flatMap_range_one]
          simp [refill_slot_events, hA, emit]
      | some skb =>
        cases hM : env.map k with
        | none =>
          have hs : env_success env k = false := by simp [env_success, hA, hM]
          obtain ⟨q, hq, q1, q2, q3, q4, q5⟩ :=
            alloc_rx_loop_mapfail env fuel k s skb hnf hemp hA hM
          refine ⟨q, hq, ?_, q3, ?_, fun i _ => by rw [q4, q5]; exact ⟨rfl, rfl⟩, ?_⟩
          · simp only [armed_count, hs, Bool.false_eq_true, if_false]
            rw [q2]; omega
          · intro j hj; simp [armed_count, hs] at hj
          · have hr : refill_attempts (f + 1) (armed_count env (f + 1) k) = 1 := by
              simp [armed_count, hs, refill_attempts]
            rw [q1, hr, flatMap_range_one]
            simp [refill_slot_events, hA, hM]
        | some dma =>
          have hs : env_success env k = true := by simp [env_success, hA, hM]
          obtain ⟨s1, hstep, t1, t2, t3, t4, t5⟩ :=
            alloc_rx_loop_step env fuel k s skb dma hnf hemp hA hM
          have hnf2 : u32 (s.rx_head + 1) % AIC880D80_RX_RING_SIZE ≠ s.rx_tail := by
            simp only [rx_ring_size_eq, u32_mod_ring]
            simpa only [rx_ring_size_eq] using hnf
          have hwf1 : rx_wf s1 := rx_wf_refill_step s s1 skb h hnf2
            (by simp only [rx_ring_size_eq, u32_mod_ring]; simpa only [rx_ring_size_eq] using t2)
            t3 t4
          rw [hmod] at t4 t5
          simp only [rx_ring_size_eq] at t2 hnf
          have hfree1 : rx_free s1 = f := by
            simp only [rx_free, rx_ring_size_eq, t2, t3] at hfree ⊢
            omega
          obtain ⟨q, hq, i1, i2, i3, i4, i5⟩ := ih (k + 1) s1 hwf1 (by omega)
          rw [hfree1] at i1 i3 i4 i5
          have hm : armed_count env (f + 1) k = armed_count env f (k + 1) + 1 := by
            simp only [armed_count, hs, if_true]
          have hmle := armed_count_le env f (k + 1)
          have hf255 : f + 1 ≤ 255 := by
            simp only [rx_free, rx_ring_size_eq] at hfree
            omega
          rw [hm]
          refine ⟨q, by rw [hstep]; exact hq, ?_, by rw [i2, t3], ?_, ?_, ?_⟩
          · rw [i1, t2]; omega
          · intro j hj
            cases j with
            | zero =>
              have hfr := i4 s.rx_head (by
                intro j hj2
                rw [t2]
                omega)
              refine ⟨skb, dma, by simpa using hA, by simpa using hM, ?_, ?_⟩
              · rw [Nat.add_zero, Nat.mod_eq_of_lt hh, hfr.1, t4, Function.update_same]
              · rw [Nat.add_zero, Nat.mod_eq_of_lt hh, hfr.2, t5, Function.update_same]
            | succ j =>
              obtain ⟨skb2, dma2, a1, a2, a3, a4⟩ := i3 j (by omega)
              have hidx : (s1.rx_head + j) % 256 = (s.rx_head + (j + 1)) % 256 := by
                rw [t2]; omega
              refine ⟨skb2, dma2, ?_, ?_, ?_, ?_⟩
              · rwa [show k + (j + 1) = k + 1 + j by omega]
              · rwa [show k + (j + 1) = k + 1 + j by omega]
              · rwa [hidx] at a3
              · rwa [hidx] at a4
          · intro i hi
            have hi0 := hi 0 (by omega)
            rw [Nat.add_zero, Nat.mod_eq_of_lt hh] at hi0
            have hfr := i4 i (by
              intro j hj
              have := hi (j + 1) (by omega)
              rw [t2]
              intro hc
              apply this
              rw [hc]
              omega)
            rw [hfr.1, hfr.2, t4, t5]
            exact ⟨Function.update_noteq hi0 _ _, Function.update_noteq hi0 _ _⟩
          · have hra : refill_attempts (f + 1) (armed_count env f (k + 1) + 1)
                = refill_attempts f (armed_count env f (k + 1)) + 1 := by
              simp only [refill_attempts]
              split_ifs <;> omega
            rw [i5, t1, hra, List.range_succ_eq_map, List.flatMap_cons, List.flatMap_map,
              List.append_assoc]
            congr 1
            have he0 : refill_slot_events env (k + 0) =
                [Event.netdev_alloc_skb_ip_align AIC880D80_BUFFER_SIZE (some skb),
                 Event.dma_map_single skb.data AIC880D80_BUFFER_SIZE dma_dir.DMA_FROM_DEVICE
                   (some dma)] := by
              simp [refill_slot_events, hA, hM]
            rw [he0]
            congr 1
            apply flatMap_congr_mem
            intro j _
            simp only [Function.comp, Nat.succ_eq_add_one]
            rw [show k + 1 + j = k + (j + 1) by omega]

/-- C11: refill postcondition.  On a well-formed RX state with
`f = N - 1 - ((rx_head - rx_tail) mod N)` free slots, `aic880d80_alloc_rx_buffers`
returns, having armed exactly `m` slots, where `m ≤ f` is the number of
successful acquire-and-map steps before the first failure (`m = f` when none
fails).  The `j`-th armed slot `rx_head + j` holds the mapped address, length
`AIC880D80_BUFFER_SIZE` and the owned-by-hardware status, and its buffer is
recorded in `rx_skbs`; no other slot changes; `rx_head` advances by `m` modulo
`N`, `rx_tail` is unchanged; the calls made are those of the `m` successful
iterations and of the failing one, if any; a buffer whose mapping failed is
released last and is written to no slot; without failure the ring ends full. -/
theorem refill_postcondition (env : alloc_env) (priv : aic880d80_private) (h : rx_wf priv) :
    ∃ q, aic880d80_alloc_rx_buffers env priv = some q ∧
      armed_count env (rx_free priv) 0 ≤ rx_free priv ∧
      (∀ j, j < armed_count env (rx_free priv) 0 → env_success env j = true) ∧
      (armed_count env (rx_free priv) 0 < rx_free priv →
        env_success env (armed_count env (rx_free priv) 0) = false) ∧
      (∀ j, j < armed_count env (rx_free priv) 0 → ∃ skb dma,
        env.alloc j = some skb ∧ env.map j = some dma ∧
        q.rx_skbs ((priv.rx_head + j) % AIC880D80_RX_RING_SIZE) = some skb ∧
        q.rx_ring ((priv.rx_head + j) % AIC880D80_RX_RING_SIZE)
          = { buffer := dma, length := AIC880D80_BUFFER_SIZE, status := AIC880D80_DESC_OWN } ∧
        desc_owned (q.rx_ring ((priv.rx_head + j) % AIC880D80_RX_RING_SIZE)) = true) ∧
      (∀ i, (∀ j, j < armed_count env (rx_free priv) 0 →
          i ≠ (priv.rx_head + j) % AIC880D80_RX_RING_SIZE) →
        q.rx_skbs i = priv.rx_skbs i ∧ q.rx_ring i = priv.rx_ring i) ∧
      q.rx_head = (priv.rx_head + armed_count env (rx_free priv) 0) % AIC880D80_RX_RING_SIZE ∧
      q.rx_tail = priv.rx_tail ∧
      q.trace = priv.trace ++
        (List.range (refill_attempts (rx_free priv) (armed_count env (rx_free priv) 0))).flatMap
          (refill_slot_events env) ∧
      (∀ skb, armed_count env (rx_free priv) 0 < rx_free priv →
        env.alloc (armed_count env (rx_free priv) 0) = some skb →
        env.map (armed_count env (rx_free priv) 0) = none →
        ∃ pre, q.trace = pre ++
          [Event.netdev_alloc_skb_ip_align AIC880D80_BUFFER_SIZE (some skb),
           Event.dma_map_single skb.data AIC880D80_BUFFER_SIZE dma_dir.DMA_FROM_DEVICE none,
           Event.dev_kfree_skb (some skb)]) ∧
      (armed_count env (rx_free priv) 0 = rx_free priv →
        (q.rx_head + 1) % AIC880D80_RX_RING_SIZE = q.rx_tail) := by
  have hh := h.1
  have ht := h.2.1
  simp only [rx_ring_size_eq] at hh ht
  have hfree : rx_free priv < AIC880D80_RX_RING_SIZE + 1 := by
    simp only [rx_free, rx_ring_size_eq]; omega
  obtain ⟨q, hq, i1, i2, i3, i4, i5⟩ := alloc_rx_loop_spec env _ 0 priv h hfree
  obtain ⟨c1, c2⟩ := armed_count_spec env (rx_free priv) 0
  simp only [Nat.zero_add] at i3 i5 c1 c2
  refine ⟨q, hq, armed_count_le env _ 0, c1, c2, ?_, i4, i1, i2, i5, ?_, ?_⟩
  · intro j hj
    obtain ⟨skb, dma, a1, a2, a3, a4⟩ := i3 j hj
    refine ⟨skb, dma, a1, a2, a3, a4, ?_⟩
    rw [rx_ring_size_eq, a4]
    exact desc_owned_own _ _
  · intro skb hlt hA hM
    refine ⟨priv.trace ++ (List.range (armed_count env (rx_free priv) 0)).flatMap
      (refill_slot_events env), ?_⟩
    have hr : refill_attempts (rx_free priv) (armed_count env (rx_free priv) 0)
        = armed_count env (rx_free priv) 0 + 1 := by
      simp only [refill_attempts, hlt, if_true]
    rw [i5, hr, List.range_succ, List.flatMap_append, List.append_assoc]
    congr 2
    simp [refill_slot_events, hA, hM]
  · intro hm
    rw [i1, i2, hm]
    simp only [rx_free, rx_ring_size_eq]
    omega

/-- Witness of C11: the example ring (`rx_head = 3`, `rx_tail = 0`, 252 free
slots) refilled while the third mapping fails: slots 3 and 4 are armed,
`rx_head` becomes 5, slot 5 stays empty and the third buffer is released. -/
theorem refill_postcondition_witness :
    rx_wf rx_demo_state ∧
    ∃ q, aic880d80_alloc_rx_buffers (env_two_then_mapfail 1048576) rx_demo_state = some q ∧
      q.rx_head = 5 ∧ q.rx_tail = 0 ∧
      q.trace = rx_demo_state.trace ++
        [Event.netdev_alloc_skb_ip_align AIC880D80_BUFFER_SIZE (some { data := 1048576, len := 0 }),
         Event.dma_map_single 1048576 AIC880D80_BUFFER_SIZE dma_dir.DMA_FROM_DEVICE
           (some 1048576),
         Event.netdev_alloc_skb_ip_align AIC880D80_BUFFER_SIZE (some { data := 1052672, len := 0 }),
         Event.dma_map_single 1052672 AIC880D80_BUFFER_SIZE dma_dir.DMA_FROM_DEVICE
           (some 1052672),
         Event.netdev_alloc_skb_ip_align AIC880D80_BUFFER_SIZE (some { data := 1056768, len := 0 }),
         Event.dma_map_single 1056768 AIC880D80_BUFFER_SIZE dma_dir.DMA_FROM_DEVICE none,
         Event.dev_kfree_skb (some { data := 1056768, len := 0 })] ∧
      q.rx_skbs 5 = none := by
  obtain ⟨q, h1, _, _, _, _, h6, h7, h8, h9, _, _⟩ :=
    refill_postcondition (env_two_then_mapfail 1048576) rx_demo_state rx_demo_state_wf
  refine ⟨rx_demo_state_wf, q, h1, h7, h8, h9, ?_⟩
  exact (h6 5 (by decide)).1

/-! ## Descriptor errors -/

/-- One round of the drain loop on a completed descriptor, as an equation. -/
theorem process_rx_loop_step_eq (n : Nat) (priv : aic880d80_private)
    (hne : priv.rx_tail ≠ priv.rx_head)
    (hno : desc_owned (priv.rx_ring (priv.rx_tail % AIC880D80_RX_RING_SIZE)) = false) :
    process_rx_loop (n + 1) priv = process_rx_loop n (rx_drain_step priv) := by
  simp only [process_rx_loop]
  rw [if_pos (by simpa using hne)]
  simp only [hno, Bool.false_eq_true, if_false]
  simp only [emit, rx_slot_events, rx_drain_step, List.append_assoc, List.singleton_append,
    List.cons_append, List.nil_append, rx_ring_size_eq, u32_mod_ring]

/-- The drain never changes the receive error counter. -/
theorem process_rx_loop_rx_errors (n : Nat) (priv : aic880d80_private) :
    (process_rx_loop n priv).rx_errors = priv.rx_errors := by
  induction n generalizing priv with
  | zero => rfl
  | succ n ih =>
    by_cases he : priv.rx_tail = priv.rx_head
    · rw [process_rx_loop_empty _ _ he]
    · cases ho : desc_owned (priv.rx_ring (priv.rx_tail % AIC880D80_RX_RING_SIZE)) with
      | true => rw [process_rx_loop_owned _ _ ho]
      | false =>
        rw [process_rx_loop_step_eq n priv he ho, ih]
        rfl

/-- C15, as stated, fails: a descriptor completed with the error flag set and
length 64 is delivered upstream like any other, and the receive error counter
stays 0. -/
theorem drain_delivers_error_descriptor :
    ((rx_err_state.rx_ring 0).status &&& AIC880D80_DESC_ERR ≠ 0) ∧
    desc_owned (rx_err_state.rx_ring 0) = false ∧
    delivered (aic880d80_process_rx_ring rx_err_state 1).trace
      = [(some { data := 4096, len := 0 }, 64)] ∧
    Event.netif_receive_skb (some { data := 4096, len := 0 })
      ∈ (aic880d80_process_rx_ring rx_err_state 1).trace ∧
    rx_err_state.rx_errors = 0 ∧
    (aic880d80_process_rx_ring rx_err_state 1).rx_errors = 0 :=
  ⟨by decide, by decide, rfl, by decide, rfl, rfl⟩

/-- On a well-formed ring that is not empty, the table entry at `rx_tail` holds
a buffer. -/
theorem rx_wf_tail_some (priv : aic880d80_private) (h : rx_wf priv)
    (hne : priv.rx_tail ≠ priv.rx_head) :
    ∃ b, priv.rx_skbs (priv.rx_tail % AIC880D80_RX_RING_SIZE) = some b := by
  obtain ⟨hh, ht, hs⟩ := h
  have hw : in_window AIC880D80_RX_RING_SIZE priv.rx_tail priv.rx_head
      (priv.rx_tail % AIC880D80_RX_RING_SIZE) := by
    simp only [in_window, rx_ring_size_eq] at *
    omega
  exact Option.isSome_iff_exists.mp ((hs _ hw.1).mpr hw)

theorem rx_err_state_wf : rx_wf rx_err_state := by
  refine ⟨by decide, by decide, ?_⟩
  intro i hi
  simp only [rx_err_state, in_window, rx_ring_size_eq]
  split_ifs with h0
  · simp only [Option.isSome_some, true_iff]; omega
  · simp only [Option.isSome_none]
    constructor
    · intro hf; cases hf
    · intro hw; omega

/-- C15, amended: on a well-formed RX ring, for every completed descriptor at
`rx_tail` whose status has the error flag set, the table entry holds a buffer
`b`, and `aic880d80_process_rx_ring` with budget at least 1 unmaps the buffer,
hands `b` upstream with the descriptor's length, empties the table entry and
advances `rx_tail`, exactly as for a descriptor without the flag, leaving a
well-formed ring on which it goes on with the rest of the budget; the receive
error counter is unchanged. -/
theorem drain_error_descriptor (priv : aic880d80_private) (budget : Int)
    (h : rx_wf priv) (hbud : 1 ≤ budget) (hne : priv.rx_tail ≠ priv.rx_head)
    (hno : desc_owned (priv.rx_ring (priv.rx_tail % AIC880D80_RX_RING_SIZE)) = false)
    (herr : (priv.rx_ring (priv.rx_tail % AIC880D80_RX_RING_SIZE)).status
      &&& AIC880D80_DESC_ERR ≠ 0) :
    ∃ b : sk_buff,
      priv.rx_skbs (priv.rx_tail % AIC880D80_RX_RING_SIZE) = some b ∧
      ((priv.rx_ring (priv.rx_tail % AIC880D80_RX_RING_SIZE)).status
        &&& AIC880D80_DESC_ERR ≠ 0) ∧
      aic880d80_process_rx_ring priv budget
        = aic880d80_process_rx_ring (rx_drain_step priv) (budget - 1) ∧
      rx_wf (rx_drain_step priv) ∧
      (rx_drain_step priv).trace = priv.trace ++
        [Event.dma_unmap_single (priv.rx_ring (priv.rx_tail % AIC880D80_RX_RING_SIZE)).buffer
           (priv.rx_ring (priv.rx_tail % AIC880D80_RX_RING_SIZE)).length dma_dir.DMA_FROM_DEVICE,
         Event.skb_put (some b) (priv.rx_ring (priv.rx_tail % AIC880D80_RX_RING_SIZE)).length,
         Event.eth_type_trans (some b),
         Event.netif_receive_skb (some b)] ∧
      (rx_drain_step priv).rx_skbs (priv.rx_tail % AIC880D80_RX_RING_SIZE) = none ∧
      (rx_drain_step priv).rx_tail = (priv.rx_tail + 1) % AIC880D80_RX_RING_SIZE ∧
      (rx_drain_step priv).rx_errors = priv.rx_errors ∧
      (aic880d80_process_rx_ring priv budget).rx_errors = priv.rx_errors ∧
      Event.netif_receive_skb (some b)
        ∈ trace_since priv (aic880d80_process_rx_ring priv budget) ∧
      (some b, (priv.rx_ring (priv.rx_tail % AIC880D80_RX_RING_SIZE)).length)
        ∈ delivered (trace_since priv (aic880d80_process_rx_ring priv budget)) := by
  obtain ⟨n, hn⟩ : ∃ n, budget.toNat = n + 1 := ⟨budget.toNat - 1, by omega⟩
  have hn2 : (budget - 1).toNat = n := by omega
  obtain ⟨b, hb⟩ := rx_wf_tail_some priv h hne
  have hstep : aic880d80_process_rx_ring priv budget
      = aic880d80_process_rx_ring (rx_drain_step priv) (budget - 1) := by
    simp only [aic880d80_process_rx_ring, hn, hn2]
    exact process_rx_loop_step_eq n priv hne hno
  have hwf : rx_wf (rx_drain_step priv) :=
    rx_wf_drain_step priv (rx_drain_step priv) h hne rfl
      (by simp only [rx_drain_step, rx_ring_size_eq, u32_mod_ring]) rfl
  have htr : (rx_drain_step priv).trace = priv.trace ++
      [Event.dma_unmap_single (priv.rx_ring (priv.rx_tail % AIC880D80_RX_RING_SIZE)).buffer
         (priv.rx_ring (priv.rx_tail % AIC880D80_RX_RING_SIZE)).length dma_dir.DMA_FROM_DEVICE,
       Event.skb_put (some b) (priv.rx_ring (priv.rx_tail % AIC880D80_RX_RING_SIZE)).length,
       Event.eth_type_trans (some b),
       Event.netif_receive_skb (some b)] := by
    simp only [rx_drain_step, rx_slot_events, hb]
  obtain ⟨new, hnew, _⟩ := process_rx_loop_effect n (rx_drain_step priv)
  have hts : trace_since priv (aic880d80_process_rx_ring priv budget)
      = [Event.dma_unmap_single (priv.rx_ring (priv.rx_tail % AIC880D80_RX_RING_SIZE)).buffer
           (priv.rx_ring (priv.rx_tail % AIC880D80_RX_RING_SIZE)).length dma_dir.DMA_FROM_DEVICE,
         Event.skb_put (some b) (priv.rx_ring (priv.rx_tail % AIC880D80_RX_RING_SIZE)).length,
         Event.eth_type_trans (some b),
         Event.netif_receive_skb (some b)] ++ new := by
    apply trace_since_append
    rw [hstep]
    simp only [aic880d80_process_rx_ring, hn2]
    rw [hnew, htr, List.append_assoc]
  refine ⟨b, hb, herr, hstep, hwf, htr, ?_, rfl, rfl, process_rx_loop_rx_errors _ _, ?_, ?_⟩
  · simp [rx_drain_step]
  · rw [hts]
    simp
  · rw [hts]
    exact List.mem_cons_self _ _

/-- Witness of the amended C15 on the ring with one descriptor completed in error. -/
theorem drain_error_descriptor_witness :
    rx_wf rx_err_state ∧
    rx_err_state.rx_skbs (rx_err_state.rx_tail % AIC880D80_RX_RING_SIZE)
      = some { data := 4096, len := 0 } ∧
    aic880d80_process_rx_ring rx_err_state 1
      = aic880d80_process_rx_ring (rx_drain_step rx_err_state) (1 - 1) ∧
    (rx_drain_step rx_err_state).trace =
      [Event.dma_unmap_single 4096 64 dma_dir.DMA_FROM_DEVICE,
       Event.skb_put (some { data := 4096, len := 0 }) 64,
       Event.eth_type_trans (some { data := 4096, len := 0 }),
       Event.netif_receive_skb (some { data := 4096, len := 0 })] ∧
    (rx_drain_step rx_err_state).rx_tail = 1 ∧
    (aic880d80_process_rx_ring rx_err_state 1).rx_errors = 0 ∧
    (some { data := 4096, len := 0 }, 64)
      ∈ delivered (trace_since rx_err_state (aic880d80_process_rx_ring rx_err_state 1)) := by
  obtain ⟨b, hb⟩ := drain_error_descriptor rx_err_state 1 rx_err_state_wf (by decide)
    (by decide) (by decide) (by decide)
  have e : b = { data := 4096, len := 0 } := Option.some.inj (hb.1.symm.trans rfl)
  subst e
  exact ⟨rx_err_state_wf, hb.1, hb.2.2.1, hb.2.2.2.2.1, hb.2.2.2.2.2.2.1,
    hb.2.2.2.2.2.2.2.2.1, hb.2.2.2.2.2.2.2.2.2.2⟩

/-! ## Reset -/

/-- The reset poll loop when the RESET bit is set on the first `i` polls and
clear on the next one, which is among the `t` polls allowed: the loop leaves
with `timeout = t - 1 - i` after `i + 1` reads. -/
theorem hw_reset_poll_clear_at (reads : Nat → Nat) (i t k : Nat) (s : aic880d80_private)
    (hi : i < t)
    (hset : ∀ j, j < i → reads (k + j) &&& AIC880D80_CTRL_RESET ≠ 0)
    (hclr : reads (k + i) &&& AIC880D80_CTRL_RESET = 0) :
    ∃ q, hw_reset_poll reads t k s = (((t - 1 - i : Nat) : Int), k + i + 1, q) ∧
      q.trace = s.trace ++
        ((List.range i).flatMap (fun j => reset_poll_events reads (k + j)) ++
          [Event.readl AIC880D80_REG_CTRL (reads (k + i))]) := by
  induction i generalizing t k s with
  | zero =>
    obtain ⟨t1, rfl⟩ : ∃ t1, t = t1 + 1 := ⟨t - 1, by omega⟩
    rw [Nat.add_zero] at hclr
    refine ⟨emit s (Event.readl AIC880D80_REG_CTRL (reads k)), ?_, by simp [emit]⟩
    simp [hw_reset_poll, hclr]
  | succ i ih =>
    obtain ⟨t1, rfl⟩ : ∃ t1, t = t1 + 1 := ⟨t - 1, by omega⟩
    have h0 := hset 0 (by omega)
    rw [Nat.add_zero] at h0
    obtain ⟨q, hq, htr⟩ := ih t1 (k + 1)
      (emit (emit s (Event.readl AIC880D80_REG_CTRL (reads k))) (Event.usleep_range 10 20))
      (by omega)
      (by
        intro j hj
        have := hset (j + 1) (by omega)
        rwa [show k + (j + 1) = k + 1 + j by omega] at this)
      (by rwa [show k + (i + 1) = k + 1 + i by omega] at hclr)
    refine ⟨q, ?_, ?_⟩
    · simp only [hw_reset_poll, beq_iff_eq, h0, if_false]
      rw [hq]
      simp only [Prod.mk.injEq, and_true, Nat.cast_inj]
      omega
    · rw [htr, List.range_succ_eq_map, List.flatMap_cons, List.flatMap_map]
      simp only [emit, reset_poll_events, List.append_assoc, List.singleton_append,
        List.cons_append, List.nil_append, Nat.add_zero, Function.comp, Nat.succ_eq_add_one]
      have e1 : (fun j => [Event.readl AIC880D80_REG_CTRL (reads (k + 1 + j)),
            Event.usleep_range 10 20])
          = (fun a => [Event.readl AIC880D80_REG_CTRL (reads (k + (a + 1))),
            Event.usleep_range 10 20]) := by
        funext j
        rw [show k + 1 + j = k + (j + 1) by omega]
      rw [e1, show k + 1 + i = k + (i + 1) by omega]

/-- C16 at its failing input: the RESET bit reads as set on the first 999 polls
of the control register and as clear on the 1000th.  `aic880d80_hw_reset` makes
those 1000 polls, the last of which reads 0, and returns `-ETIMEDOUT`, writing
nothing after the initial reset request. -/
theorem hw_reset_off_by_one :
    (∀ j, j < 999 → reset_reads_late j &&& AIC880D80_CTRL_RESET ≠ 0) ∧
    reset_reads_late 999 &&& AIC880D80_CTRL_RESET = 0 ∧
    (aic880d80_hw_reset reset_reads_late idle_state).1 = -ETIMEDOUT ∧
    (aic880d80_hw_reset reset_reads_late idle_state).2.trace
      = Event.writel AIC880D80_CTRL_RESET AIC880D80_REG_CTRL ::
          ((List.range 999).flatMap (reset_poll_events reset_reads_late) ++
            [Event.readl AIC880D80_REG_CTRL 0]) := by
  have hset : ∀ j, j < 999 → reset_reads_late (0 + j) &&& AIC880D80_CTRL_RESET ≠ 0 := by
    intro j hj
    rw [Nat.zero_add]
    simp only [reset_reads_late, hj, if_true]
    decide
  have hclr : reset_reads_late (0 + 999) &&& AIC880D80_CTRL_RESET = 0 := by decide
  obtain ⟨q, hq, htr⟩ := hw_reset_poll_clear_at reset_reads_late 999 1000 0
    (aic880d80_write32 idle_state AIC880D80_REG_CTRL AIC880D80_CTRL_RESET)
    (by omega) hset hclr
  refine ⟨fun j hj => by simpa using hset j hj, by decide, ?_, ?_⟩
  · simp only [aic880d80_hw_reset, hq]
    simp
  · simp only [aic880d80_hw_reset, hq]
    simp only [Nat.reduceSub, Nat.cast_zero, le_refl, if_true, htr]
    simp [aic880d80_write32, emit, idle_state, reset_reads_late]

/-! ## Bring-up -/

/-- When the buffer loop of the bring-up completes, it has armed the slots
`i, ..., i + n - 1` and touched neither another slot nor the ring indices. -/
theorem setup_rx_buffers_ok (env : alloc_env) (n i : Nat) (s q : aic880d80_private)
    (h : setup_rx_buffers env n i s = (true, q)) :
    q.rx_head = s.rx_head ∧ q.rx_tail = s.rx_tail ∧
    (∀ j, j < n → ∃ skb dma, env.alloc (i + j) = some skb ∧ env.map (i + j) = some dma ∧
      q.rx_skbs (i + j) = some skb ∧
      q.rx_ring (i + j) =
        { buffer := dma, length := AIC880D80_RX_BUFFER_SIZE, status := AIC880D80_DESC_OWN }) ∧
    (∀ x, (x < i ∨ i + n ≤ x) → q.rx_skbs x = s.rx_skbs x ∧ q.rx_ring x = s.rx_ring x) := by
  induction n generalizing i s with
  | zero =>
    simp only [setup_rx_buffers, Prod.mk.injEq, true_and] at h
    subst h
    exact ⟨rfl, rfl, fun j hj => by omega, fun x _ => ⟨rfl, rfl⟩⟩
  | succ n ih =>
    simp only [setup_rx_buffers] at h
    cases hA : env.alloc i with
    | none => simp [hA] at h
    | some skb =>
      cases hM : env.map i with
      | none => simp [hA, hM] at h
      | some dma =>
        simp only [hA, hM] at h
        obtain ⟨i1, i2, i3, i4⟩ := ih (i + 1) _ h
        refine ⟨i1, i2, ?_, ?_⟩
        · intro j hj
          cases j with
          | zero =>
            have := i4 i (Or.inl (by omega))
            refine ⟨skb, dma, hA, hM, ?_, ?_⟩
            · rw [Nat.add_zero, this.1]; simp [emit]
            · rw [Nat.add_zero, this.2]; simp [emit]
          | succ j =>
            obtain ⟨skb2, dma2, a1, a2, a3, a4⟩ := i3 j (by omega)
            rw [show i + 1 + j = i + (j + 1) by omega] at a1 a2 a3 a4
            exact ⟨skb2, dma2, a1, a2, a3, a4⟩
        · intro x hx
          have hxi : x ≠ i := by omega
          have := i4 x (by omega)
          rw [this.1, this.2]
          simp [emit, Function.update_noteq hxi]

/-- The buffer loop of the bring-up completes when every allocation and mapping succeeds. -/
theorem setup_rx_buffers_success (env : alloc_env) (n i : Nat) (s : aic880d80_private)
    (hall : ∀ j, j < n → env_success env (i + j) = true) :
    (setup_rx_buffers env n i s).1 = true := by
  induction n generalizing i s with
  | zero => rfl
  | succ n ih =>
    have h0 := hall 0 (by omega)
    simp only [env_success, Nat.add_zero, Bool.and_eq_true] at h0
    obtain ⟨skb, hA⟩ := Option.isSome_iff_exists.mp h0.1
    obtain ⟨dma, hM⟩ := Option.isSome_iff_exists.mp h0.2
    simp only [setup_rx_buffers, hA, hM]
    apply ih
    intro j hj
    have := hall (j + 1) (by omega)
    rwa [show i + (j + 1) = i + 1 + j by omega] at this

/-- What a successful `aic880d80_setup_rings` leaves on the RX side. -/
theorem setup_rings_ok_facts (env : setup_env) (priv s : aic880d80_private)
    (h : aic880d80_setup_rings env priv = (0, s)) :
    s.rx_head = 0 ∧ s.rx_tail = 0 ∧
    (∀ i, i < 256 → ∃ skb dma, s.rx_skbs i = some skb ∧
      s.rx_ring i =
        { buffer := dma, length := AIC880D80_RX_BUFFER_SIZE, status := AIC880D80_DESC_OWN }) := by
  have hne : ¬ (-ENOMEM = (0 : Int)) := by decide
  simp only [aic880d80_setup_rings] at h
  split_ifs at h with h1 h2 h3 h4 h5 h6 h7
  all_goals first
    | (exfalso; exact hne (Prod.mk.inj h).1)
    | skip
  have h8 := (Prod.mk.inj h).2
  obtain ⟨i1, i2, i3, _⟩ := setup_rx_buffers_ok env.bufs _ 0 _ s
    (Prod.ext h7 h8)
  refine ⟨i1, i2, ?_⟩
  intro i hi
  obtain ⟨skb, dma, _, _, a3, a4⟩ := i3 i hi
  rw [Nat.zero_add] at a3 a4
  exact ⟨skb, dma, a3, a4⟩

/-- A bring-up in which nothing fails returns 0. -/
theorem setup_rings_success (env : setup_env) (priv : aic880d80_private)
    (h1 : env.rx_ring_ok = true) (h2 : env.tx_ring_ok = true) (h3 : env.rx_skbs_ok = true)
    (h4 : env.tx_skbs_ok = true) (h5 : env.rx_dma_ok = true) (h6 : env.tx_dma_ok = true)
    (hall : ∀ j, j < 256 → env_success env.bufs j = true) :
    (aic880d80_setup_rings env priv).1 = 0 := by
  simp only [aic880d80_setup_rings, h1, h2, h3, h4, h5, h6, Bool.not_true, Bool.false_eq_true,
    if_false]
  rw [if_pos]
  apply setup_rx_buffers_success
  intro j hj
  rw [Nat.zero_add]
  exact hall j hj

/-- C20: the bring-up state stalls the RX path.  After `aic880d80_setup_rings`
returns 0, `rx_head = rx_tail = 0` while every one of the `AIC880D80_RX_RING_SIZE`
slots is armed (owned by hardware, length `AIC880D80_RX_BUFFER_SIZE`) with a
buffer recorded in `rx_skbs`.  From that state, whatever hardware has since
written into the descriptors, `aic880d80_process_rx_ring` with any budget and
`aic880d80_alloc_rx_buffers` with any outcomes return the state unchanged: no
packet is delivered, no slot is armed, no call is logged. -/
theorem bringup_stalls_rx (env : setup_env) (priv s : aic880d80_private)
    (h : aic880d80_setup_rings env priv = (0, s)) :
    s.rx_head = 0 ∧ s.rx_tail = 0 ∧
    (∀ i, i < AIC880D80_RX_RING_SIZE →
      (s.rx_skbs i).isSome = true ∧ desc_owned (s.rx_ring i) = true ∧
      (s.rx_ring i).length = AIC880D80_RX_BUFFER_SIZE) ∧
    (∀ ring budget,
      aic880d80_process_rx_ring { s with rx_ring := ring } budget
        = { s with rx_ring := ring }) ∧
    (∀ ring env2,
      aic880d80_alloc_rx_buffers env2 { s with rx_ring := ring }
        = some { s with rx_ring := ring }) := by
  obtain ⟨h1, h2, h3⟩ := setup_rings_ok_facts env priv s h
  refine ⟨h1, h2, ?_, ?_, ?_⟩
  · intro i hi
    obtain ⟨skb, dma, a1, a2⟩ := h3 i hi
    rw [a1, a2]
    exact ⟨rfl, desc_owned_own _ _, rfl⟩
  · intro ring budget
    apply process_rx_loop_empty
    show s.rx_tail = s.rx_head
    rw [h1, h2]
  · intro ring env2
    apply alloc_rx_loop_occupied
    show (s.rx_skbs (s.rx_head % AIC880D80_RX_RING_SIZE)).isSome = true
    obtain ⟨skb, dma, a1, _⟩ := h3 0 (by omega)
    rw [h1]
    show (s.rx_skbs 0).isSome = true
    rw [a1]
    rfl

theorem bringup_state_ok : aic880d80_setup_rings setup_env_ok idle_state = (0, bringup_state) := by
  apply Prod.ext
  · exact setup_rings_success setup_env_ok idle_state rfl rfl rfl rfl rfl rfl
      (fun j _ => rfl)
  · rfl

/-- Witness of C20: the bring-up of the idle state with every allocation and
mapping succeeding. -/
theorem bringup_stalls_rx_witness :
    aic880d80_setup_rings setup_env_ok idle_state = (0, bringup_state) ∧
    bringup_state.rx_head = 0 ∧ bringup_state.rx_tail = 0 ∧
    (∀ i, i < AIC880D80_RX_RING_SIZE →
      (bringup_state.rx_skbs i).isSome = true ∧ desc_owned (bringup_state.rx_ring i) = true ∧
      (bringup_state.rx_ring i).length = AIC880D80_RX_BUFFER_SIZE) ∧
    (∀ ring budget,
      aic880d80_process_rx_ring { bringup_state with rx_ring := ring } budget
        = { bringup_state with rx_ring := ring }) ∧
    (∀ ring env2,
      aic880d80_alloc_rx_buffers env2 { bringup_state with rx_ring := ring }
        = some { bringup_state with rx_ring := ring }) :=
  ⟨bringup_state_ok, bringup_stalls_rx setup_env_ok idle_state bringup_state bringup_state_ok⟩

/-! ## Received length -/

/-- C21, as stated, fails: hardware completes slot 0 writing 4294967295 into the
length field; the drain passes 4294967295 to the unmap call and to `skb_put` and
delivers a packet of that length, far above the 2048 bytes of the buffer. -/
theorem drain_length_unbounded :
    desc_owned (rx_long_state.rx_ring 0) = false ∧
    (rx_long_state.rx_ring 0).length < 4294967296 ∧
    (aic880d80_process_rx_ring rx_long_state 1).trace
      = [Event.dma_unmap_single 4096 4294967295 dma_dir.DMA_FROM_DEVICE,
         Event.skb_put (some { data := 4096, len := 0 }) 4294967295,
         Event.eth_type_trans (some { data := 4096, len := 0 }),
         Event.netif_receive_skb (some { data := 4096, len := 0 })] ∧
    delivered (aic880d80_process_rx_ring rx_long_state 1).trace
      = [(some { data := 4096, len := 0 }, 4294967295)] ∧
    ¬ (4294967295 ≤ AIC880D80_BUFFER_SIZE) :=
  ⟨by decide, by decide, rfl, rfl, by decide⟩

theorem rx_long_state_wf : rx_wf rx_long_state := by
  refine ⟨by decide, by decide, ?_⟩
  intro i hi
  simp only [rx_long_state, in_window, rx_ring_size_eq]
  split_ifs with h0
  · simp only [Option.isSome_some, true_iff]; omega
  · simp only [Option.isSome_none]
    constructor
    · intro hf; cases hf
    · intro hw; omega

/-- C21, amended: on a well-formed RX ring whose first `k` slots from `rx_tail`
are completed and whose next slot, if in the window, is still hardware-owned,
`aic880d80_process_rx_ring` with `budget` handles the `m = min budget k` slots
`rx_tail + j`, `j < m`, and for each of them passes to the unmap call and to
`skb_put` exactly the value standing in the length field of that slot's
descriptor, unmasked and unclamped, whatever that value is; these are its only
unmap and `skb_put` calls, each slot's buffer is non-`NULL`, and the packets
delivered upstream have exactly those lengths.  Hence the lengths passed on do
not exceed `AIC880D80_BUFFER_SIZE` exactly when the length fields of the `m`
descriptors handled do not. -/
theorem drain_length_exact (priv : aic880d80_private) (budget : Int) (k m : Nat)
    (h : rx_wf priv) (hm : m = min budget.toNat k)
    (hdone : ∀ j, j < k →
      in_window AIC880D80_RX_RING_SIZE priv.rx_tail priv.rx_head (rx_slot priv j) ∧
      desc_owned (priv.rx_ring (rx_slot priv j)) = false)
    (hnext : in_window AIC880D80_RX_RING_SIZE priv.rx_tail priv.rx_head (rx_slot priv k) →
      desc_owned (priv.rx_ring (rx_slot priv k)) = true) :
    trace_since priv (aic880d80_process_rx_ring priv budget)
      = (List.range m).flatMap (fun j =>
          [Event.dma_unmap_single (priv.rx_ring (rx_slot priv j)).buffer
             (priv.rx_ring (rx_slot priv j)).length dma_dir.DMA_FROM_DEVICE,
           Event.skb_put (priv.rx_skbs (rx_slot priv j)) (priv.rx_ring (rx_slot priv j)).length,
           Event.eth_type_trans (priv.rx_skbs (rx_slot priv j)),
           Event.netif_receive_skb (priv.rx_skbs (rx_slot priv j))]) ∧
    (∀ j, j < m → ∃ b, priv.rx_skbs (rx_slot priv j) = some b) ∧
    delivered (trace_since priv (aic880d80_process_rx_ring priv budget))
      = (List.range m).map
          (fun j => (priv.rx_skbs (rx_slot priv j), (priv.rx_ring (rx_slot priv j)).length)) ∧
    (∀ a len, Event.dma_unmap_single a len dma_dir.DMA_FROM_DEVICE
        ∈ trace_since priv (aic880d80_process_rx_ring priv budget) ↔
      ∃ j, j < m ∧ a = (priv.rx_ring (rx_slot priv j)).buffer ∧
        len = (priv.rx_ring (rx_slot priv j)).length) ∧
    (∀ x len, Event.skb_put x len
        ∈ trace_since priv (aic880d80_process_rx_ring priv budget) ↔
      ∃ j, j < m ∧ x = priv.rx_skbs (rx_slot priv j) ∧
        len = (priv.rx_ring (rx_slot priv j)).length) ∧
    ((∀ j, j < m → (priv.rx_ring (rx_slot priv j)).length ≤ AIC880D80_BUFFER_SIZE) ↔
      ((∀ a len, Event.dma_unmap_single a len dma_dir.DMA_FROM_DEVICE
          ∈ trace_since priv (aic880d80_process_rx_ring priv budget) →
          len ≤ AIC880D80_BUFFER_SIZE) ∧
       (∀ x len, Event.skb_put x len
          ∈ trace_since priv (aic880d80_process_rx_ring priv budget) →
          len ≤ AIC880D80_BUFFER_SIZE) ∧
       (∀ p, p ∈ delivered (trace_since priv (aic880d80_process_rx_ring priv budget)) →
          p.2 ≤ AIC880D80_BUFFER_SIZE))) := by
  obtain ⟨i1, _⟩ := process_rx_loop_spec budget.toNat k priv h hdone hnext
  rw [← hm] at i1
  have hts : trace_since priv (aic880d80_process_rx_ring priv budget)
      = (List.range m).flatMap (fun j =>
          [Event.dma_unmap_single (priv.rx_ring (rx_slot priv j)).buffer
             (priv.rx_ring (rx_slot priv j)).length dma_dir.DMA_FROM_DEVICE,
           Event.skb_put (priv.rx_skbs (rx_slot priv j)) (priv.rx_ring (rx_slot priv j)).length,
           Event.eth_type_trans (priv.rx_skbs (rx_slot priv j)),
           Event.netif_receive_skb (priv.rx_skbs (rx_slot priv j))]) :=
    trace_since_append priv _ _ i1
  have hdel : delivered (trace_since priv (aic880d80_process_rx_ring priv budget))
      = (List.range m).map
          (fun j => (priv.rx_skbs (rx_slot priv j), (priv.rx_ring (rx_slot priv j)).length)) := by
    have hd := delivered_slot_events priv ((List.range m).map (rx_slot priv))
    have hts2 : trace_since priv (aic880d80_process_rx_ring priv budget)
        = rx_drain_events priv m := trace_since_append priv _ _ i1
    rw [hts2]
    simpa only [rx_drain_events, List.flatMap_map, List.map_map, Function.comp] using hd
  have hun : ∀ a len, Event.dma_unmap_single a len dma_dir.DMA_FROM_DEVICE
        ∈ trace_since priv (aic880d80_process_rx_ring priv budget) ↔
      ∃ j, j < m ∧ a = (priv.rx_ring (rx_slot priv j)).buffer ∧
        len = (priv.rx_ring (rx_slot priv j)).length := by
    intro a len
    rw [hts]
    simp [List.mem_flatMap]
  have hput : ∀ x len, Event.skb_put x len
        ∈ trace_since priv (aic880d80_process_rx_ring priv budget) ↔
      ∃ j, j < m ∧ x = priv.rx_skbs (rx_slot priv j) ∧
        len = (priv.rx_ring (rx_slot priv j)).length := by
    intro x len
    rw [hts]
    simp [List.mem_flatMap]
  refine ⟨hts, ?_, hdel, hun, hput, ?_⟩
  · intro j hj
    have hw := (hdone j (by omega)).1
    exact Option.isSome_iff_exists.mp ((h.2.2 _ hw.1).mpr hw)
  · constructor
    · intro hb
      refine ⟨?_, ?_, ?_⟩
      · intro a len hmem
        obtain ⟨j, hj, _, hl⟩ := (hun a len).mp hmem
        rw [hl]; exact hb j hj
      · intro x len hmem
        obtain ⟨j, hj, _, hl⟩ := (hput x len).mp hmem
        rw [hl]; exact hb j hj
      · intro p hp
        rw [hdel] at hp
        obtain ⟨j, hj, hpj⟩ := List.mem_map.mp hp
        rw [← hpj]
        exact hb j (List.mem_range.mp hj)
    · intro hb j hj
      exact hb.1 _ _ ((hun _ _).mpr ⟨j, hj, rfl, rfl⟩)

/-- Witness of the amended C21: the example ring, whose completed descriptors
carry lengths 64 and 128, drained with budget 10, and the ring whose completed
descriptor carries length 4294967295, drained with budget 1. -/
theorem drain_length_exact_witness :
    (rx_wf rx_demo_state ∧
      delivered (trace_since rx_demo_state (aic880d80_process_rx_ring rx_demo_state 10))
        = [(some { data := 4096, len := 0 }, 64), (some { data := 8192, len := 0 }, 128)] ∧
      (∀ x len, Event.skb_put x len
          ∈ trace_since rx_demo_state (aic880d80_process_rx_ring rx_demo_state 10) →
        len ≤ AIC880D80_BUFFER_SIZE)) ∧
    (rx_wf rx_long_state ∧
      trace_since rx_long_state (aic880d80_process_rx_ring rx_long_state 1)
        = [Event.dma_unmap_single 4096 4294967295 dma_dir.DMA_FROM_DEVICE,
           Event.skb_put (some { data := 4096, len := 0 }) 4294967295,
           Event.eth_type_trans (some { data := 4096, len := 0 }),
           Event.netif_receive_skb (some { data := 4096, len := 0 })] ∧
      delivered (trace_since rx_long_state (aic880d80_process_rx_ring rx_long_state 1))
        = [(some { data := 4096, len := 0 }, 4294967295)]) :=
  have h1 := drain_length_exact rx_demo_state 10 2 2 rx_demo_state_wf (by decide)
    rx_demo_state_done rx_demo_state_next
  have h2 := drain_length_exact rx_long_state 1 1 1 rx_long_state_wf (by decide)
    (by decide) (by decide)
  ⟨⟨rx_demo_state_wf, h1.2.2.1.trans rfl,
      (h1.2.2.2.2.2.mp (by decide)).2.1⟩,
    ⟨rx_long_state_wf, h2.1.trans rfl, h2.2.2.1.trans rfl⟩⟩

end AIC880D80
